import Mathlib

/-!
Channel creation and price-ratio update (add_channel.js, app.js)

A shallow embedding of the two implementations of the same pipeline:

* `add_channel.js` (Node): `createChannel`, `updateModelPriceRate`, `main`;
* `app.js` (browser): `createChannel`, `updatePrice`, `updateOption`, `runScript`.

The ECMAScript built-ins the programs call (`String.prototype.replace` with the
scheme pattern, `split`, property assignment, `JSON.stringify`, `JSON.parse`,
`fetch`) are modelled first, then the programs, then the theorems.

Conventions of the model.

* A JavaScript string is a Lean `String`: a sequence of Unicode scalar values.
  Strings holding unpaired surrogate code units are outside the model, and so
  are the JSON texts whose `\u` escapes denote one: the engine decodes them,
  the parser here refuses them. Where a refusal of the parser is a premise of
  a numbered statement (C10: a value that is not valid JSON; C11: a record
  that is skipped), the text is required to hold no escape of a surrogate
  (`escapesSurrogate`), so that the refusal is one of the engine too.
* A JavaScript number is an element of a carrier `ν` with the operations of
  the class `JSNumber`; every theorem holds for every carrier, so in
  particular for IEEE-754 binary64, which `Binary64` implements and the
  concrete runs use.
* Both files run in sloppy mode (a CommonJS module and a classic script, with
  no strict directive), which matters for assignments to a primitive.
* A JavaScript object is the list of its own enumerable string-keyed
  properties in `[[OwnPropertyKeys]]` order; the prototype of every object of
  the programs is `Object.prototype` (or `Array.prototype`), unmodified.
-/

namespace AddChannel

/-! ## Numbers -/

/-- The operations on ECMAScript Number values that the programs use. -/
class JSNumber (ν : Type) where
  /-- The operator `/`. -/
  div : ν → ν → ν
  /-- The abstract operation ToBoolean on a number (false on 0, -0 and NaN). -/
  toBoolean : ν → Bool
  /-- False on NaN and on the two infinities. -/
  isFinite : ν → Bool
  /-- The abstract operation Number::toString (radix 10). -/
  toString : ν → List Char
  /-- The value of a decimal literal: a text matching the JSON number grammar,
  or a literal of the program such as `2.5`. -/
  literal : List Char → ν
  /-- For `array.length = x`: `some n` when ToUint32 x equals x, which is n. -/
  toArrayLength : ν → Option Nat

/-! ## Strings -/

/-- Decimal digits of a natural number, most significant first; `fuel` bounds
the number of digits. -/
def natDigits : Nat → Nat → List Char → List Char
  | 0, _, acc => acc
  | fuel + 1, n, acc =>
    let acc1 := Char.ofNat (48 + n % 10) :: acc
    if n / 10 = 0 then acc1 else natDigits fuel (n / 10) acc1

/-- Number::toString of a non-negative integer below 10^21, as in the
template literal of an HTTP status. -/
def natToString (n : Nat) : String := ⟨natDigits (n + 1) n []⟩

/-! ## IEEE-754 binary64, the Number type -/

/-- An IEEE-754 binary64 value: the finite value is `m * 2 ^ e`, negated when
`neg`, with `m < 2 ^ 53`, `-1074 ≤ e ≤ 971`, and `e = -1074` when `m < 2 ^ 52`. -/
inductive Binary64 where
  | nan
  | inf (neg : Bool)
  | fin (neg : Bool) (m : Nat) (e : Int)
  deriving DecidableEq, Repr

namespace Binary64

/-- The quotient `p / q` rounded to the nearest integer, ties to even. -/
def roundHalfEven (p q : Nat) : Nat :=
  let d := p / q
  let r := p % q
  if 2 * r < q then d
  else if q < 2 * r then d + 1
  else if d % 2 = 0 then d else d + 1

/-- The positive rational `p / (q * 2 ^ e)`, for an integer `e`, as a pair. -/
def scale (p q : Nat) (e : Int) : Nat × Nat :=
  match e with
  | Int.ofNat k => (p, q * 2 ^ k)
  | Int.negSucc k => (p * 2 ^ (k + 1), q)

/-- The number of binary digits of `n`; `fuel` bounds their number. -/
def bitLength : Nat → Nat → Nat
  | 0, _ => 0
  | fuel + 1, n => if n = 0 then 0 else bitLength fuel (n / 2) + 1

/-- The floor of the binary logarithm of a positive `n`. -/
def log2 (n : Nat) : Nat := bitLength n n - 1

/-- The rational `p / q` (`q` positive), negated when `neg`, rounded to
binary64 with roundTiesToEven. -/
def ofRat (neg : Bool) (p q : Nat) : Binary64 :=
  if p = 0 then fin neg 0 (-1074)
  else
    let e0 : Int := (log2 p : Int) - (log2 q : Int) - 52
    let s0 := scale p q e0
    let e1 : Int := if s0.2 * 2 ^ 52 ≤ s0.1 then e0 else e0 - 1
    let e2 : Int := if e1 < -1074 then -1074 else e1
    let s := scale p q e2
    let m := roundHalfEven s.1 s.2
    let m3 := if m = 2 ^ 53 then 2 ^ 52 else m
    let e3 : Int := if m = 2 ^ 53 then e2 + 1 else e2
    if 971 < e3 then inf neg else fin neg m3 e3

/-- The operator `/` (Number::divide). -/
def div : Binary64 → Binary64 → Binary64
  | nan, _ => nan
  | _, nan => nan
  | inf _, inf _ => nan
  | inf a, fin b _ _ => inf (a != b)
  | fin a _ _, inf b => fin (a != b) 0 (-1074)
  | fin a m e, fin b n f =>
    if n = 0 then (if m = 0 then nan else inf (a != b))
    else
      let s := scale m n (f - e)
      ofRat (a != b) s.1 s.2

/-- The value of a run of decimal digits. -/
def digitsValue (ds : List Char) : Nat := ds.foldl (fun acc c => 10 * acc + (c.toNat - 48)) 0

/-- The value of a decimal literal `-? digits (. digits)? ([eE] [+-]? digits)?`. -/
def literal (s : List Char) : Binary64 :=
  let neg := s.head? = some '-'
  let s1 := if neg then s.drop 1 else s
  let ip := s1.span Char.isDigit
  let fp : List Char × List Char :=
    match ip.2 with
    | '.' :: r => r.span Char.isDigit
    | r => ([], r)
  let ex : Int :=
    match fp.2 with
    | [] => 0
    | _ :: r =>
      match r with
      | '-' :: ds => - (digitsValue ds : Int)
      | '+' :: ds => (digitsValue ds : Int)
      | ds => (digitsValue ds : Int)
  let mant := digitsValue (ip.1 ++ fp.1)
  match ex - (fp.1.length : Int) with
  | Int.ofNat k => ofRat neg (mant * 10 ^ k) 1
  | Int.negSucc k => ofRat neg mant (10 ^ (k + 1))

/-- The magnitude of a finite value as a fraction. -/
def magnitude (m : Nat) (e : Int) : Nat × Nat := scale m 1 (-e)

/-- The least `n` from `n0` on, within `fuel` steps, with `p / q < 10 ^ n`. -/
def digitsAbove : Nat → Nat → Nat → Nat → Nat
  | 0, _, _, n => n
  | fuel + 1, p, q, n => if p < q * 10 ^ n then n else digitsAbove fuel p q (n + 1)

/-- The least `j` from `j0` on, within `fuel` steps, with `1 ≤ p / q * 10 ^ j`. -/
def digitsBelow : Nat → Nat → Nat → Nat → Nat
  | 0, _, _, j => j
  | fuel + 1, p, q, j => if q ≤ p * 10 ^ j then j else digitsBelow fuel p q (j + 1)

/-- The integer `n` with `10 ^ (n - 1) ≤ p / q < 10 ^ n`, for `p / q` positive. -/
def decimalExponent (p q : Nat) : Int :=
  if q ≤ p then (digitsAbove 400 p q 1 : Int) else 1 - (digitsBelow 400 p q 1 : Int)

/-- The fraction `s * 10 ^ t`. -/
def pow10Frac (s : Nat) (t : Int) : Nat × Nat :=
  match t with
  | Int.ofNat k => (s * 10 ^ k, 1)
  | Int.negSucc k => (s, 10 ^ (k + 1))

/-- The digits `s` and exponent `n` of Number::toString for the positive
finite value `m * 2 ^ e` with exactly `k` digits, when some `s` of `k` digits
has `s * 10 ^ (n - k)` rounding to the value; of two such, the closer one,
and the even one when they are equally close. -/
def shortest? (m : Nat) (e : Int) (k : Nat) : Option (Nat × Int) :=
  let x := magnitude m e
  let n := decimalExponent x.1 x.2
  let u : Nat × Nat :=
    match n - (k : Int) with
    | Int.ofNat j => (x.1, x.2 * 10 ^ j)
    | Int.negSucc j => (x.1 * 10 ^ (j + 1), x.2)
  let lo := u.1 / u.2
  let hi := lo + 1
  let ok (s : Nat) : Bool :=
    let f := pow10Frac s (n - (k : Int))
    decide (ofRat false f.1 f.2 = fin false m e)
  let loOk := decide (10 ^ (k - 1) ≤ lo) && ok lo
  let hiOk := ok hi
  let hiCloser := decide ((lo + hi) * u.2 < 2 * u.1)
  let loCloser := decide (2 * u.1 < (lo + hi) * u.2)
  let pick (s : Nat) : Option (Nat × Int) :=
    if s = 10 ^ k then some (10 ^ (k - 1), n + 1) else some (s, n)
  if loOk && hiOk then
    (if hiCloser then pick hi
      else if loCloser then pick lo
      else if lo % 2 = 0 then pick lo else pick hi)
  else if loOk then pick lo
  else if hiOk then pick hi
  else none

/-- The first `k` from `k0` on, within `fuel` steps, for which `shortest?` succeeds. -/
def shortestFrom : Nat → Nat → Int → Nat → Option (Nat × Nat × Int)
  | 0, _, _, _ => none
  | fuel + 1, m, e, k =>
    match shortest? m e k with
    | some (s, n) => some (k, s, n)
    | none => shortestFrom fuel m e (k + 1)

/-- The text of Number::toString from the `k` digits of `s` and the exponent `n`. -/
def format (k : Nat) (s : Nat) (n : Int) : List Char :=
  let ds := natDigits 25 s []
  if (k : Int) ≤ n ∧ n ≤ 21 then ds ++ List.replicate (n - k).toNat '0'
  else if 0 < n ∧ n ≤ 21 then ds.take n.toNat ++ '.' :: ds.drop n.toNat
  else if -6 < n ∧ n ≤ 0 then '0' :: '.' :: (List.replicate (-n).toNat '0' ++ ds)
  else
    let ex := natDigits 25 (n - 1).natAbs []
    let sign := if 0 < n - 1 then '+' else '-'
    if k = 1 then ds ++ 'e' :: sign :: ex
    else ds.take 1 ++ '.' :: (ds.drop 1 ++ 'e' :: sign :: ex)

/-- The abstract operation Number::toString with radix 10. -/
def toString : Binary64 → List Char
  | nan => "NaN".data
  | inf neg => if neg then "-Infinity".data else "Infinity".data
  | fin neg m e =>
    if m = 0 then "0".data
    else
      let body :=
        match shortestFrom 17 m e 1 with
        | some (k, s, n) => format k s n
        | none => "NaN".data
      if neg then '-' :: body else body

end Binary64

/-- For `array.length = x`: the length when `x` is an integer from 0 to 2^32 - 1. -/
def Binary64.toArrayLength : Binary64 → Option Nat
  | .nan => none
  | .inf _ => none
  | .fin neg m e =>
    if m = 0 then some 0
    else if neg then none
    else
      match e with
      | Int.ofNat k => if m * 2 ^ k ≤ 4294967295 then some (m * 2 ^ k) else none
      | Int.negSucc k =>
        if m % 2 ^ (k + 1) = 0 ∧ m / 2 ^ (k + 1) ≤ 4294967295 then some (m / 2 ^ (k + 1))
        else none

instance : JSNumber Binary64 where
  div := Binary64.div
  toBoolean x := match x with
    | .nan => false
    | .inf _ => true
    | .fin _ m _ => decide (m ≠ 0)
  isFinite x := match x with
    | .fin _ _ _ => true
    | _ => false
  toString := Binary64.toString
  literal := Binary64.literal
  toArrayLength := Binary64.toArrayLength

/-! ## The scheme and the host -/

/-- The receiver after `.replace(/^https?:\/\//, '')`: one leading `http://`
or `https://` is removed, case-sensitively. -/
def stripScheme (s : List Char) : List Char :=
  if "https://".data.isPrefixOf s then s.drop 8
  else if "http://".data.isPrefixOf s then s.drop 7
  else s

/-- The element `[0]` of `.split('/')`: the text before the first `/`. -/
def splitSlashHead (s : List Char) : List Char := s.takeWhile (fun c => c != '/')

/-- The host of createChannel (add_channel.js lines 30-34, app.js lines
256-257): scheme stripped, cut at the first `/`, and the whole `baseUrl` when
that is the empty string. -/
def deriveHost (baseUrl : String) : String :=
  let host : String := ⟨splitSlashHead (stripScheme baseUrl.data)⟩
  if host = "" then baseUrl else host

/-! ## Values -/

/-- The values a program variable can hold here: `undefined` and the values
`JSON.parse` returns. An array carries its elements and its named properties. -/
inductive JSValue (ν : Type) where
  | undefined
  | null
  | bool (b : Bool)
  | num (x : ν)
  | str (s : String)
  | arr (items : List (JSValue ν)) (props : List (String × JSValue ν))
  | obj (props : List (String × JSValue ν))

/-- Own properties of an object, in key order. -/
abbrev Props (ν : Type) := List (String × JSValue ν)

/-- An array index: the canonical numeric string of an integer from 0 to
2^32 - 2. -/
def arrayIndex? (k : String) : Option Nat :=
  let cs := k.data
  if cs = [] then none
  else if !cs.all Char.isDigit then none
  else if cs.head? = some '0' ∧ cs.length ≠ 1 then none
  else
    let n := cs.foldl (fun acc c => 10 * acc + (c.toNat - 48)) 0
    if n ≤ 4294967294 then some n else none

/-- Whether `k` is an own property key. -/
def hasOwn {ν : Type} (props : Props ν) (k : String) : Bool :=
  props.any (fun p => p.1 == k)

/-- The value of the own property `k`. -/
def getOwn {ν : Type} : Props ν → String → Option (JSValue ν)
  | [], _ => none
  | p :: ps, k => if p.1 = k then some p.2 else getOwn ps k

/-- The own property keys. -/
def ownKeys {ν : Type} (props : Props ν) : List String := props.map Prod.fst

/-- A new array-index key takes its place in ascending order among the
array-index keys, which come before every other key. -/
def insertIndexed {ν : Type} (i : Nat) (k : String) (v : JSValue ν) : Props ν → Props ν
  | [] => [(k, v)]
  | p :: ps =>
    match arrayIndex? p.1 with
    | some j => if j < i then p :: insertIndexed i k v ps else (k, v) :: p :: ps
    | none => (k, v) :: p :: ps

/-- CreateDataProperty on an ordinary object: an existing key keeps its place
and takes the new value; a new key is added in `[[OwnPropertyKeys]]` order. -/
def defineOwn {ν : Type} (props : Props ν) (k : String) (v : JSValue ν) : Props ν :=
  if hasOwn props k then props.map (fun p => if p.1 = k then (p.1, v) else p)
  else
    match arrayIndex? k with
    | some i => insertIndexed i k v props
    | none => props ++ [(k, v)]

/-- The assignment `o[k] = v` on an ordinary object whose prototype chain ends
in the unmodified `Object.prototype`. The only inherited accessor is
`__proto__`: when `__proto__` is not an own key the assignment calls its
setter, which creates no own property (it returns at once for a `v` that is
neither an object nor null, and otherwise changes the prototype). Any other
key, and an own `__proto__`, is an ordinary data property. -/
def ordinarySet {ν : Type} (props : Props ν) (k : String) (v : JSValue ν) : Props ν :=
  if k = "__proto__" ∧ hasOwn props k = false then props
  else defineOwn props k v

/-- The assignment `base[k] = x` of a number in sloppy mode; the result is the
value `base` denotes afterwards, or the message of the TypeError or
RangeError thrown. -/
def assignNumber {ν : Type} [JSNumber ν] (base : JSValue ν) (k : String) (x : ν) :
    Except String (JSValue ν) :=
  match base with
  | .undefined => .error ("Cannot set properties of undefined (setting \x27" ++ k ++ "\x27)")
  | .null => .error ("Cannot set properties of null (setting \x27" ++ k ++ "\x27)")
  | .bool b => .ok (.bool b)
  | .num y => .ok (.num y)
  | .str s => .ok (.str s)
  | .obj props => .ok (.obj (ordinarySet props k (.num x)))
  | .arr items props =>
    match arrayIndex? k with
    | some i =>
      if i < items.length then .ok (.arr (items.set i (.num x)) props)
      else .ok (.arr (items ++ List.replicate (i - items.length) .undefined ++ [.num x]) props)
    | none =>
      if k = "length" then
        match JSNumber.toArrayLength x with
        | some n =>
          .ok (.arr (items.take n ++ List.replicate (n - items.length) .undefined) props)
        | none => .error "Invalid array length"
      else .ok (.arr items (ordinarySet props k (.num x)))

/-- The abstract operation ToBoolean. -/
def toBoolean {ν : Type} [JSNumber ν] : JSValue ν → Bool
  | .undefined => false
  | .null => false
  | .bool b => b
  | .num x => JSNumber.toBoolean x
  | .str s => s != ""
  | .arr _ _ => true
  | .obj _ => true

/-! ## JSON.stringify -/

/-- Lower-case hexadecimal digit. -/
def hexDigit (n : Nat) : Char :=
  if n < 10 then Char.ofNat (48 + n) else Char.ofNat (87 + n)

/-- QuoteJSONString on one code point. -/
def quoteChar (c : Char) : List Char :=
  if c = '"' then ['\\', '"']
  else if c = '\\' then ['\\', '\\']
  else if c = Char.ofNat 8 then ['\\', 'b']
  else if c = Char.ofNat 12 then ['\\', 'f']
  else if c = '\n' then ['\\', 'n']
  else if c = '\r' then ['\\', 'r']
  else if c = '\t' then ['\\', 't']
  else if c.toNat < 32 then
    ['\\', 'u', '0', '0', hexDigit (c.toNat / 16), hexDigit (c.toNat % 16)]
  else [c]

/-- The escaped text of a string, without the surrounding quotes. -/
def quoteBody : List Char → List Char
  | [] => []
  | c :: cs => quoteChar c ++ quoteBody cs

/-- QuoteJSONString. -/
def quoteJSONString (s : String) : List Char := '"' :: (quoteBody s.data ++ ['"'])

/-- The texts joined by commas. -/
def joinComma : List (List Char) → List Char
  | [] => []
  | [t] => t
  | t :: u :: ts => t ++ ',' :: joinComma (u :: ts)

mutual
/-- SerializeJSONProperty without indentation: `none` stands for undefined. -/
def serialize {ν : Type} [JSNumber ν] : JSValue ν → Option (List Char)
  | .undefined => none
  | .null => some "null".data
  | .bool b => some (if b then "true".data else "false".data)
  | .num x => some (if JSNumber.isFinite x then JSNumber.toString x else "null".data)
  | .str s => some (quoteJSONString s)
  | .arr items _ => some ('[' :: (joinComma (serializeItems items) ++ [']']))
  | .obj props => some (Char.ofNat 123 :: (joinComma (serializeProps props) ++ [Char.ofNat 125]))
/-- SerializeJSONArray: the texts of the elements, undefined as `null`. -/
def serializeItems {ν : Type} [JSNumber ν] : List (JSValue ν) → List (List Char)
  | [] => []
  | v :: vs => (serialize v).getD "null".data :: serializeItems vs
/-- SerializeJSONObject: the texts of the members, those with an undefined
value left out. -/
def serializeProps {ν : Type} [JSNumber ν] : List (String × JSValue ν) → List (List Char)
  | [] => []
  | (k, v) :: ps =>
    match serialize v with
    | some t => (quoteJSONString k ++ ':' :: t) :: serializeProps ps
    | none => serializeProps ps
end

/-- The built-in `JSON.stringify(value)`: a string, or undefined (`none`). -/
def JSON.stringify {ν : Type} [JSNumber ν] (v : JSValue ν) : Option String :=
  (serialize v).map String.mk

/-- A string or undefined as a value. -/
def JSValue.ofOption {ν : Type} : Option String → JSValue ν
  | some s => .str s
  | none => .undefined

/-! ## JSON.parse -/

/-- JSON white space: tab, line feed, carriage return, space. -/
def isJsonWs (c : Char) : Bool := c = ' ' || c = '\t' || c = '\n' || c = '\r'

/-- The text after leading white space. -/
def skipWs (s : List Char) : List Char := s.dropWhile isJsonWs

/-- The value of a hexadecimal digit in either case. -/
def hexValue? (c : Char) : Option Nat :=
  if '0' ≤ c ∧ c ≤ '9' then some (c.toNat - 48)
  else if 'a' ≤ c ∧ c ≤ 'f' then some (c.toNat - 87)
  else if 'A' ≤ c ∧ c ≤ 'F' then some (c.toNat - 55)
  else none

/-- Four hexadecimal digits as a code unit. -/
def hex4? : List Char → Option (Nat × List Char)
  | a :: b :: c :: d :: rest =>
    match hexValue? a, hexValue? b, hexValue? c, hexValue? d with
    | some x, some y, some z, some w => some (((x * 16 + y) * 16 + z) * 16 + w, rest)
    | _, _, _, _ => none
  | _ => none

/-- The code point after the `u` of a unicode escape: one code unit, or a
high surrogate with the escaped low surrogate that follows it. An escape that
denotes an unpaired surrogate has no counterpart in the model and is refused,
though the engine decodes it; `escapesSurrogate` tells the texts this can
happen on. -/
def unicodeEscape? (s : List Char) : Option (Char × List Char) :=
  match hex4? s with
  | none => none
  | some (u, rest) =>
    if u < 0xD800 ∨ 0xDFFF < u then some (Char.ofNat u, rest)
    else if 0xDC00 ≤ u then none
    else
      match rest with
      | '\\' :: 'u' :: rest2 =>
        match hex4? rest2 with
        | some (lo, rest3) =>
          if 0xDC00 ≤ lo ∧ lo ≤ 0xDFFF then
            some (Char.ofNat (0x10000 + (u - 0xD800) * 0x400 + (lo - 0xDC00)), rest3)
          else none
        | none => none
      | _ => none

/-- The character that a one-letter escape stands for. -/
def escapeValue? (e : Char) : Option Char :=
  if e = '"' then some '"'
  else if e = '\\' then some '\\'
  else if e = '/' then some '/'
  else if e = 'b' then some (Char.ofNat 8)
  else if e = 'f' then some (Char.ofNat 12)
  else if e = 'n' then some '\n'
  else if e = 'r' then some '\r'
  else if e = 't' then some '\t'
  else none

/-- The characters of a JSON string after its opening quote, up to the closing
quote, and the text after it. `fuel` bounds the number of steps; `parseString`
supplies more than the length of the text. -/
def parseStringBody : Nat → List Char → Option (List Char × List Char)
  | 0, _ => none
  | _ + 1, [] => none
  | fuel + 1, c :: rest =>
    if c = '"' then some ([], rest)
    else if c = '\\' then
      match rest with
      | [] => none
      | e :: rest2 =>
        match escapeValue? e with
        | some x => (parseStringBody fuel rest2).map (fun r => (x :: r.1, r.2))
        | none =>
          if e = 'u' then
            match unicodeEscape? rest2 with
            | some (x, rest3) => (parseStringBody fuel rest3).map (fun r => (x :: r.1, r.2))
            | none => none
          else none
    else if c.toNat < 32 then none
    else (parseStringBody fuel rest).map (fun r => (c :: r.1, r.2))

/-- A JSON string after its opening quote. -/
def parseString (s : List Char) : Option (String × List Char) :=
  (parseStringBody (s.length + 1) s).map (fun r => (String.mk r.1, r.2))

/-- An optional minus sign and the text after it. -/
def lexSign (s : List Char) : List Char × List Char :=
  match s with
  | [] => ([], [])
  | c :: r => if c = '-' then (['-'], r) else ([], c :: r)

/-- The integer part `0 | [1-9][0-9]*` and the text after it. -/
def lexInt (s : List Char) : Option (List Char × List Char) :=
  match s with
  | [] => none
  | c :: r =>
    if c = '0' then some (['0'], r)
    else if c.isDigit then some (c :: r.takeWhile Char.isDigit, r.dropWhile Char.isDigit)
    else none

/-- The optional fraction `. [0-9]+` and the text after it; a point without
a digit after it is an error. -/
def lexFrac (s : List Char) : Option (List Char × List Char) :=
  match s with
  | [] => some ([], [])
  | c :: r =>
    if c = '.' then
      if r.takeWhile Char.isDigit = [] then none
      else some ('.' :: r.takeWhile Char.isDigit, r.dropWhile Char.isDigit)
    else some ([], c :: r)

/-- The optional sign of an exponent and the text after it. -/
def lexExpSign (s : List Char) : List Char × List Char :=
  match s with
  | [] => ([], [])
  | c :: r => if c = '+' ∨ c = '-' then ([c], r) else ([], c :: r)

/-- The optional exponent `[eE] [+-]? [0-9]+` and the text after it; an `e`
without a digit after it is an error. -/
def lexExp (s : List Char) : Option (List Char × List Char) :=
  match s with
  | [] => some ([], [])
  | e :: r =>
    if e = 'e' ∨ e = 'E' then
      if (lexExpSign r).2.takeWhile Char.isDigit = [] then none
      else
        some (e :: ((lexExpSign r).1 ++ (lexExpSign r).2.takeWhile Char.isDigit),
          (lexExpSign r).2.dropWhile Char.isDigit)
    else some ([], e :: r)

/-- The longest prefix matching the JSON number grammar
`-? (0 | [1-9][0-9]*) (. [0-9]+)? ([eE] [+-]? [0-9]+)?`, and the text after it. -/
def lexNumber (s : List Char) : Option (List Char × List Char) :=
  match lexInt (lexSign s).2 with
  | none => none
  | some (ds, s2) =>
    match lexFrac s2 with
    | none => none
    | some (fs, s3) =>
      match lexExp s3 with
      | none => none
      | some (es, s4) => some ((lexSign s).1 ++ ds ++ fs ++ es, s4)

mutual
/-- One JSON value after optional white space, and the text after it. `fuel`
bounds the depth of the calls; `JSON.parse` supplies more than the length of
the text. -/
def parseValue {ν : Type} [JSNumber ν] : Nat → List Char → Option (JSValue ν × List Char)
  | 0, _ => none
  | fuel + 1, s =>
    match skipWs s with
    | [] => none
    | c :: rest =>
      if c = Char.ofNat 123 then
        match skipWs rest with
        | [] => none
        | d :: rest2 =>
          if d = Char.ofNat 125 then some (.obj [], rest2)
          else parseMembers fuel (d :: rest2) []
      else if c = '[' then
        match skipWs rest with
        | [] => none
        | d :: rest2 =>
          if d = ']' then some (.arr [] [], rest2)
          else parseItems fuel (d :: rest2) []
      else if c = '"' then (parseString rest).map (fun r => (.str r.1, r.2))
      else if c = 't' then
        if "rue".data.isPrefixOf rest then some (.bool true, rest.drop 3) else none
      else if c = 'f' then
        if "alse".data.isPrefixOf rest then some (.bool false, rest.drop 4) else none
      else if c = 'n' then
        if "ull".data.isPrefixOf rest then some (.null, rest.drop 3) else none
      else (lexNumber (c :: rest)).map (fun r => (.num (JSNumber.literal r.1), r.2))
/-- The members of an object from the first one on, up to the closing brace.
Each member is added with CreateDataProperty, so a repeated name keeps its
first place and takes the last value. -/
def parseMembers {ν : Type} [JSNumber ν] :
    Nat → List Char → List (String × JSValue ν) → Option (JSValue ν × List Char)
  | 0, _, _ => none
  | fuel + 1, s, acc =>
    match skipWs s with
    | [] => none
    | q :: rest =>
      if q = '"' then
        match parseString rest with
        | none => none
        | some (k, rest1) =>
          match skipWs rest1 with
          | [] => none
          | colon :: rest2 =>
            if colon = ':' then
              match parseValue fuel rest2 with
              | none => none
              | some (v, rest3) =>
                match skipWs rest3 with
                | [] => none
                | sep :: rest4 =>
                  if sep = ',' then parseMembers fuel rest4 (defineOwn acc k v)
                  else if sep = Char.ofNat 125 then some (.obj (defineOwn acc k v), rest4)
                  else none
            else none
      else none
/-- The elements of an array from the first one on, up to the closing bracket. -/
def parseItems {ν : Type} [JSNumber ν] :
    Nat → List Char → List (JSValue ν) → Option (JSValue ν × List Char)
  | 0, _, _ => none
  | fuel + 1, s, acc =>
    match parseValue fuel s with
    | none => none
    | some (v, rest) =>
      match skipWs rest with
      | [] => none
      | sep :: rest2 =>
        if sep = ',' then parseItems fuel rest2 (acc ++ [v])
        else if sep = ']' then some (.arr (acc ++ [v]) [], rest2)
        else none
end

/-- The built-in `JSON.parse(text)` without reviver: the value, or the message
of the SyntaxError (its wording is engine-specific and fixed here). On a text
with `escapesSurrogate` the error can stand for a value outside the model
instead. -/
def JSON.parse {ν : Type} [JSNumber ν] (text : String) : Except String (JSValue ν) :=
  match parseValue (text.data.length + 1) text.data with
  | some (v, rest) =>
    if skipWs rest = [] then .ok v else .error "Unexpected non-whitespace character after JSON"
  | none => .error "Unexpected token in JSON"

/-! ## Reading values -/

/-- The property read `base.name` for a name that is neither an array index
nor `length` and that no prototype defines (`data`, `key`, `value`): the own
property, undefined when there is none, a TypeError on null and undefined. -/
def getNamed {ν : Type} (base : JSValue ν) (name : String) : Except String (JSValue ν) :=
  match base with
  | .undefined =>
    .error ("Cannot read properties of undefined (reading \x27" ++ name ++ "\x27)")
  | .null => .error ("Cannot read properties of null (reading \x27" ++ name ++ "\x27)")
  | .bool _ => .ok .undefined
  | .num _ => .ok .undefined
  | .str _ => .ok .undefined
  | .arr _ props => .ok ((getOwn props name).getD .undefined)
  | .obj props => .ok ((getOwn props name).getD .undefined)

/-- The comparison `v === name` with a string. -/
def strictEqualsString {ν : Type} (v : JSValue ν) (name : String) : Bool :=
  match v with
  | .str s => s = name
  | _ => false

/-- The values a `for ... of` loop visits: the elements of an array, the code
points of a string; a TypeError for a value that is not iterable. -/
def iterate {ν : Type} (data : JSValue ν) : Except String (List (JSValue ν)) :=
  match data with
  | .arr items _ => .ok items
  | .str s => .ok (s.data.map (fun c => .str (String.singleton c)))
  | _ => .error "data is not iterable"

mutual
/-- The abstract operation ToString. An object or array is converted through
its `toString` method: the inherited one, unless an own property of that name
(never callable in a parsed value) hides it, which ends in a TypeError. -/
def toStringJS {ν : Type} [JSNumber ν] : JSValue ν → Except String (List Char)
  | .undefined => .ok "undefined".data
  | .null => .ok "null".data
  | .bool b => .ok (if b then "true".data else "false".data)
  | .num x => .ok (JSNumber.toString x)
  | .str s => .ok s.data
  | .obj props =>
    if hasOwn props "toString" then .error "Cannot convert object to primitive value"
    else .ok "[object Object]".data
  | .arr items props =>
    if hasOwn props "toString" then .error "Cannot convert object to primitive value"
    else if hasOwn props "join" then .ok "[object Array]".data
    else (joinItems items).map joinComma
/-- The element texts of `Array.prototype.join`: empty for null and undefined. -/
def joinItems {ν : Type} [JSNumber ν] : List (JSValue ν) → Except String (List (List Char))
  | [] => .ok []
  | v :: vs =>
    match v with
    | .undefined => (joinItems vs).map (fun ts => [] :: ts)
    | .null => (joinItems vs).map (fun ts => [] :: ts)
    | w =>
      match toStringJS w with
      | .error e => .error e
      | .ok t => (joinItems vs).map (fun ts => t :: ts)
end

/-! ## fetch -/

/-- A request handed to `fetch`. -/
structure Request where
  method : String
  url : String
  headers : List (String × String)
  body : Option String
  deriving DecidableEq, Repr

/-- What the promise of `fetch` settles to: a response with its status and
body text, or a rejection (no response was obtained). -/
inductive FetchResult where
  | response (status : Nat) (body : String)
  | failure (message : String)
  deriving DecidableEq, Repr

/-- The gateway: the outcome of each request may depend on the requests made
before it. -/
abbrev Gateway := List Request → Request → FetchResult

/-- The getter `response.ok`: the status is in the range 200 to 299. -/
def responseOk (status : Nat) : Bool := decide (200 ≤ status) && decide (status ≤ 299)

/-- The pair returned by `updateModelPriceRate`. -/
structure RatioResult (ν : Type) where
  completion_ratio : JSValue ν
  model_ratio : JSValue ν

/-- The two working variables of the scan of the options list. -/
structure Working (ν : Type) where
  completionRatio : JSValue ν
  modelRatio : JSValue ν

/-- The two assignments `parsed[source] = ratio; parsed[target] = ratio`. -/
def setBoth {ν : Type} [JSNumber ν] (parsed : JSValue ν) (source target : String) (ratio : ν) :
    Except String (JSValue ν) :=
  match assignNumber parsed source ratio with
  | .error e => .error e
  | .ok p1 => assignNumber p1 target ratio

/-- The call `JSON.parse(item.value)`: the argument is converted to a string. -/
def parseItemValue {ν : Type} [JSNumber ν] (item : JSValue ν) : Except String (JSValue ν) :=
  match getNamed item "value" with
  | .error e => .error e
  | .ok v =>
    match toStringJS v with
    | .error e => .error e
    | .ok t => JSON.parse (String.mk t)

/-- The GET request of the options list, the same in both files. -/
def getRequest (systemToken : String) : Request :=
  { method := "GET"
    url := "https://api.llm.ai.vn/api/option/"
    headers := [("Authorization", systemToken)]
    body := none }

/-- The value of `apiResponse.data || []`. -/
def dataOrEmpty {ν : Type} [JSNumber ν] (d : JSValue ν) : JSValue ν :=
  if toBoolean d then d else .arr [] []

/-- The conversion of `data.length` to a string in the log line before the
loop (add_channel.js line 122, app.js line 323). The length of an array or of
a string is a number and a primitive has no `length`, so only the own `length`
of an object can fail to convert, with a TypeError. -/
def logLength {ν : Type} [JSNumber ν] (data : JSValue ν) : Except String Unit :=
  match data with
  | .obj props =>
    match toStringJS ((getOwn props "length").getD .undefined) with
    | .error e => .error e
    | .ok _ => .ok ()
  | _ => .ok ()

/-! ## add_channel.js -/

namespace Node

/-- The object `channelBody` (add_channel.js lines 30-62). -/
def channelBody {ν : Type} [JSNumber ν]
    (baseUrlCuaNguon tokenCuaNguon tenModelTuNguon tenModelTrenLlmAiVn : String) : JSValue ν :=
  let host := deriveHost baseUrlCuaNguon
  let channelName := host ++ " " ++ tenModelTuNguon ++ " -> " ++ tenModelTrenLlmAiVn
  let modelMapping : JSValue ν := .obj (ordinarySet [] tenModelTrenLlmAiVn (.str tenModelTuNguon))
  let models := tenModelTuNguon ++ "," ++ tenModelTrenLlmAiVn
  .obj [
    ("name", .str channelName),
    ("type", .num (JSNumber.literal "50".data)),
    ("key", .str tokenCuaNguon),
    ("base_url", .str baseUrlCuaNguon),
    ("other", .str ""),
    ("model_mapping", JSValue.ofOption (JSON.stringify modelMapping)),
    ("system_prompt", .str ""),
    ("models", .str models),
    ("groups", .arr [.str "default"] []),
    ("group", .str "default"),
    ("config", JSValue.ofOption (JSON.stringify (.obj [
      ("region", .str ""), ("sk", .str ""), ("ak", .str ""), ("user_id", .str ""),
      ("vertex_ai_project_id", .str ""), ("vertex_ai_adc", .str "")] : JSValue ν)))]

/-- The POST request of createChannel (lines 67-74). -/
def channelRequest (ν : Type) [JSNumber ν]
    (systemToken baseUrlCuaNguon tokenCuaNguon tenModelTuNguon tenModelTrenLlmAiVn : String) :
    Request :=
  { method := "POST"
    url := "https://api.llm.ai.vn/api/channel/"
    headers := [("Content-Type", "application/json"), ("Authorization", systemToken)]
    body := JSON.stringify
      (channelBody baseUrlCuaNguon tokenCuaNguon tenModelTuNguon tenModelTrenLlmAiVn : JSValue ν) }

/-- The function createChannel (lines 22-87), started after the requests
`trace`: the outcome (a thrown message or normal completion) and the requests
made so far. Every error of the try block is rethrown with a fixed front. -/
def createChannel (ν : Type) [JSNumber ν] (gw : Gateway) (trace : List Request)
    (systemToken baseUrlCuaNguon tokenCuaNguon tenModelTuNguon tenModelTrenLlmAiVn : String) :
    Except String Unit × List Request :=
  let req := channelRequest ν systemToken baseUrlCuaNguon tokenCuaNguon tenModelTuNguon
    tenModelTrenLlmAiVn
  match gw trace req with
  | .failure message => (.error ("Failed to create channel: " ++ message), trace ++ [req])
  | .response status errorText =>
    if responseOk status then (.ok (), trace ++ [req])
    else
      (.error ("Failed to create channel: " ++
        ("Channel creation failed with status: " ++ natToString status ++ " - " ++ errorText)),
        trace ++ [req])

/-- The catch block of one record (lines 137-140 and 152-155): the second log
line converts `item.value` to a string, which can throw again. -/
def catchBlock {ν : Type} [JSNumber ν] (w : Working ν) (item : JSValue ν) :
    Except String (Working ν) :=
  match getNamed item "value" with
  | .error e => .error e
  | .ok v =>
    match toStringJS v with
    | .error e => .error e
    | .ok _ => .ok w

/-- One turn of the loop over `data` (lines 125-157). -/
def scanItem {ν : Type} [JSNumber ν] (gia1mInputTokens gia1mOutputTokens : ν)
    (tenModelTuNguon tenModelTrenLlmAiVn : String) (w : Working ν) (item : JSValue ν) :
    Except String (Working ν) :=
  match getNamed item "key" with
  | .error e => .error e
  | .ok key =>
    if strictEqualsString key "CompletionRatio" then
      match parseItemValue item with
      | .error _ => catchBlock w item
      | .ok parsedValue =>
        let ratio := JSNumber.div gia1mOutputTokens gia1mInputTokens
        match setBoth parsedValue tenModelTuNguon tenModelTrenLlmAiVn ratio with
        | .error _ => catchBlock w item
        | .ok p => .ok { w with completionRatio := p }
    else if strictEqualsString key "ModelRatio" then
      match parseItemValue item with
      | .error _ => catchBlock w item
      | .ok parsedValue =>
        let ratio := JSNumber.div gia1mInputTokens (JSNumber.literal "2.5".data)
        match setBoth parsedValue tenModelTuNguon tenModelTrenLlmAiVn ratio with
        | .error _ => catchBlock w item
        | .ok p => .ok { w with modelRatio := p }
    else .ok w

/-- The loop over `data`, from the working variables `w`. -/
def scan {ν : Type} [JSNumber ν] (gia1mInputTokens gia1mOutputTokens : ν)
    (tenModelTuNguon tenModelTrenLlmAiVn : String) :
    List (JSValue ν) → Working ν → Except String (Working ν)
  | [], w => .ok w
  | item :: rest, w =>
    match scanItem gia1mInputTokens gia1mOutputTokens tenModelTuNguon tenModelTrenLlmAiVn w
      item with
    | .error e => .error e
    | .ok w1 => scan gia1mInputTokens gia1mOutputTokens tenModelTuNguon tenModelTrenLlmAiVn rest w1

/-- The PUT request of one table (lines 165-177 and 189-201). -/
def putRequest {ν : Type} [JSNumber ν] (systemToken key : String) (table : JSValue ν) : Request :=
  { method := "PUT"
    url := "https://api.llm.ai.vn/api/option/"
    headers := [("Content-Type", "application/json"), ("Authorization", systemToken)]
    body := JSON.stringify
      (.obj [("key", .str key), ("value", JSValue.ofOption (JSON.stringify table))] : JSValue ν) }

/-- The block that pushes one table (lines 163-184 for `ModelRatio`, 187-208
for `CompletionRatio`, alike but for the key): nothing for a falsy table. -/
def pushTable {ν : Type} [JSNumber ν] (gw : Gateway) (trace : List Request)
    (systemToken key : String) (table : JSValue ν) : Except String Unit × List Request :=
  if toBoolean table then
    let req := putRequest systemToken key table
    match gw trace req with
    | .failure message => (.error message, trace ++ [req])
    | .response status text =>
      if responseOk status then (.ok (), trace ++ [req])
      else
        (.error (key ++ " update failed with status: " ++ natToString status ++ " - " ++ text),
          trace ++ [req])
  else (.ok (), trace)

/-- The try block of updateModelPriceRate (lines 107-211). -/
def updateModelPriceRate.body {ν : Type} [JSNumber ν] (gw : Gateway) (trace : List Request)
    (systemToken : String) (gia1mInputTokens gia1mOutputTokens : ν)
    (tenModelTuNguon tenModelTrenLlmAiVn : String) :
    Except String (RatioResult ν) × List Request :=
  let t1 := trace ++ [getRequest systemToken]
  match gw trace (getRequest systemToken) with
  | .failure message => (.error message, t1)
  | .response status body =>
    if !responseOk status then
      (.error ("API request failed with status: " ++ natToString status), t1)
    else
      match JSON.parse body with
      | .error e => (.error e, t1)
      | .ok (apiResponse : JSValue ν) =>
        match getNamed apiResponse "data" with
        | .error e => (.error e, t1)
        | .ok d =>
          match logLength (dataOrEmpty d) with
          | .error e => (.error e, t1)
          | .ok _ =>
            match iterate (dataOrEmpty d) with
            | .error e => (.error e, t1)
            | .ok items =>
              match scan gia1mInputTokens gia1mOutputTokens tenModelTuNguon
                tenModelTrenLlmAiVn items ⟨.null, .null⟩ with
              | .error e => (.error e, t1)
              | .ok w =>
                match pushTable gw t1 systemToken "ModelRatio" w.modelRatio with
                | (.error e, t2) => (.error e, t2)
                | (.ok _, t2) =>
                  match pushTable gw t2 systemToken "CompletionRatio" w.completionRatio with
                  | (.error e, t3) => (.error e, t3)
                  | (.ok _, t3) =>
                    (.ok { completion_ratio := w.completionRatio, model_ratio := w.modelRatio },
                      t3)

/-- The function updateModelPriceRate (lines 92-216): the try block, every
error rethrown with a fixed front. -/
def updateModelPriceRate {ν : Type} [JSNumber ν] (gw : Gateway) (trace : List Request)
    (systemToken : String) (gia1mInputTokens gia1mOutputTokens : ν)
    (tenModelTuNguon tenModelTrenLlmAiVn : String) :
    Except String (RatioResult ν) × List Request :=
  match updateModelPriceRate.body gw trace systemToken gia1mInputTokens gia1mOutputTokens
    tenModelTuNguon tenModelTrenLlmAiVn with
  | (.error e, t) => (.error ("Failed to update model prices: " ++ e), t)
  | (.ok r, t) => (.ok r, t)

/-- The value of `process.env.SYSTEM_TOKEN || "e2535681c9dd4df19487484ed2ecd7b4"`
(line 229): the variable when it is set and not empty. -/
def systemTokenOf (env : Option String) : String :=
  match env with
  | some t => if t = "" then "e2535681c9dd4df19487484ed2ecd7b4" else t
  | none => "e2535681c9dd4df19487484ed2ecd7b4"

/-- The function main (lines 221-264). `env` is the value of the environment
variable SYSTEM_TOKEN; an error stands for the run that prints the message and
exits with status 1. -/
def main {ν : Type} [JSNumber ν] (gw : Gateway) (env : Option String)
    (baseUrlCuaNguon tokenCuaNguon tenModelTuNguon tenModelTrenLlmAiVn : String)
    (gia1mInputTokens gia1mOutputTokens : ν) : Except String (RatioResult ν) × List Request :=
  let systemToken := systemTokenOf env
  match createChannel ν gw [] systemToken baseUrlCuaNguon tokenCuaNguon tenModelTuNguon
    tenModelTrenLlmAiVn with
  | (.error e, t) => (.error e, t)
  | (.ok _, t) =>
    updateModelPriceRate gw t systemToken gia1mInputTokens gia1mOutputTokens tenModelTuNguon
      tenModelTrenLlmAiVn

end Node

/-! ## app.js -/

namespace App

/-- The object `channelBody` (app.js lines 256-279). -/
def channelBody {ν : Type} [JSNumber ν] (baseUrl token sourceModel targetModel : String) :
    JSValue ν :=
  let host := deriveHost baseUrl
  let channelName := host ++ " " ++ sourceModel ++ " -> " ++ targetModel
  let modelMapping : JSValue ν := .obj (ordinarySet [] targetModel (.str sourceModel))
  let models := sourceModel ++ "," ++ targetModel
  .obj [
    ("name", .str channelName),
    ("type", .num (JSNumber.literal "50".data)),
    ("key", .str token),
    ("base_url", .str baseUrl),
    ("other", .str ""),
    ("model_mapping", JSValue.ofOption (JSON.stringify modelMapping)),
    ("system_prompt", .str ""),
    ("models", .str models),
    ("groups", .arr [.str "default"] []),
    ("group", .str "default"),
    ("config", JSValue.ofOption (JSON.stringify (.obj [
      ("region", .str ""), ("sk", .str ""), ("ak", .str ""), ("user_id", .str ""),
      ("vertex_ai_project_id", .str ""), ("vertex_ai_adc", .str "")] : JSValue ν)))]

/-- The POST request of createChannel (lines 284-291). -/
def channelRequest (ν : Type) [JSNumber ν]
    (systemToken baseUrl token sourceModel targetModel : String) : Request :=
  { method := "POST"
    url := "https://api.llm.ai.vn/api/channel/"
    headers := [("Content-Type", "application/json"), ("Authorization", systemToken)]
    body := JSON.stringify (channelBody baseUrl token sourceModel targetModel : JSValue ν) }

/-- The function createChannel (lines 252-302). -/
def createChannel (ν : Type) [JSNumber ν] (gw : Gateway) (trace : List Request)
    (systemToken baseUrl token sourceModel targetModel : String) :
    Except String Unit × List Request :=
  let req := channelRequest ν systemToken baseUrl token sourceModel targetModel
  match gw trace req with
  | .failure message => (.error message, trace ++ [req])
  | .response status errText =>
    if responseOk status then (.ok (), trace ++ [req])
    else
      (.error ("Create Channel Failed (" ++ natToString status ++ "): " ++ errText),
        trace ++ [req])

/-- One turn of the loop over `data` (lines 328-353); a catch block only logs
the message. -/
def scanItem {ν : Type} [JSNumber ν] (inputPrice outputPrice : ν)
    (sourceModel targetModel : String) (w : Working ν) (item : JSValue ν) :
    Except String (Working ν) :=
  match getNamed item "key" with
  | .error e => .error e
  | .ok key =>
    if strictEqualsString key "CompletionRatio" then
      match parseItemValue item with
      | .error _ => .ok w
      | .ok parsed =>
        let ratio := JSNumber.div outputPrice inputPrice
        match setBoth parsed sourceModel targetModel ratio with
        | .error _ => .ok w
        | .ok p => .ok { w with completionRatio := p }
    else if strictEqualsString key "ModelRatio" then
      match parseItemValue item with
      | .error _ => .ok w
      | .ok parsed =>
        let ratio := JSNumber.div inputPrice (JSNumber.literal "2.5".data)
        match setBoth parsed sourceModel targetModel ratio with
        | .error _ => .ok w
        | .ok p => .ok { w with modelRatio := p }
    else .ok w

/-- The loop over `data`, from the working variables `w`. -/
def scan {ν : Type} [JSNumber ν] (inputPrice outputPrice : ν) (sourceModel targetModel : String) :
    List (JSValue ν) → Working ν → Except String (Working ν)
  | [], w => .ok w
  | item :: rest, w =>
    match scanItem inputPrice outputPrice sourceModel targetModel w item with
    | .error e => .error e
    | .ok w1 => scan inputPrice outputPrice sourceModel targetModel rest w1

/-- The PUT request of updateOption (lines 375-389). -/
def putRequest {ν : Type} [JSNumber ν] (systemToken key : String) (jsonValue : JSValue ν) :
    Request :=
  { method := "PUT"
    url := "https://api.llm.ai.vn/api/option/"
    headers := [("Content-Type", "application/json"), ("Authorization", systemToken)]
    body := JSON.stringify
      (.obj [("key", .str key), ("value", JSValue.ofOption (JSON.stringify jsonValue))] :
        JSValue ν) }

/-- The function updateOption (lines 374-398). -/
def updateOption {ν : Type} [JSNumber ν] (gw : Gateway) (trace : List Request)
    (systemToken key : String) (jsonValue : JSValue ν) : Except String Unit × List Request :=
  let req := putRequest systemToken key jsonValue
  match gw trace req with
  | .failure message => (.error message, trace ++ [req])
  | .response status txt =>
    if responseOk status then (.ok (), trace ++ [req])
    else (.error ("Update " ++ key ++ " Failed: " ++ txt), trace ++ [req])

/-- The function updatePrice (lines 304-372). -/
def updatePrice {ν : Type} [JSNumber ν] (gw : Gateway) (trace : List Request)
    (systemToken : String) (inputPrice outputPrice : ν) (sourceModel targetModel : String) :
    Except String Unit × List Request :=
  let t1 := trace ++ [getRequest systemToken]
  match gw trace (getRequest systemToken) with
  | .failure message => (.error message, t1)
  | .response status body =>
    if !responseOk status then (.error ("Get Options Failed: " ++ natToString status), t1)
    else
      match JSON.parse body with
      | .error e => (.error e, t1)
      | .ok (apiResponse : JSValue ν) =>
        match getNamed apiResponse "data" with
        | .error e => (.error e, t1)
        | .ok d =>
          match logLength (dataOrEmpty d) with
          | .error e => (.error e, t1)
          | .ok _ =>
            match iterate (dataOrEmpty d) with
            | .error e => (.error e, t1)
            | .ok items =>
              match scan inputPrice outputPrice sourceModel targetModel items ⟨.null, .null⟩ with
              | .error e => (.error e, t1)
              | .ok w =>
                match (if toBoolean w.modelRatio then
                    updateOption gw t1 systemToken "ModelRatio" w.modelRatio
                  else (.ok (), t1)) with
                | (.error e, t2) => (.error e, t2)
                | (.ok _, t2) =>
                  if toBoolean w.completionRatio then
                    updateOption gw t2 systemToken "CompletionRatio" w.completionRatio
                  else (.ok (), t2)

/-- The validated form values that validateInputs returns. -/
structure Inputs (ν : Type) where
  systemToken : String
  baseUrl : String
  sourceToken : String
  sourceModel : String
  targetModel : String
  inputPrice : ν
  outputPrice : ν

/-- The function runScript (lines 401-464) from the result of validateInputs
on (`none` for a refused form): the message shown in the catch block, if any,
and the requests made. -/
def runScript {ν : Type} [JSNumber ν] (gw : Gateway) (inputs : Option (Inputs ν)) :
    Option String × List Request :=
  match inputs with
  | none => (none, [])
  | some i =>
    match createChannel ν gw [] i.systemToken i.baseUrl i.sourceToken i.sourceModel
      i.targetModel with
    | (.error e, t) => (some e, t)
    | (.ok _, t) =>
      match updatePrice gw t i.systemToken i.inputPrice i.outputPrice i.sourceModel
        i.targetModel with
      | (.error e, t2) => (some e, t2)
      | (.ok _, t2) => (none, t2)

end App

/-! ## Concrete gateways and inputs for the runs -/

/-- A number of the concrete runs, from its decimal literal. -/
def lit (s : String) : Binary64 := Binary64.literal s.data

/-- A gateway that refuses the channel POST with status 400 and the body
`bad request`, and accepts everything else. -/
def refusingGateway : Gateway := fun _ req =>
  if req.method = "POST" then .response 400 "bad request" else .response 200 ""

/-- A gateway that accepts the channel, serves `options` as the body of the
options list, and answers every PUT with `putStatus` and `putBody`. -/
def optionsGateway (options : String) (putStatus : Nat) (putBody : String) : Gateway :=
  fun _ req =>
    if req.method = "POST" then .response 200 "ok"
    else if req.method = "GET" then .response 200 options
    else .response putStatus putBody

/-! ## Well-formed option records -/

/-- An option record of the gateway: a key and a JSON-encoded value. -/
structure OptionRecord where
  key : String
  value : String
  deriving DecidableEq, Repr

/-- The element `item` of `data` is the record `r`: an object whose `key` and
`value` are the strings of `r` (other fields are allowed). -/
def IsRecord {ν : Type} (item : JSValue ν) (r : OptionRecord) : Prop :=
  ∃ props, item = .obj props ∧ getOwn props "key" = some (.str r.key) ∧
    getOwn props "value" = some (.str r.value)

/-- The record as the object with exactly the two fields. -/
def OptionRecord.toJS {ν : Type} (r : OptionRecord) : JSValue ν :=
  .obj [("key", .str r.key), ("value", .str r.value)]

/-- What one turn of either loop does on a well-formed record: the try block
of the matching key, whose failure leaves the working variables as they were. -/
def turn {ν : Type} [JSNumber ν] (inputPrice outputPrice : ν) (sourceModel targetModel : String)
    (w : Working ν) (r : OptionRecord) : Working ν :=
  if r.key = "CompletionRatio" then
    match JSON.parse r.value with
    | .error _ => w
    | .ok parsed =>
      match setBoth parsed sourceModel targetModel (JSNumber.div outputPrice inputPrice) with
      | .error _ => w
      | .ok p => { w with completionRatio := p }
  else if r.key = "ModelRatio" then
    match JSON.parse r.value with
    | .error _ => w
    | .ok parsed =>
      match setBoth parsed sourceModel targetModel
          (JSNumber.div inputPrice (JSNumber.literal "2.5".data)) with
      | .error _ => w
      | .ok p => { w with modelRatio := p }
  else w

/-! ## Conditions on the gateway -/

/-- After the requests `trace`, the gateway answers the GET of the options
list with a success status and a body that decodes to a value whose `data` is
the array of `items`. -/
def ServesOptions {ν : Type} [JSNumber ν] (gw : Gateway) (trace : List Request)
    (systemToken : String) (items : List (JSValue ν)) : Prop :=
  ∃ status body api props,
    gw trace (getRequest systemToken) = .response status body ∧ responseOk status = true ∧
      JSON.parse body = .ok api ∧ getNamed api "data" = .ok (.arr items props)

/-- The gateway answers every PUT with a success status. -/
def AcceptsPuts (gw : Gateway) : Prop :=
  ∀ trace req, req.method = "PUT" → ∃ status body,
    gw trace req = .response status body ∧ responseOk status = true

/-- The options body of the concrete runs: a ModelRatio table and a
CompletionRatio table, each with one entry. -/
def sampleOptions : String :=
  "\x7b\"data\":[\x7b\"key\":\"ModelRatio\",\"value\":\"\x7b\\\"a\\\":1\x7d\"\x7d," ++
    "\x7b\"key\":\"CompletionRatio\",\"value\":\"\x7b\\\"a\\\":3\x7d\"\x7d]\x7d"

/-- The records of `sampleOptions`. -/
def sampleRecords : List OptionRecord :=
  [⟨"ModelRatio", "\x7b\"a\":1\x7d"⟩, ⟨"CompletionRatio", "\x7b\"a\":3\x7d"⟩]

/-- An options body with a single CompletionRatio record, the empty table. -/
def completionOnlyOptions : String :=
  "\x7b\"data\":[\x7b\"key\":\"CompletionRatio\",\"value\":\"\x7b\x7d\"\x7d]\x7d"

/-- The records of `completionOnlyOptions`. -/
def completionOnlyRecords : List OptionRecord := [⟨"CompletionRatio", "\x7b\x7d"⟩]

/-- An options body with a malformed CompletionRatio record and two
ModelRatio records, the empty table and then the number 0. -/
def shadowedOptions : String :=
  "\x7b\"data\":[\x7b\"key\":\"CompletionRatio\",\"value\":\"oops\"\x7d," ++
    "\x7b\"key\":\"ModelRatio\",\"value\":\"\x7b\x7d\"\x7d," ++
    "\x7b\"key\":\"ModelRatio\",\"value\":\"0\"\x7d]\x7d"

/-- The records of `shadowedOptions`. -/
def shadowedRecords : List OptionRecord :=
  [⟨"CompletionRatio", "oops"⟩, ⟨"ModelRatio", "\x7b\x7d"⟩, ⟨"ModelRatio", "0"⟩]

/-- An options body with a malformed CompletionRatio record and a ModelRatio
record with a one-entry table. -/
def malformedOptions : String :=
  "\x7b\"data\":[\x7b\"key\":\"CompletionRatio\",\"value\":\"oops\"\x7d," ++
    "\x7b\"key\":\"ModelRatio\",\"value\":\"\x7b\\\"a\\\":1\x7d\"\x7d]\x7d"

/-- The records of `malformedOptions`. -/
def malformedRecords : List OptionRecord :=
  [⟨"CompletionRatio", "oops"⟩, ⟨"ModelRatio", "\x7b\"a\":1\x7d"⟩]

/-! ## Conditions on numbers and texts -/

/-- The text `rest` cannot continue a number: it is empty or starts with a
character that is no digit, point, exponent mark or sign. -/
def EndsNumber (rest : List Char) : Prop :=
  ∀ c, rest.head? = some c →
    c.isDigit = false ∧ c ≠ '.' ∧ c ≠ 'e' ∧ c ≠ 'E' ∧ c ≠ '+' ∧ c ≠ '-'

/-- The number is written by `JSON.stringify` as a text that `JSON.parse`
accepts: it is not finite (and written `null`), or its text matches the JSON
number grammar. -/
def NumberEncodes {ν : Type} [JSNumber ν] (x : ν) : Prop :=
  JSNumber.isFinite x = false ∨
    lexNumber (JSNumber.toString x) = some (JSNumber.toString x, [])

/-- The number survives `JSON.stringify` followed by `JSON.parse`: it is
finite, its text matches the JSON number grammar and has the number as value. -/
def NumberSurvives {ν : Type} [JSNumber ν] (x : ν) : Prop :=
  JSNumber.isFinite x = true ∧
    lexNumber (JSNumber.toString x) = some (JSNumber.toString x, []) ∧
    JSNumber.literal (JSNumber.toString x) = x

/-- The value that `JSON.parse` reads from the text of a number. -/
def rereadNumber {ν : Type} [JSNumber ν] (x : ν) : JSValue ν :=
  if JSNumber.isFinite x then .num (JSNumber.literal (JSNumber.toString x)) else .null

/-- The value `v` is written as a text that, followed by a comma or a closing
brace, is read back as `v'`. -/
def ReadsBack {ν : Type} [JSNumber ν] (v v' : JSValue ν) : Prop :=
  ∃ t, serialize v = some t ∧
    ∀ fuel c rest, (c = ',' ∨ c = Char.ofNat 125) →
      parseValue (fuel + 1) (t ++ c :: rest) = some (v', c :: rest)

/-- The value that `JSON.parse` reads from the text of a number, and any
other value unchanged. -/
def reread {ν : Type} [JSNumber ν] : JSValue ν → JSValue ν
  | .num x => rereadNumber x
  | v => v

/-- An options body whose ModelRatio table has an entry that overflows the
range of a binary64. -/
def overflowOptions : String :=
  "\x7b\"data\":[\x7b\"key\":\"ModelRatio\",\"value\":\"\x7b\\\"a\\\":1e309\x7d\"\x7d]\x7d"

/-! ## Repeated records -/

/-- The working variable that the records with the key `key` are stored in:
`completionRatio` for `CompletionRatio`, `modelRatio` otherwise. -/
def Working.table {ν : Type} (w : Working ν) (key : String) : JSValue ν :=
  if key = "CompletionRatio" then w.completionRatio else w.modelRatio

/-- The ratio computed in the try block of a record with the key `key`:
`outputPrice / inputPrice` for `CompletionRatio` (add_channel.js line 132,
app.js line 332), `inputPrice / 2.5` for `ModelRatio` (lines 147 and 344). -/
def ratioFor {ν : Type} [JSNumber ν] (key : String) (inputPrice outputPrice : ν) : ν :=
  if key = "CompletionRatio" then JSNumber.div outputPrice inputPrice
  else JSNumber.div inputPrice (JSNumber.literal "2.5".data)

/-- The try block of one record on its own (add_channel.js lines 128-136 and
143-151, app.js lines 331-335 and 343-347): the table stored in the working
variable, or nothing when `JSON.parse` or an assignment throws. -/
def tryRecord {ν : Type} [JSNumber ν] (ratio : ν) (sourceModel targetModel : String)
    (r : OptionRecord) : Option (JSValue ν) :=
  match JSON.parse r.value with
  | .error _ => none
  | .ok parsed =>
    match setBoth parsed sourceModel targetModel ratio with
    | .error _ => none
    | .ok p => some p

/-- An options body with two ModelRatio records: a one-entry table, then a
value that is not valid JSON. -/
def staleOptions : String :=
  "\x7b\"data\":[\x7b\"key\":\"ModelRatio\",\"value\":\"\x7b\\\"a\\\":1\x7d\"\x7d," ++
    "\x7b\"key\":\"ModelRatio\",\"value\":\"oops\"\x7d]\x7d"

/-- The records of `staleOptions`. -/
def staleRecords : List OptionRecord :=
  [⟨"ModelRatio", "\x7b\"a\":1\x7d"⟩, ⟨"ModelRatio", "oops"⟩]

/-! ## The two files side by side -/

/-- The second log line of the catch block of add_channel.js (lines 139 and
154) completes on `item`: `item.value` can be read and converted to a string. -/
def LogsRawValue {ν : Type} [JSNumber ν] (item : JSValue ν) : Prop :=
  ∃ v t, getNamed item "value" = .ok v ∧ toStringJS v = .ok t

/-- Every element of every options list that the gateway serves for the
token lets the catch block of add_channel.js complete. -/
def ServesLoggable (ν : Type) [JSNumber ν] (gw : Gateway) (systemToken : String) : Prop :=
  ∀ (trace : List Request) (status : Nat) (body : String) (api d : JSValue ν)
    (items : List (JSValue ν)),
    gw trace (getRequest systemToken) = .response status body →
    JSON.parse body = .ok api → getNamed api "data" = .ok d →
    iterate (dataOrEmpty d) = .ok items → ∀ item ∈ items, LogsRawValue item

/-- An options body with a ModelRatio record, the empty table, and a
CompletionRatio record whose `value` is an object with an own `toString`
property that is no function. -/
def guardedOptions : String :=
  "\x7b\"data\":[\x7b\"key\":\"ModelRatio\",\"value\":\"\x7b\x7d\"\x7d," ++
    "\x7b\"key\":\"CompletionRatio\",\"value\":\x7b\"toString\":1\x7d\x7d]\x7d"

/-- Whether the text holds, at some place, a backslash, the letter `u`, a
hexadecimal digit D and a hexadecimal digit from 8 to F, in either case: the
start of a `\u` escape of a surrogate code unit (U+D800 to U+DFFF). The
engine decodes such an escape also when the surrogate is unpaired, to a code
unit that no `Char` stands for, and `parseStringBody` refuses it; on a text
without these four characters `unicodeEscape?` refuses only what the engine
refuses. -/
def escapesSurrogate (text : List Char) : Bool :=
  text.tails.any (fun t =>
    match t with
    | a :: b :: c :: d :: _ =>
      a == '\\' && b == 'u' && hexValue? c == some 13 &&
        (hexValue? d).any (fun y => decide (8 ≤ y))
    | _ => false)

/-- An options body with three ModelRatio records: two tables and then a
value that is not valid JSON. -/
def mixedOptions : String :=
  "\x7b\"data\":[\x7b\"key\":\"ModelRatio\",\"value\":\"\x7b\\\"a\\\":1\x7d\"\x7d," ++
    "\x7b\"key\":\"ModelRatio\",\"value\":\"\x7b\\\"b\\\":2\x7d\"\x7d," ++
    "\x7b\"key\":\"ModelRatio\",\"value\":\"oops\"\x7d]\x7d"

/-- The records of `mixedOptions`. -/
def mixedRecords : List OptionRecord :=
  [⟨"ModelRatio", "\x7b\"a\":1\x7d"⟩, ⟨"ModelRatio", "\x7b\"b\":2\x7d"⟩, ⟨"ModelRatio", "oops"⟩]

/-! ## Theorems: the host -/

theorem takeWhile_notSlash_append (h p : List Char) (hh : '/' ∉ h) :
    splitSlashHead (h ++ '/' :: p) = h := by
  induction h with
  | nil => simp [splitSlashHead]
  | cons c cs ih =>
    have hc : c ≠ '/' := fun e => hh (by simp [e])
    have hcs : '/' ∉ cs := fun e => hh (by simp [e])
    have hb : (c != '/') = true := by simp [hc]
    have h1 := ih hcs
    simp only [splitSlashHead] at h1 ⊢
    rw [List.cons_append, List.takeWhile_cons, hb, h1]
    rfl

theorem stripScheme_https (s : List Char) : stripScheme ("https://".data ++ s) = s := by
  simp [stripScheme, List.isPrefixOf]

theorem stripScheme_http (s : List Char) : stripScheme ("http://".data ++ s) = s := by
  simp [stripScheme, List.isPrefixOf]

/-- C5: for a base URL made of the scheme `http://` or `https://`, a non-empty
host without a slash, a slash and any path, the host that createChannel
derives is that host. -/
theorem deriveHost_scheme_host_path (scheme host path : String)
    (hscheme : scheme = "http://" ∨ scheme = "https://")
    (hne : host ≠ "") (hslash : '/' ∉ host.data) :
    deriveHost (scheme ++ host ++ "/" ++ path) = host ∧
      deriveHost "https://foo.example.com/v1" = "foo.example.com" := by
  refine ⟨?_, by decide⟩
  have hdata : (scheme ++ host ++ "/" ++ path).data
      = scheme.data ++ (host.data ++ '/' :: path.data) := by
    simp [String.data_append]
  have hstrip : stripScheme (scheme ++ host ++ "/" ++ path).data
      = host.data ++ '/' :: path.data := by
    rw [hdata]
    rcases hscheme with h | h
    · subst h; exact stripScheme_http _
    · subst h; exact stripScheme_https _
  unfold deriveHost
  simp only [hstrip, takeWhile_notSlash_append _ _ hslash]
  have : (⟨host.data⟩ : String) = host := rfl
  rw [this, if_neg hne]

theorem deriveHost_scheme_host_path_witness :
    deriveHost ("https://" ++ "api.example.com" ++ "/" ++ "v1/chat") = "api.example.com" ∧
      deriveHost "https://foo.example.com/v1" = "foo.example.com" :=
  deriveHost_scheme_host_path "https://" "api.example.com" "v1/chat" (Or.inr rfl)
    (by decide) (by decide)

/-! ## Theorems: the channel request -/

/-- C6: the `name` of the channel body is the derived host, a space, the
source model name, ` -> ` and the target model name, in both files; this body
is the one createChannel posts, whatever the gateway; and the base URL
`https://foo.example.com/v1` with the models `gpt-x` and `proxy-gpt-x` gives
the name `foo.example.com gpt-x -> proxy-gpt-x`. -/
theorem channel_name (ν : Type) [JSNumber ν] (gw : Gateway) (trace : List Request)
    (systemToken baseUrl token sourceModel targetModel : String) :
    getNamed (Node.channelBody baseUrl token sourceModel targetModel : JSValue ν) "name"
        = .ok (.str (deriveHost baseUrl ++ " " ++ sourceModel ++ " -> " ++ targetModel)) ∧
      getNamed (App.channelBody baseUrl token sourceModel targetModel : JSValue ν) "name"
        = .ok (.str (deriveHost baseUrl ++ " " ++ sourceModel ++ " -> " ++ targetModel)) ∧
      (Node.createChannel ν gw trace systemToken baseUrl token sourceModel targetModel).2
        = trace ++ [Node.channelRequest ν systemToken baseUrl token sourceModel targetModel] ∧
      (App.createChannel ν gw trace systemToken baseUrl token sourceModel targetModel).2
        = trace ++ [App.channelRequest ν systemToken baseUrl token sourceModel targetModel] ∧
      (Node.channelRequest ν systemToken baseUrl token sourceModel targetModel).body
        = JSON.stringify (Node.channelBody baseUrl token sourceModel targetModel : JSValue ν) ∧
      (App.channelRequest ν systemToken baseUrl token sourceModel targetModel).body
        = JSON.stringify (App.channelBody baseUrl token sourceModel targetModel : JSValue ν) ∧
      getNamed (Node.channelBody "https://foo.example.com/v1" token "gpt-x" "proxy-gpt-x" :
          JSValue ν) "name" = .ok (.str "foo.example.com gpt-x -> proxy-gpt-x") ∧
      getNamed (App.channelBody "https://foo.example.com/v1" token "gpt-x" "proxy-gpt-x" :
          JSValue ν) "name" = .ok (.str "foo.example.com gpt-x -> proxy-gpt-x") := by
  have hex : deriveHost "https://foo.example.com/v1" ++ " " ++ "gpt-x" ++ " -> " ++ "proxy-gpt-x"
      = "foo.example.com gpt-x -> proxy-gpt-x" := by decide
  refine ⟨rfl, rfl, ?_, ?_, rfl, rfl, ?_, ?_⟩
  · unfold Node.createChannel
    dsimp only
    split
    · rfl
    · split <;> rfl
  · unfold App.createChannel
    dsimp only
    split
    · rfl
    · split <;> rfl
  · rw [← hex]; rfl
  · rw [← hex]; rfl

/-- C8: when the gateway answers the channel POST with a status outside
200-299 and a body, createChannel fails with a message that contains the
decimal status and the body, in both files; main and runScript then stop with
that message after this one request, so no GET and no PUT is made. -/
theorem createChannel_failure_stops (ν : Type) [JSNumber ν] (gw : Gateway)
    (env : Option String) (i : App.Inputs ν) (status : Nat) (body : String)
    (hstatus : responseOk status = false)
    (hnode : gw [] (Node.channelRequest ν (Node.systemTokenOf env) i.baseUrl i.sourceToken
      i.sourceModel i.targetModel) = .response status body)
    (happ : gw [] (App.channelRequest ν i.systemToken i.baseUrl i.sourceToken i.sourceModel
      i.targetModel) = .response status body) :
    (∃ msg : String,
      (Node.createChannel ν gw [] (Node.systemTokenOf env) i.baseUrl i.sourceToken
          i.sourceModel i.targetModel).1 = .error msg ∧
        (natToString status).data <:+: msg.data ∧ body.data <:+: msg.data ∧
        Node.main gw env i.baseUrl i.sourceToken i.sourceModel i.targetModel i.inputPrice
            i.outputPrice
          = (.error msg, [Node.channelRequest ν (Node.systemTokenOf env) i.baseUrl
              i.sourceToken i.sourceModel i.targetModel])) ∧
      (∃ msg : String,
        (App.createChannel ν gw [] i.systemToken i.baseUrl i.sourceToken i.sourceModel
            i.targetModel).1 = .error msg ∧
          (natToString status).data <:+: msg.data ∧ body.data <:+: msg.data ∧
          App.runScript gw (some i)
            = (some msg, [App.channelRequest ν i.systemToken i.baseUrl i.sourceToken
                i.sourceModel i.targetModel])) ∧
      (∀ r ∈ (Node.main gw env i.baseUrl i.sourceToken i.sourceModel i.targetModel
          i.inputPrice i.outputPrice).2, r.method = "POST") ∧
      (∀ r ∈ (App.runScript gw (some i)).2, r.method = "POST") := by
  have hN : Node.createChannel ν gw [] (Node.systemTokenOf env) i.baseUrl i.sourceToken
      i.sourceModel i.targetModel
      = (.error ("Failed to create channel: " ++
          ("Channel creation failed with status: " ++ natToString status ++ " - " ++ body)),
        [Node.channelRequest ν (Node.systemTokenOf env) i.baseUrl i.sourceToken
          i.sourceModel i.targetModel]) := by
    simp [Node.createChannel, hnode, hstatus]
  have hA : App.createChannel ν gw [] i.systemToken i.baseUrl i.sourceToken i.sourceModel
      i.targetModel
      = (.error ("Create Channel Failed (" ++ natToString status ++ "): " ++ body),
        [App.channelRequest ν i.systemToken i.baseUrl i.sourceToken i.sourceModel
          i.targetModel]) := by
    simp [App.createChannel, happ, hstatus]
  have hNm : Node.main gw env i.baseUrl i.sourceToken i.sourceModel i.targetModel i.inputPrice
      i.outputPrice
      = (.error ("Failed to create channel: " ++
          ("Channel creation failed with status: " ++ natToString status ++ " - " ++ body)),
        [Node.channelRequest ν (Node.systemTokenOf env) i.baseUrl i.sourceToken
          i.sourceModel i.targetModel]) := by
    simp [Node.main, hN]
  have hAm : App.runScript gw (some i)
      = (some ("Create Channel Failed (" ++ natToString status ++ "): " ++ body),
        [App.channelRequest ν i.systemToken i.baseUrl i.sourceToken i.sourceModel
          i.targetModel]) := by
    simp [App.runScript, hA]
  refine ⟨⟨_, by rw [hN], ?_, ?_, hNm⟩, ⟨_, by rw [hA], ?_, ?_, hAm⟩, ?_, ?_⟩
  · simp only [String.data_append]
    exact ⟨"Failed to create channel: ".data ++ "Channel creation failed with status: ".data,
      " - ".data ++ body.data, by simp⟩
  · simp only [String.data_append]
    exact ⟨"Failed to create channel: ".data ++ ("Channel creation failed with status: ".data
      ++ (natToString status).data ++ " - ".data), [], by simp⟩
  · simp only [String.data_append]
    exact ⟨"Create Channel Failed (".data, "): ".data ++ body.data, by simp⟩
  · simp only [String.data_append]
    exact ⟨"Create Channel Failed (".data ++ (natToString status).data ++ "): ".data, [],
      by simp⟩
  · rw [hNm]; intro r hr; simp at hr; subst hr; rfl
  · rw [hAm]; intro r hr; simp at hr; subst hr; rfl

theorem createChannel_failure_stops_witness :
    Node.main refusingGateway none "https://foo.example.com/v1" "sk-source" "gpt-x" "proxy-gpt-x"
        (lit "1.0") (lit "2.0")
      = (.error
          "Failed to create channel: Channel creation failed with status: 400 - bad request",
        [Node.channelRequest Binary64 "e2535681c9dd4df19487484ed2ecd7b4"
          "https://foo.example.com/v1" "sk-source" "gpt-x" "proxy-gpt-x"]) ∧
      App.runScript refusingGateway (some ⟨"sys", "https://foo.example.com/v1", "sk-source",
        "gpt-x", "proxy-gpt-x", lit "1.0", lit "2.0"⟩)
      = (some "Create Channel Failed (400): bad request",
        [App.channelRequest Binary64 "sys" "https://foo.example.com/v1" "sk-source" "gpt-x"
          "proxy-gpt-x"]) := by
  have h := createChannel_failure_stops Binary64 refusingGateway none
    ⟨"sys", "https://foo.example.com/v1", "sk-source", "gpt-x", "proxy-gpt-x", lit "1.0",
      lit "2.0"⟩ 400 "bad request" (by decide) rfl rfl
  obtain ⟨⟨m1, h1, -, -, h2⟩, ⟨m2, h3, -, -, h4⟩, -, -⟩ := h
  refine ⟨?_, ?_⟩
  · rw [h2]
    have : m1 = "Failed to create channel: Channel creation failed with status: 400 - bad request" := by
      have e : (Node.createChannel Binary64 refusingGateway [] (Node.systemTokenOf none)
          "https://foo.example.com/v1" "sk-source" "gpt-x" "proxy-gpt-x").1
          = .error "Failed to create channel: Channel creation failed with status: 400 - bad request" := by
        rfl
      rw [e] at h1
      exact (Except.error.inj h1).symm
    rw [this]; rfl
  · rw [h4]
    have : m2 = "Create Channel Failed (400): bad request" := by
      have e : (App.createChannel Binary64 refusingGateway [] "sys"
          "https://foo.example.com/v1" "sk-source" "gpt-x" "proxy-gpt-x").1
          = .error "Create Channel Failed (400): bad request" := by
        rfl
      rw [e] at h3
      exact (Except.error.inj h3).symm
    rw [this]

/-! ## Lemmas: own properties -/

theorem hasOwn_eq_true_iff {ν : Type} (ps : Props ν) (k : String) :
    hasOwn ps k = true ↔ k ∈ ownKeys ps := by
  induction ps with
  | nil => simp [hasOwn, ownKeys]
  | cons p ps ih =>
    simp only [hasOwn, ownKeys, List.any_cons, Bool.or_eq_true, beq_iff_eq, List.map_cons,
      List.mem_cons] at ih ⊢
    rw [ih]
    constructor
    · rintro (h | h)
      · exact Or.inl h.symm
      · exact Or.inr h
    · rintro (h | h)
      · exact Or.inl h.symm
      · exact Or.inr h

theorem getOwn_eq_none_iff {ν : Type} (ps : Props ν) (k : String) :
    getOwn ps k = none ↔ k ∉ ownKeys ps := by
  induction ps with
  | nil => simp [getOwn, ownKeys]
  | cons p ps ih =>
    simp only [getOwn, ownKeys, List.map_cons, List.mem_cons, not_or] at ih ⊢
    by_cases h : p.1 = k
    · simp [h]
    · simp only [h, if_false, ih]
      constructor
      · intro h2; exact ⟨fun e => h e.symm, h2⟩
      · intro h2; exact h2.2

theorem getOwn_append_single {ν : Type} (ps : Props ν) (k : String) (v : JSValue ν)
    (k1 : String) :
    getOwn (ps ++ [(k, v)]) k1
      = match getOwn ps k1 with
        | some x => some x
        | none => if k = k1 then some v else none := by
  induction ps with
  | nil => simp [getOwn]
  | cons p ps ih =>
    simp only [List.cons_append, getOwn]
    by_cases h : p.1 = k1
    · simp [h]
    · simp [h, ih]

theorem getOwn_replace {ν : Type} (ps : Props ν) (k : String) (v : JSValue ν) (k1 : String) :
    getOwn (ps.map (fun p => if p.1 = k then (p.1, v) else p)) k1
      = if k1 = k then (if hasOwn ps k then some v else none) else getOwn ps k1 := by
  induction ps with
  | nil => simp [getOwn, hasOwn]
  | cons p ps ih =>
    simp only [List.map_cons, getOwn]
    by_cases hk : k1 = k
    · subst hk
      by_cases hp : p.1 = k1
      · simp [hp, hasOwn]
      · have hp2 : ¬ (k1 = p.1) := fun e => hp e.symm
        have hb : (p.1 == k1) = false := by simpa using hp
        have hor : (p.1 == k1 || ps.any fun q => q.1 == k1) = (ps.any fun q => q.1 == k1) := by
          rw [hb, Bool.false_or]
        simp only [hp, if_false, ih, if_true, hasOwn, List.any_cons, hor]
    · by_cases hp : p.1 = k
      · have : ¬ (p.1 = k1) := fun e => hk (e.symm.trans hp)
        simp only [hp, if_true, this, if_false, ih, hk]
        have : ¬ (k = k1) := fun e => hk e.symm
        simp [this]
      · simp only [hp, if_false, ih, hk]

theorem getOwn_insertIndexed {ν : Type} (i : Nat) (k : String) (v : JSValue ν) (ps : Props ν)
    (k1 : String) (hnew : hasOwn ps k = false) :
    getOwn (insertIndexed i k v ps) k1 = if k1 = k then some v else getOwn ps k1 := by
  induction ps with
  | nil =>
    by_cases h : k1 = k
    · simp [insertIndexed, getOwn, h]
    · have : ¬ (k = k1) := fun e => h e.symm
      simp [insertIndexed, getOwn, h, this]
  | cons p ps ih =>
    have hp : ¬ (p.1 = k) := by
      intro e
      simp [hasOwn, e] at hnew
    have hps : hasOwn ps k = false := by
      simp only [hasOwn, List.any_cons, Bool.or_eq_false_iff] at hnew ⊢
      exact hnew.2
    have key : getOwn ((k, v) :: p :: ps) k1 = if k1 = k then some v else getOwn (p :: ps) k1 := by
      by_cases h : k1 = k
      · simp [getOwn, h]
      · have : ¬ (k = k1) := fun e => h e.symm
        simp [getOwn, h, this]
    unfold insertIndexed
    split
    · split
      · simp only [getOwn, ih hps]
        by_cases h : k1 = k
        · subst h
          simp [hp]
        · simp [h]
      · exact key
    · exact key

theorem getOwn_defineOwn {ν : Type} (ps : Props ν) (k : String) (v : JSValue ν) (k1 : String) :
    getOwn (defineOwn ps k v) k1 = if k1 = k then some v else getOwn ps k1 := by
  unfold defineOwn
  by_cases h : hasOwn ps k = true
  · simp only [h, if_true, getOwn_replace]
  · have h2 : hasOwn ps k = false := by simpa using h
    simp only [h2, Bool.false_eq_true, if_false]
    split
    · exact getOwn_insertIndexed _ _ _ _ _ h2
    · rw [getOwn_append_single]
      have hnone : getOwn ps k = none := by
        rw [getOwn_eq_none_iff, ← hasOwn_eq_true_iff]; simp [h2]
      by_cases hk : k1 = k
      · subst hk; simp [hnone]
      · have : ¬ (k = k1) := fun e => hk e.symm
        simp only [hk, this, if_false]
        cases getOwn ps k1 <;> rfl

theorem mem_ownKeys_iff_getOwn {ν : Type} (ps : Props ν) (k : String) :
    k ∈ ownKeys ps ↔ ∃ v, getOwn ps k = some v := by
  constructor
  · intro h
    cases hg : getOwn ps k with
    | none => exact absurd h ((getOwn_eq_none_iff ps k).1 hg)
    | some v => exact ⟨v, rfl⟩
  · rintro ⟨v, hv⟩
    by_contra hn
    rw [(getOwn_eq_none_iff ps k).2 hn] at hv
    exact Option.noConfusion hv

theorem mem_ownKeys_defineOwn {ν : Type} (ps : Props ν) (k : String) (v : JSValue ν)
    (k1 : String) : k1 ∈ ownKeys (defineOwn ps k v) ↔ k1 = k ∨ k1 ∈ ownKeys ps := by
  rw [mem_ownKeys_iff_getOwn, getOwn_defineOwn, mem_ownKeys_iff_getOwn]
  by_cases h : k1 = k
  · simp [h]
  · simp [h]

theorem ordinarySet_of_ne_proto {ν : Type} (ps : Props ν) (k : String) (v : JSValue ν)
    (hk : k ≠ "__proto__") : ordinarySet ps k v = defineOwn ps k v := by
  simp [ordinarySet, hk]

theorem getOwn_ordinarySet {ν : Type} (ps : Props ν) (k : String) (v : JSValue ν) (k1 : String)
    (hk : k ≠ "__proto__") :
    getOwn (ordinarySet ps k v) k1 = if k1 = k then some v else getOwn ps k1 := by
  rw [ordinarySet_of_ne_proto ps k v hk, getOwn_defineOwn]

theorem mem_ownKeys_ordinarySet {ν : Type} (ps : Props ν) (k : String) (v : JSValue ν)
    (k1 : String) (hk : k ≠ "__proto__") :
    k1 ∈ ownKeys (ordinarySet ps k v) ↔ k1 = k ∨ k1 ∈ ownKeys ps := by
  rw [ordinarySet_of_ne_proto ps k v hk, mem_ownKeys_defineOwn]

theorem getOwn_ordinarySet_other {ν : Type} (ps : Props ν) (k : String) (v : JSValue ν)
    (k1 : String) (hk : k1 ≠ k) : getOwn (ordinarySet ps k v) k1 = getOwn ps k1 := by
  unfold ordinarySet
  split
  · rfl
  · rw [getOwn_defineOwn, if_neg hk]

/-! ## Lemmas: the scan of a well-formed options list -/

theorem toStringJS_str {ν : Type} [JSNumber ν] (s : String) :
    toStringJS (.str s : JSValue ν) = .ok s.data := by
  simp [toStringJS]

theorem parseItemValue_record {ν : Type} [JSNumber ν] (item : JSValue ν) (r : OptionRecord)
    (h : IsRecord item r) : parseItemValue item = (JSON.parse r.value : Except String (JSValue ν)) := by
  obtain ⟨props, rfl, -, hv⟩ := h
  simp [parseItemValue, getNamed, hv, toStringJS_str]

theorem Node.catchBlock_record {ν : Type} [JSNumber ν] (w : Working ν) (item : JSValue ν)
    (r : OptionRecord) (h : IsRecord item r) : Node.catchBlock w item = .ok w := by
  obtain ⟨props, rfl, -, hv⟩ := h
  simp [Node.catchBlock, getNamed, hv, toStringJS_str]

theorem Node.scanItem_record {ν : Type} [JSNumber ν] (inp out : ν) (src tgt : String)
    (w : Working ν) (item : JSValue ν) (r : OptionRecord) (h : IsRecord item r) :
    Node.scanItem inp out src tgt w item = .ok (turn inp out src tgt w r) := by
  have hp := parseItemValue_record item r h
  have hc := Node.catchBlock_record w item r h
  obtain ⟨props, rfl, hk, hv⟩ := h
  unfold Node.scanItem turn
  simp only [getNamed, hk, Option.getD_some, strictEqualsString, decide_eq_true_eq, hp, hc]
  split
  · cases (JSON.parse r.value : Except String (JSValue ν)) with
    | error e => rfl
    | ok parsed =>
      simp only
      cases setBoth parsed src tgt (JSNumber.div out inp) <;> rfl
  · split
    · cases (JSON.parse r.value : Except String (JSValue ν)) with
      | error e => rfl
      | ok parsed =>
        simp only
        cases setBoth parsed src tgt (JSNumber.div inp (JSNumber.literal "2.5".data)) <;> rfl
    · rfl

theorem App.browser_scanItem_record {ν : Type} [JSNumber ν] (inp out : ν) (src tgt : String)
    (w : Working ν) (item : JSValue ν) (r : OptionRecord) (h : IsRecord item r) :
    App.scanItem inp out src tgt w item = .ok (turn inp out src tgt w r) := by
  have hp := parseItemValue_record item r h
  obtain ⟨props, rfl, hk, hv⟩ := h
  unfold App.scanItem turn
  simp only [getNamed, hk, Option.getD_some, strictEqualsString, decide_eq_true_eq, hp]
  split
  · cases (JSON.parse r.value : Except String (JSValue ν)) with
    | error e => rfl
    | ok parsed =>
      simp only
      cases setBoth parsed src tgt (JSNumber.div out inp) <;> rfl
  · split
    · cases (JSON.parse r.value : Except String (JSValue ν)) with
      | error e => rfl
      | ok parsed =>
        simp only
        cases setBoth parsed src tgt (JSNumber.div inp (JSNumber.literal "2.5".data)) <;> rfl
    · rfl

theorem Node.scan_records {ν : Type} [JSNumber ν] (inp out : ν) (src tgt : String)
    (items : List (JSValue ν)) (data : List OptionRecord)
    (h : List.Forall₂ IsRecord items data) (w : Working ν) :
    Node.scan inp out src tgt items w = .ok (data.foldl (turn inp out src tgt) w) := by
  induction h generalizing w with
  | nil => rfl
  | cons hr _ ih =>
    simp only [Node.scan, Node.scanItem_record inp out src tgt w _ _ hr, List.foldl_cons]
    exact ih _

theorem App.browser_scan_records {ν : Type} [JSNumber ν] (inp out : ν) (src tgt : String)
    (items : List (JSValue ν)) (data : List OptionRecord)
    (h : List.Forall₂ IsRecord items data) (w : Working ν) :
    App.scan inp out src tgt items w = .ok (data.foldl (turn inp out src tgt) w) := by
  induction h generalizing w with
  | nil => rfl
  | cons hr _ ih =>
    simp only [App.scan, App.browser_scanItem_record inp out src tgt w _ _ hr, List.foldl_cons]
    exact ih _

theorem isRecord_toJS {ν : Type} (r : OptionRecord) : IsRecord (r.toJS : JSValue ν) r :=
  ⟨_, rfl, by simp [getOwn], by simp [getOwn]⟩

theorem forall₂_isRecord_toJS {ν : Type} (data : List OptionRecord) :
    List.Forall₂ IsRecord (data.map (fun r => (r.toJS : JSValue ν))) data := by
  induction data with
  | nil => exact List.Forall₂.nil
  | cons r rs ih => exact List.Forall₂.cons (isRecord_toJS r) ih

theorem turn_completionRatio_of_ne {ν : Type} [JSNumber ν] (inp out : ν) (src tgt : String)
    (w : Working ν) (r : OptionRecord) (h : r.key ≠ "CompletionRatio") :
    (turn inp out src tgt w r).completionRatio = w.completionRatio := by
  unfold turn
  rw [if_neg h]
  split
  · split
    · rfl
    · split <;> rfl
  · rfl

theorem turn_modelRatio_of_ne {ν : Type} [JSNumber ν] (inp out : ν) (src tgt : String)
    (w : Working ν) (r : OptionRecord) (h : r.key ≠ "ModelRatio") :
    (turn inp out src tgt w r).modelRatio = w.modelRatio := by
  unfold turn
  rw [if_neg h]
  split
  · split
    · rfl
    · split <;> rfl
  · rfl

theorem foldl_turn_completionRatio_of_ne {ν : Type} [JSNumber ν] (inp out : ν)
    (src tgt : String) (data : List OptionRecord)
    (h : ∀ r ∈ data, r.key ≠ "CompletionRatio") (w : Working ν) :
    (data.foldl (turn inp out src tgt) w).completionRatio = w.completionRatio := by
  induction data generalizing w with
  | nil => rfl
  | cons r rs ih =>
    rw [List.foldl_cons, ih (fun x hx => h x (List.mem_cons_of_mem _ hx)),
      turn_completionRatio_of_ne _ _ _ _ _ _ (h r (List.mem_cons_self _ _))]

theorem foldl_turn_modelRatio_of_ne {ν : Type} [JSNumber ν] (inp out : ν)
    (src tgt : String) (data : List OptionRecord)
    (h : ∀ r ∈ data, r.key ≠ "ModelRatio") (w : Working ν) :
    (data.foldl (turn inp out src tgt) w).modelRatio = w.modelRatio := by
  induction data generalizing w with
  | nil => rfl
  | cons r rs ih =>
    rw [List.foldl_cons, ih (fun x hx => h x (List.mem_cons_of_mem _ hx)),
      turn_modelRatio_of_ne _ _ _ _ _ _ (h r (List.mem_cons_self _ _))]

theorem setBoth_obj {ν : Type} [JSNumber ν] (o : Props ν) (src tgt : String) (x : ν) :
    setBoth (.obj o) src tgt x
      = .ok (.obj (ordinarySet (ordinarySet o src (.num x)) tgt (.num x))) := rfl

/-- The CompletionRatio table after the scan when the last record with that
key decodes to the object `o`. -/
theorem foldl_turn_completionRatio_last {ν : Type} [JSNumber ν] (inp out : ν)
    (src tgt : String) (pre post : List OptionRecord) (r : OptionRecord) (o : Props ν)
    (hkey : r.key = "CompletionRatio") (hparse : JSON.parse r.value = .ok (.obj o))
    (hpost : ∀ x ∈ post, x.key ≠ "CompletionRatio") (w : Working ν) :
    ((pre ++ r :: post).foldl (turn inp out src tgt) w).completionRatio
      = .obj (ordinarySet (ordinarySet o src (.num (JSNumber.div out inp))) tgt
          (.num (JSNumber.div out inp))) := by
  rw [List.foldl_append, List.foldl_cons, foldl_turn_completionRatio_of_ne _ _ _ _ _ hpost]
  simp [turn, hkey, hparse, setBoth_obj]

/-- The ModelRatio table after the scan when the last record with that key
decodes to the object `o`. -/
theorem foldl_turn_modelRatio_last {ν : Type} [JSNumber ν] (inp out : ν)
    (src tgt : String) (pre post : List OptionRecord) (r : OptionRecord) (o : Props ν)
    (hkey : r.key = "ModelRatio") (hparse : JSON.parse r.value = .ok (.obj o))
    (hpost : ∀ x ∈ post, x.key ≠ "ModelRatio") (w : Working ν) :
    ((pre ++ r :: post).foldl (turn inp out src tgt) w).modelRatio
      = .obj (ordinarySet (ordinarySet o src
          (.num (JSNumber.div inp (JSNumber.literal "2.5".data)))) tgt
          (.num (JSNumber.div inp (JSNumber.literal "2.5".data)))) := by
  rw [List.foldl_append, List.foldl_cons, foldl_turn_modelRatio_of_ne _ _ _ _ _ hpost]
  have hne : r.key ≠ "CompletionRatio" := by rw [hkey]; decide
  simp [turn, hkey, hparse, setBoth_obj]

/-! ## Lemmas: the requests of the price update -/

theorem Node.pushTable_falsy {ν : Type} [JSNumber ν] (gw : Gateway) (trace : List Request)
    (tok key : String) (table : JSValue ν) (h : toBoolean table = false) :
    Node.pushTable gw trace tok key table = (.ok (), trace) := by
  simp [Node.pushTable, h]

theorem Node.pushTable_response {ν : Type} [JSNumber ν] (gw : Gateway) (trace : List Request)
    (tok key : String) (table : JSValue ν) (status : Nat) (text : String)
    (h : toBoolean table = true)
    (hgw : gw trace (Node.putRequest tok key table) = .response status text) :
    Node.pushTable gw trace tok key table
      = (if responseOk status then .ok ()
          else .error (key ++ " update failed with status: " ++ natToString status ++ " - "
            ++ text),
        trace ++ [Node.putRequest tok key table]) := by
  simp only [Node.pushTable, h, if_true, hgw]
  split <;> rfl

theorem Node.putRequest_method {ν : Type} [JSNumber ν] (tok key : String) (table : JSValue ν) :
    (Node.putRequest tok key table).method = "PUT" := rfl

theorem App.browser_putRequest_method {ν : Type} [JSNumber ν] (tok key : String) (table : JSValue ν) :
    (App.putRequest tok key table).method = "PUT" := rfl

theorem Node.pushTable_accepted {ν : Type} [JSNumber ν] (gw : Gateway) (trace : List Request)
    (tok key : String) (table : JSValue ν) (hput : AcceptsPuts gw) :
    Node.pushTable gw trace tok key table
      = (.ok (), if toBoolean table then trace ++ [Node.putRequest tok key table] else trace) := by
  by_cases h : toBoolean table = true
  · obtain ⟨st, b, hgw, hok⟩ := hput trace (Node.putRequest tok key table) rfl
    rw [Node.pushTable_response gw trace tok key table st b h hgw]
    simp [hok, h]
  · have h2 : toBoolean table = false := by simpa using h
    rw [Node.pushTable_falsy gw trace tok key table h2]
    simp [h2]

theorem App.updateOption_accepted {ν : Type} [JSNumber ν] (gw : Gateway) (trace : List Request)
    (tok key : String) (table : JSValue ν) (hput : AcceptsPuts gw) :
    App.updateOption gw trace tok key table
      = (.ok (), trace ++ [App.putRequest tok key table]) := by
  obtain ⟨st, b, hgw, hok⟩ := hput trace (App.putRequest tok key table) rfl
  simp [App.updateOption, hgw, hok]

/-- The try block of updateModelPriceRate once the options list is served and
scanned: the two pushes in order. -/
theorem Node.updateModelPriceRate_body_of_scan {ν : Type} [JSNumber ν] (gw : Gateway)
    (trace : List Request) (tok : String) (inp out : ν) (src tgt : String)
    (items : List (JSValue ν)) (w : Working ν) (hserve : ServesOptions gw trace tok items)
    (hscan : Node.scan inp out src tgt items ⟨.null, .null⟩ = .ok w) :
    Node.updateModelPriceRate.body gw trace tok inp out src tgt
      = match Node.pushTable gw (trace ++ [getRequest tok]) tok "ModelRatio" w.modelRatio with
        | (.error e, t2) => (.error e, t2)
        | (.ok _, t2) =>
          match Node.pushTable gw t2 tok "CompletionRatio" w.completionRatio with
          | (.error e, t3) => (.error e, t3)
          | (.ok _, t3) =>
            (.ok { completion_ratio := w.completionRatio, model_ratio := w.modelRatio }, t3) := by
  obtain ⟨status, body, api, props, hget, hok, hparse, hdata⟩ := hserve
  simp only [Node.updateModelPriceRate.body, hget, hok, hparse, hdata, dataOrEmpty, toBoolean,
    logLength, iterate, hscan, Bool.not_true, Bool.false_eq_true, if_false, if_true]

/-- The function updatePrice once the options list is served and scanned. -/
theorem App.updatePrice_of_scan {ν : Type} [JSNumber ν] (gw : Gateway)
    (trace : List Request) (tok : String) (inp out : ν) (src tgt : String)
    (items : List (JSValue ν)) (w : Working ν) (hserve : ServesOptions gw trace tok items)
    (hscan : App.scan inp out src tgt items ⟨.null, .null⟩ = .ok w) :
    App.updatePrice gw trace tok inp out src tgt
      = match (if toBoolean w.modelRatio then
            App.updateOption gw (trace ++ [getRequest tok]) tok "ModelRatio" w.modelRatio
          else (.ok (), trace ++ [getRequest tok])) with
        | (.error e, t2) => (.error e, t2)
        | (.ok _, t2) =>
          if toBoolean w.completionRatio then
            App.updateOption gw t2 tok "CompletionRatio" w.completionRatio
          else (.ok (), t2) := by
  obtain ⟨status, body, api, props, hget, hok, hparse, hdata⟩ := hserve
  simp only [App.updatePrice, hget, hok, hparse, hdata, dataOrEmpty, toBoolean,
    logLength, iterate, hscan, Bool.not_true, Bool.false_eq_true, if_false, if_true]

/-- The whole run of updateModelPriceRate when every PUT is accepted. -/
theorem Node.updateModelPriceRate_accepted {ν : Type} [JSNumber ν] (gw : Gateway)
    (trace : List Request) (tok : String) (inp out : ν) (src tgt : String)
    (items : List (JSValue ν)) (w : Working ν) (hserve : ServesOptions gw trace tok items)
    (hscan : Node.scan inp out src tgt items ⟨.null, .null⟩ = .ok w) (hput : AcceptsPuts gw) :
    Node.updateModelPriceRate gw trace tok inp out src tgt
      = (.ok { completion_ratio := w.completionRatio, model_ratio := w.modelRatio },
        (trace ++ [getRequest tok])
          ++ (if toBoolean w.modelRatio then [Node.putRequest tok "ModelRatio" w.modelRatio]
              else [])
          ++ (if toBoolean w.completionRatio then
                [Node.putRequest tok "CompletionRatio" w.completionRatio]
              else [])) := by
  unfold Node.updateModelPriceRate
  rw [Node.updateModelPriceRate_body_of_scan gw trace tok inp out src tgt items w hserve hscan]
  simp only [Node.pushTable_accepted _ _ _ _ _ hput]
  by_cases h1 : toBoolean w.modelRatio = true <;>
    by_cases h2 : toBoolean w.completionRatio = true <;> simp [h1, h2]

/-- The whole run of updatePrice when every PUT is accepted. -/
theorem App.updatePrice_accepted {ν : Type} [JSNumber ν] (gw : Gateway)
    (trace : List Request) (tok : String) (inp out : ν) (src tgt : String)
    (items : List (JSValue ν)) (w : Working ν) (hserve : ServesOptions gw trace tok items)
    (hscan : App.scan inp out src tgt items ⟨.null, .null⟩ = .ok w) (hput : AcceptsPuts gw) :
    App.updatePrice gw trace tok inp out src tgt
      = (.ok (),
        (trace ++ [getRequest tok])
          ++ (if toBoolean w.modelRatio then [App.putRequest tok "ModelRatio" w.modelRatio]
              else [])
          ++ (if toBoolean w.completionRatio then
                [App.putRequest tok "CompletionRatio" w.completionRatio]
              else [])) := by
  rw [App.updatePrice_of_scan gw trace tok inp out src tgt items w hserve hscan]
  simp only [App.updateOption_accepted _ _ _ _ _ hput]
  by_cases h1 : toBoolean w.modelRatio = true <;>
    by_cases h2 : toBoolean w.completionRatio = true <;> simp [h1, h2]

theorem acceptsPuts_optionsGateway (options : String) (status : Nat) (body : String)
    (h : responseOk status = true) : AcceptsPuts (optionsGateway options status body) := by
  intro trace req hreq
  refine ⟨status, body, ?_, h⟩
  simp [optionsGateway, hreq]

theorem servesOptions_sample (trace : List Request) (tok : String) (status : Nat)
    (body : String) :
    ServesOptions (optionsGateway sampleOptions status body) trace tok
      (sampleRecords.map (fun r => (r.toJS : JSValue Binary64))) := by
  refine ⟨200, sampleOptions,
    .obj [("data", .arr (sampleRecords.map (fun r => (r.toJS : JSValue Binary64))) [])], [],
    ?_, by decide, ?_, ?_⟩
  · simp [optionsGateway, getRequest]
  · rfl
  · rfl

/-! ## Theorems: the two ratio tables -/

/-- C1 (counterexample): (a) the options list with the two CompletionRatio
records `{}` and `5` contains a record that decodes to a JSON object, yet the
table both scans end with is the number 5, which holds no entry; (b) with the
source model name `__proto__` and the single record `{}` the table has an
entry for the target only. -/
theorem completionRatio_table_counterexample :
    ((∃ r ∈ ([⟨"CompletionRatio", "\x7b\x7d"⟩, ⟨"CompletionRatio", "5"⟩] : List OptionRecord),
        r.key = "CompletionRatio" ∧
          (JSON.parse r.value : Except String (JSValue Binary64)) = .ok (.obj [])) ∧
      Node.scan (lit "1.0") (lit "2.0") "gpt-x" "proxy-gpt-x"
          (([⟨"CompletionRatio", "\x7b\x7d"⟩, ⟨"CompletionRatio", "5"⟩] :
            List OptionRecord).map (fun r => r.toJS)) ⟨.null, .null⟩
        = .ok ⟨.num (lit "5"), .null⟩ ∧
      App.scan (lit "1.0") (lit "2.0") "gpt-x" "proxy-gpt-x"
          (([⟨"CompletionRatio", "\x7b\x7d"⟩, ⟨"CompletionRatio", "5"⟩] :
            List OptionRecord).map (fun r => r.toJS)) ⟨.null, .null⟩
        = .ok ⟨.num (lit "5"), .null⟩) ∧
    (Node.scan (lit "1.0") (lit "2.0") "__proto__" "proxy-gpt-x"
          (([⟨"CompletionRatio", "\x7b\x7d"⟩] : List OptionRecord).map (fun r => r.toJS))
          ⟨.null, .null⟩
        = .ok ⟨.obj [("proxy-gpt-x", .num (lit "2.0"))], .null⟩ ∧
      App.scan (lit "1.0") (lit "2.0") "__proto__" "proxy-gpt-x"
          (([⟨"CompletionRatio", "\x7b\x7d"⟩] : List OptionRecord).map (fun r => r.toJS))
          ⟨.null, .null⟩
        = .ok ⟨.obj [("proxy-gpt-x", .num (lit "2.0"))], .null⟩ ∧
      getOwn ([("proxy-gpt-x", .num (lit "2.0"))] : Props Binary64) "__proto__" = none) := by
  refine ⟨⟨⟨⟨"CompletionRatio", "\x7b\x7d"⟩, by simp, rfl, rfl⟩, rfl, rfl⟩, rfl, rfl, rfl⟩

/-- C1 (amended): when the last CompletionRatio record of the options list
decodes to a JSON object and neither model name is `__proto__`, the
CompletionRatio table that both scans end with holds `outputPrice /
inputPrice` under the source model name and under the target model name, for
every pair of prices; when every PUT is accepted, updateModelPriceRate
returns this table and both files send it in the CompletionRatio PUT. -/
theorem completionRatio_table (ν : Type) [JSNumber ν] (gw : Gateway) (trace : List Request)
    (systemToken : String) (inputPrice outputPrice : ν) (sourceModel targetModel : String)
    (items : List (JSValue ν)) (pre post : List OptionRecord) (r : OptionRecord) (o : Props ν)
    (hserve : ServesOptions gw trace systemToken items)
    (hrecords : List.Forall₂ IsRecord items (pre ++ r :: post))
    (hkey : r.key = "CompletionRatio") (hdecode : JSON.parse r.value = .ok (.obj o))
    (hlast : ∀ x ∈ post, x.key ≠ "CompletionRatio")
    (hsource : sourceModel ≠ "__proto__") (htarget : targetModel ≠ "__proto__")
    (hput : AcceptsPuts gw) :
    ∃ (table : Props ν) (modelRatio : JSValue ν),
      getOwn table sourceModel = some (.num (JSNumber.div outputPrice inputPrice)) ∧
        getOwn table targetModel = some (.num (JSNumber.div outputPrice inputPrice)) ∧
        Node.scan inputPrice outputPrice sourceModel targetModel items ⟨.null, .null⟩
          = .ok ⟨.obj table, modelRatio⟩ ∧
        App.scan inputPrice outputPrice sourceModel targetModel items ⟨.null, .null⟩
          = .ok ⟨.obj table, modelRatio⟩ ∧
        (Node.updateModelPriceRate gw trace systemToken inputPrice outputPrice sourceModel
            targetModel).1 = .ok ⟨.obj table, modelRatio⟩ ∧
        Node.putRequest systemToken "CompletionRatio" (.obj table)
          ∈ (Node.updateModelPriceRate gw trace systemToken inputPrice outputPrice sourceModel
              targetModel).2 ∧
        App.putRequest systemToken "CompletionRatio" (.obj table)
          ∈ (App.updatePrice gw trace systemToken inputPrice outputPrice sourceModel
              targetModel).2 := by
  have hN := Node.scan_records inputPrice outputPrice sourceModel targetModel items _ hrecords
    ⟨.null, .null⟩
  have hA := App.browser_scan_records inputPrice outputPrice sourceModel targetModel items _ hrecords
    ⟨.null, .null⟩
  have hc := foldl_turn_completionRatio_last inputPrice outputPrice sourceModel targetModel
    pre post r o hkey hdecode hlast ⟨.null, .null⟩
  generalize hw : (pre ++ r :: post).foldl (turn inputPrice outputPrice sourceModel targetModel)
    ⟨.null, .null⟩ = w at hN hA hc
  obtain ⟨cr, mr⟩ := w
  simp only at hc
  subst hc
  refine ⟨_, mr, ?_, ?_, hN, hA, ?_, ?_, ?_⟩
  · rw [getOwn_ordinarySet _ _ _ _ htarget, getOwn_ordinarySet _ _ _ _ hsource]
    by_cases h : sourceModel = targetModel <;> simp [h]
  · rw [getOwn_ordinarySet _ _ _ _ htarget]; simp
  · rw [Node.updateModelPriceRate_accepted gw trace systemToken inputPrice outputPrice
      sourceModel targetModel items _ hserve hN hput]
  · rw [Node.updateModelPriceRate_accepted gw trace systemToken inputPrice outputPrice
      sourceModel targetModel items _ hserve hN hput]
    simp [toBoolean]
  · rw [App.updatePrice_accepted gw trace systemToken inputPrice outputPrice
      sourceModel targetModel items _ hserve hA hput]
    simp [toBoolean]

theorem completionRatio_table_witness :
    ∃ (table : Props Binary64) (modelRatio : JSValue Binary64),
      getOwn table "gpt-x" = some (.num (lit "2.0")) ∧
        getOwn table "proxy-gpt-x" = some (.num (lit "2.0")) ∧
        (Node.updateModelPriceRate (optionsGateway sampleOptions 200 "") [] "sys" (lit "1.0")
            (lit "2.0") "gpt-x" "proxy-gpt-x").1 = .ok ⟨.obj table, modelRatio⟩ := by
  obtain ⟨table, mr, h1, h2, -, -, h3, -, -⟩ :=
    completionRatio_table Binary64 (optionsGateway sampleOptions 200 "") [] "sys" (lit "1.0")
      (lit "2.0") "gpt-x" "proxy-gpt-x" (sampleRecords.map (fun r => r.toJS))
      [⟨"ModelRatio", "\x7b\"a\":1\x7d"⟩] [] ⟨"CompletionRatio", "\x7b\"a\":3\x7d"⟩
      [("a", .num (lit "3"))]
      (servesOptions_sample [] "sys" 200 "") (forall₂_isRecord_toJS sampleRecords) rfl rfl
      (by simp) (by decide) (by decide) (acceptsPuts_optionsGateway _ _ _ (by decide))
  have hdiv : (JSNumber.div (lit "2.0") (lit "1.0") : Binary64) = lit "2.0" := by decide
  rw [hdiv] at h1 h2
  exact ⟨table, mr, h1, h2, h3⟩

/-- C2 (counterexample): (a) the options list with the two ModelRatio records
`{}` and `5` contains a record that decodes to a JSON object, yet the table
both scans end with is the number 5, which holds no entry; (b) with the
target model name `__proto__` and the single record `{}` the table has an
entry for the source only. -/
theorem modelRatio_table_counterexample :
    ((∃ r ∈ ([⟨"ModelRatio", "\x7b\x7d"⟩, ⟨"ModelRatio", "5"⟩] : List OptionRecord),
        r.key = "ModelRatio" ∧
          (JSON.parse r.value : Except String (JSValue Binary64)) = .ok (.obj [])) ∧
      Node.scan (lit "1.0") (lit "2.0") "gpt-x" "proxy-gpt-x"
          (([⟨"ModelRatio", "\x7b\x7d"⟩, ⟨"ModelRatio", "5"⟩] :
            List OptionRecord).map (fun r => r.toJS)) ⟨.null, .null⟩
        = .ok ⟨.null, .num (lit "5")⟩ ∧
      App.scan (lit "1.0") (lit "2.0") "gpt-x" "proxy-gpt-x"
          (([⟨"ModelRatio", "\x7b\x7d"⟩, ⟨"ModelRatio", "5"⟩] :
            List OptionRecord).map (fun r => r.toJS)) ⟨.null, .null⟩
        = .ok ⟨.null, .num (lit "5")⟩) ∧
    (Node.scan (lit "1.0") (lit "2.0") "gpt-x" "__proto__"
          (([⟨"ModelRatio", "\x7b\x7d"⟩] : List OptionRecord).map (fun r => r.toJS))
          ⟨.null, .null⟩
        = .ok ⟨.null, .obj [("gpt-x", .num (lit "0.4"))]⟩ ∧
      App.scan (lit "1.0") (lit "2.0") "gpt-x" "__proto__"
          (([⟨"ModelRatio", "\x7b\x7d"⟩] : List OptionRecord).map (fun r => r.toJS))
          ⟨.null, .null⟩
        = .ok ⟨.null, .obj [("gpt-x", .num (lit "0.4"))]⟩ ∧
      getOwn ([("gpt-x", .num (lit "0.4"))] : Props Binary64) "__proto__" = none) := by
  refine ⟨⟨⟨⟨"ModelRatio", "\x7b\x7d"⟩, by simp, rfl, rfl⟩, rfl, rfl⟩, rfl, rfl, rfl⟩

/-- C2 (amended): when the last ModelRatio record of the options list decodes
to a JSON object and neither model name is `__proto__`, the ModelRatio table
that both scans end with holds `inputPrice / 2.5` under the source model name
and under the target model name, and it is the same table for every
outputPrice; when every PUT is accepted, updateModelPriceRate returns this
table and both files send it in the ModelRatio PUT. -/
theorem modelRatio_table (ν : Type) [JSNumber ν] (gw : Gateway) (trace : List Request)
    (systemToken : String) (inputPrice outputPrice : ν) (sourceModel targetModel : String)
    (items : List (JSValue ν)) (pre post : List OptionRecord) (r : OptionRecord) (o : Props ν)
    (hserve : ServesOptions gw trace systemToken items)
    (hrecords : List.Forall₂ IsRecord items (pre ++ r :: post))
    (hkey : r.key = "ModelRatio") (hdecode : JSON.parse r.value = .ok (.obj o))
    (hlast : ∀ x ∈ post, x.key ≠ "ModelRatio")
    (hsource : sourceModel ≠ "__proto__") (htarget : targetModel ≠ "__proto__")
    (hput : AcceptsPuts gw) :
    ∃ table : Props ν,
      getOwn table sourceModel
          = some (.num (JSNumber.div inputPrice (JSNumber.literal "2.5".data))) ∧
        getOwn table targetModel
          = some (.num (JSNumber.div inputPrice (JSNumber.literal "2.5".data))) ∧
        (∀ anyOutputPrice : ν, ∃ completionRatio : JSValue ν,
          Node.scan inputPrice anyOutputPrice sourceModel targetModel items ⟨.null, .null⟩
              = .ok ⟨completionRatio, .obj table⟩ ∧
            App.scan inputPrice anyOutputPrice sourceModel targetModel items ⟨.null, .null⟩
              = .ok ⟨completionRatio, .obj table⟩) ∧
        (∃ completionRatio : JSValue ν,
          (Node.updateModelPriceRate gw trace systemToken inputPrice outputPrice sourceModel
            targetModel).1 = .ok ⟨completionRatio, .obj table⟩) ∧
        Node.putRequest systemToken "ModelRatio" (.obj table)
          ∈ (Node.updateModelPriceRate gw trace systemToken inputPrice outputPrice sourceModel
              targetModel).2 ∧
        App.putRequest systemToken "ModelRatio" (.obj table)
          ∈ (App.updatePrice gw trace systemToken inputPrice outputPrice sourceModel
              targetModel).2 := by
  have hscans : ∀ anyOutputPrice : ν, ∃ completionRatio : JSValue ν,
      Node.scan inputPrice anyOutputPrice sourceModel targetModel items ⟨.null, .null⟩
          = .ok ⟨completionRatio, .obj (ordinarySet (ordinarySet o sourceModel
              (.num (JSNumber.div inputPrice (JSNumber.literal "2.5".data)))) targetModel
              (.num (JSNumber.div inputPrice (JSNumber.literal "2.5".data))))⟩ ∧
        App.scan inputPrice anyOutputPrice sourceModel targetModel items ⟨.null, .null⟩
          = .ok ⟨completionRatio, .obj (ordinarySet (ordinarySet o sourceModel
              (.num (JSNumber.div inputPrice (JSNumber.literal "2.5".data)))) targetModel
              (.num (JSNumber.div inputPrice (JSNumber.literal "2.5".data))))⟩ := by
    intro out
    have hN := Node.scan_records inputPrice out sourceModel targetModel items _ hrecords
      ⟨.null, .null⟩
    have hA := App.browser_scan_records inputPrice out sourceModel targetModel items _ hrecords
      ⟨.null, .null⟩
    have hc := foldl_turn_modelRatio_last inputPrice out sourceModel targetModel
      pre post r o hkey hdecode hlast ⟨.null, .null⟩
    generalize hw : (pre ++ r :: post).foldl (turn inputPrice out sourceModel targetModel)
      ⟨.null, .null⟩ = w at hN hA hc
    obtain ⟨cr, mr⟩ := w
    simp only at hc
    subst hc
    exact ⟨cr, hN, hA⟩
  obtain ⟨cr, hN, hA⟩ := hscans outputPrice
  refine ⟨_, ?_, ?_, hscans, ⟨cr, ?_⟩, ?_, ?_⟩
  · rw [getOwn_ordinarySet _ _ _ _ htarget, getOwn_ordinarySet _ _ _ _ hsource]
    by_cases h : sourceModel = targetModel <;> simp [h]
  · rw [getOwn_ordinarySet _ _ _ _ htarget]; simp
  · rw [Node.updateModelPriceRate_accepted gw trace systemToken inputPrice outputPrice
      sourceModel targetModel items _ hserve hN hput]
  · rw [Node.updateModelPriceRate_accepted gw trace systemToken inputPrice outputPrice
      sourceModel targetModel items _ hserve hN hput]
    simp [toBoolean]
  · rw [App.updatePrice_accepted gw trace systemToken inputPrice outputPrice
      sourceModel targetModel items _ hserve hA hput]
    simp [toBoolean]

theorem modelRatio_table_witness :
    ∃ table : Props Binary64,
      getOwn table "gpt-x" = some (.num (lit "0.4")) ∧
        getOwn table "proxy-gpt-x" = some (.num (lit "0.4")) ∧
        ∃ completionRatio : JSValue Binary64,
          (Node.updateModelPriceRate (optionsGateway sampleOptions 200 "") [] "sys" (lit "1.0")
            (lit "2.0") "gpt-x" "proxy-gpt-x").1 = .ok ⟨completionRatio, .obj table⟩ := by
  obtain ⟨table, h1, h2, -, h3, -, -⟩ :=
    modelRatio_table Binary64 (optionsGateway sampleOptions 200 "") [] "sys" (lit "1.0")
      (lit "2.0") "gpt-x" "proxy-gpt-x" (sampleRecords.map (fun r => r.toJS))
      [] [⟨"CompletionRatio", "\x7b\"a\":3\x7d"⟩] ⟨"ModelRatio", "\x7b\"a\":1\x7d"⟩
      [("a", .num (lit "1"))]
      (servesOptions_sample [] "sys" 200 "") (forall₂_isRecord_toJS sampleRecords) rfl rfl
      (by simp) (by decide) (by decide) (acceptsPuts_optionsGateway _ _ _ (by decide))
  have hdiv : (JSNumber.div (lit "1.0") (JSNumber.literal "2.5".data) : Binary64) = lit "0.4" := by
    decide
  rw [hdiv] at h1 h2
  exact ⟨table, h1, h2, h3⟩

/-! ## Theorems: absent and malformed records -/

theorem serialize_keyed_head {ν : Type} [JSNumber ν] (key : String) (v : JSValue ν) :
    ∃ rest, serialize (.obj [("key", .str key), ("value", v)] : JSValue ν)
      = some ("\x7b\"key\":".data ++ (quoteJSONString key ++ rest)) := by
  cases h : serialize v with
  | none =>
    exact ⟨[Char.ofNat 125], by
      simp only [serialize, serializeProps, h, joinComma, quoteJSONString]
      simp [quoteBody, quoteChar]⟩
  | some t =>
    exact ⟨',' :: (quoteJSONString "value" ++ ':' :: t) ++ [Char.ofNat 125], by
      simp only [serialize, serializeProps, h, joinComma, quoteJSONString]
      simp [quoteBody, quoteChar]⟩

theorem Node.putRequest_key_ne {ν : Type} [JSNumber ν] (tok1 tok2 : String)
    (t1 t2 : JSValue ν) :
    Node.putRequest tok1 "ModelRatio" t1 ≠ Node.putRequest tok2 "CompletionRatio" t2 := by
  intro h
  have hb := congrArg Request.body h
  simp only [Node.putRequest, JSON.stringify] at hb
  obtain ⟨r1, h1⟩ := serialize_keyed_head "ModelRatio"
    (JSValue.ofOption (JSON.stringify t1) : JSValue ν)
  obtain ⟨r2, h2⟩ := serialize_keyed_head "CompletionRatio"
    (JSValue.ofOption (JSON.stringify t2) : JSValue ν)
  simp only [JSON.stringify] at h1 h2
  rw [h1, h2] at hb
  simp only [Option.map_some', Option.some.injEq] at hb
  have hd := congrArg String.data hb
  simp [quoteJSONString, quoteBody, quoteChar] at hd

theorem servesOptions_completionOnly (trace : List Request) (tok : String) (status : Nat)
    (body : String) :
    ServesOptions (optionsGateway completionOnlyOptions status body) trace tok
      (completionOnlyRecords.map (fun r => (r.toJS : JSValue Binary64))) := by
  refine ⟨200, completionOnlyOptions,
    .obj [("data", .arr (completionOnlyRecords.map (fun r => (r.toJS : JSValue Binary64))) [])],
    [], ?_, by decide, ?_, ?_⟩
  · simp [optionsGateway, getRequest]
  · rfl
  · rfl

/-- C7 (counterexample): the options list with the single record
CompletionRatio `{}` has no ModelRatio record; when the gateway answers the
CompletionRatio PUT with status 500, updateModelPriceRate returns no result:
it throws. -/
theorem no_modelRatio_record_counterexample :
    (∀ r ∈ completionOnlyRecords, r.key ≠ "ModelRatio") ∧
      ServesOptions (optionsGateway completionOnlyOptions 500 "unavailable") [] "sys"
        (completionOnlyRecords.map (fun r => (r.toJS : JSValue Binary64))) ∧
      (Node.updateModelPriceRate (optionsGateway completionOnlyOptions 500 "unavailable") []
          "sys" (lit "1.0") (lit "2.0") "gpt-x" "proxy-gpt-x").1
        = .error ("Failed to update model prices: " ++
            "CompletionRatio update failed with status: 500 - unavailable") :=
  ⟨by decide, servesOptions_completionOnly [] "sys" 500 "unavailable", rfl⟩

/-- C7 (amended): when the options list has no record with key ModelRatio,
updateModelPriceRate makes, after the GET, at most one request, the PUT of
the CompletionRatio table, and never a PUT with key ModelRatio; every result
it returns has model_ratio null; and it does return, with model_ratio null,
when the CompletionRatio table is not pushed or its PUT is answered with a
success status. -/
theorem no_modelRatio_record (ν : Type) [JSNumber ν] (gw : Gateway) (trace : List Request)
    (systemToken : String) (inputPrice outputPrice : ν) (sourceModel targetModel : String)
    (items : List (JSValue ν)) (data : List OptionRecord)
    (hserve : ServesOptions gw trace systemToken items)
    (hrecords : List.Forall₂ IsRecord items data)
    (hnone : ∀ r ∈ data, r.key ≠ "ModelRatio") :
    ∃ completionRatio : JSValue ν,
      ((Node.updateModelPriceRate gw trace systemToken inputPrice outputPrice sourceModel
            targetModel).2 = trace ++ [getRequest systemToken] ∨
          (Node.updateModelPriceRate gw trace systemToken inputPrice outputPrice sourceModel
            targetModel).2 = trace ++ [getRequest systemToken,
              Node.putRequest systemToken "CompletionRatio" completionRatio]) ∧
        (∀ table : JSValue ν, Node.putRequest systemToken "ModelRatio" table
          ∉ [getRequest systemToken,
              Node.putRequest systemToken "CompletionRatio" completionRatio]) ∧
        (∀ result, (Node.updateModelPriceRate gw trace systemToken inputPrice outputPrice
            sourceModel targetModel).1 = .ok result → result.model_ratio = .null) ∧
        ((toBoolean completionRatio = false ∨
            ∃ status body, gw (trace ++ [getRequest systemToken])
                (Node.putRequest systemToken "CompletionRatio" completionRatio)
                = .response status body ∧ responseOk status = true) →
          (Node.updateModelPriceRate gw trace systemToken inputPrice outputPrice sourceModel
            targetModel).1 = .ok ⟨completionRatio, .null⟩) := by
  have hN := Node.scan_records inputPrice outputPrice sourceModel targetModel items _ hrecords
    ⟨.null, .null⟩
  have hm := foldl_turn_modelRatio_of_ne inputPrice outputPrice sourceModel targetModel data
    hnone ⟨.null, .null⟩
  generalize data.foldl (turn inputPrice outputPrice sourceModel targetModel)
    ⟨.null, .null⟩ = w at hN hm
  obtain ⟨cr, mr⟩ := w
  simp only at hm
  subst hm
  have hbody := Node.updateModelPriceRate_body_of_scan gw trace systemToken inputPrice
    outputPrice sourceModel targetModel items _ hserve hN
  have hfalsy : Node.pushTable gw (trace ++ [getRequest systemToken]) systemToken "ModelRatio"
      (.null : JSValue ν) = (.ok (), trace ++ [getRequest systemToken]) :=
    Node.pushTable_falsy _ _ _ _ _ rfl
  simp only [hfalsy] at hbody
  refine ⟨cr, ?_, ?_, ?_, ?_⟩
  · unfold Node.updateModelPriceRate
    rw [hbody]
    by_cases hb : toBoolean cr = true
    · right
      cases hgw : gw (trace ++ [getRequest systemToken])
          (Node.putRequest systemToken "CompletionRatio" cr) with
      | failure m => simp [Node.pushTable, hb, hgw]
      | response st b =>
        rw [Node.pushTable_response _ _ _ _ _ st b hb hgw]
        by_cases hok : responseOk st = true <;> simp [hok]
    · left
      have hb2 : toBoolean cr = false := by simpa using hb
      rw [Node.pushTable_falsy _ _ _ _ _ hb2]
  · intro table hmem
    simp only [List.mem_cons, List.mem_singleton, List.not_mem_nil, or_false] at hmem
    rcases hmem with h | h
    · have := congrArg Request.method h
      simp [Node.putRequest, getRequest] at this
    · exact Node.putRequest_key_ne _ _ _ _ h
  · intro result hres
    unfold Node.updateModelPriceRate at hres
    rw [hbody] at hres
    by_cases hb : toBoolean cr = true
    · cases hgw : gw (trace ++ [getRequest systemToken])
          (Node.putRequest systemToken "CompletionRatio" cr) with
      | failure m => simp [Node.pushTable, hb, hgw] at hres
      | response st b =>
        rw [Node.pushTable_response _ _ _ _ _ st b hb hgw] at hres
        by_cases hok : responseOk st = true
        · simp [hok] at hres
          rw [← hres]
        · simp [hok] at hres
    · have hb2 : toBoolean cr = false := by simpa using hb
      rw [Node.pushTable_falsy _ _ _ _ _ hb2] at hres
      simp at hres
      rw [← hres]
  · intro hsucc
    unfold Node.updateModelPriceRate
    rw [hbody]
    by_cases hb : toBoolean cr = true
    · rcases hsucc with h | ⟨st, b, hgw, hok⟩
      · rw [h] at hb; exact absurd hb (by simp)
      · rw [Node.pushTable_response _ _ _ _ _ st b hb hgw]
        simp [hok]
    · have hb2 : toBoolean cr = false := by simpa using hb
      rw [Node.pushTable_falsy _ _ _ _ _ hb2]

theorem no_modelRatio_record_witness :
    ∃ completionRatio : JSValue Binary64,
      (Node.updateModelPriceRate (optionsGateway completionOnlyOptions 200 "") [] "sys"
          (lit "1.0") (lit "2.0") "gpt-x" "proxy-gpt-x").2
        = [getRequest "sys", Node.putRequest "sys" "CompletionRatio" completionRatio] ∧
      (Node.updateModelPriceRate (optionsGateway completionOnlyOptions 200 "") [] "sys"
          (lit "1.0") (lit "2.0") "gpt-x" "proxy-gpt-x").1 = .ok ⟨completionRatio, .null⟩ := by
  obtain ⟨cr, h1, -, -, h4⟩ :=
    no_modelRatio_record Binary64 (optionsGateway completionOnlyOptions 200 "") [] "sys"
      (lit "1.0") (lit "2.0") "gpt-x" "proxy-gpt-x"
      (completionOnlyRecords.map (fun r => r.toJS)) completionOnlyRecords
      (servesOptions_completionOnly [] "sys" 200 "") (forall₂_isRecord_toJS _) (by decide)
  refine ⟨cr, ?_, h4 (Or.inr ⟨200, "", ?_, by decide⟩)⟩
  · rcases h1 with h | h
    · exact absurd h (by
        have e : (Node.updateModelPriceRate (optionsGateway completionOnlyOptions 200 "") []
          "sys" (lit "1.0") (lit "2.0") "gpt-x" "proxy-gpt-x").2.length = 2 := rfl
        intro h2
        rw [h2] at e
        simp at e)
    · simpa using h
  · simp [optionsGateway, Node.putRequest]

theorem foldl_turn_completionRatio_of_malformed {ν : Type} [JSNumber ν] (inp out : ν)
    (src tgt : String) (data : List OptionRecord)
    (h : ∀ x ∈ data, x.key = "CompletionRatio" →
      ∃ e, (JSON.parse x.value : Except String (JSValue ν)) = .error e) (w : Working ν) :
    (data.foldl (turn inp out src tgt) w).completionRatio = w.completionRatio := by
  induction data generalizing w with
  | nil => rfl
  | cons r rs ih =>
    rw [List.foldl_cons, ih (fun x hx => h x (List.mem_cons_of_mem _ hx))]
    by_cases hk : r.key = "CompletionRatio"
    · obtain ⟨e, he⟩ := h r (List.mem_cons_self _ _) hk
      simp [turn, hk, he]
    · exact turn_completionRatio_of_ne _ _ _ _ _ _ hk

theorem foldl_turn_modelRatio_of_malformed {ν : Type} [JSNumber ν] (inp out : ν)
    (src tgt : String) (data : List OptionRecord)
    (h : ∀ x ∈ data, x.key = "ModelRatio" →
      ∃ e, (JSON.parse x.value : Except String (JSValue ν)) = .error e) (w : Working ν) :
    (data.foldl (turn inp out src tgt) w).modelRatio = w.modelRatio := by
  induction data generalizing w with
  | nil => rfl
  | cons r rs ih =>
    rw [List.foldl_cons, ih (fun x hx => h x (List.mem_cons_of_mem _ hx))]
    by_cases hk : r.key = "ModelRatio"
    · obtain ⟨e, he⟩ := h r (List.mem_cons_self _ _) hk
      have hne : r.key ≠ "CompletionRatio" := by rw [hk]; decide
      simp [turn, hk, he]
    · exact turn_modelRatio_of_ne _ _ _ _ _ _ hk

theorem servesOptions_shadowed (trace : List Request) (tok : String) (status : Nat)
    (body : String) :
    ServesOptions (optionsGateway shadowedOptions status body) trace tok
      (shadowedRecords.map (fun r => (r.toJS : JSValue Binary64))) := by
  refine ⟨200, shadowedOptions,
    .obj [("data", .arr (shadowedRecords.map (fun r => (r.toJS : JSValue Binary64))) [])],
    [], ?_, by decide, ?_, ?_⟩
  · simp [optionsGateway, getRequest]
  · rfl
  · rfl

theorem servesOptions_malformed (trace : List Request) (tok : String) (status : Nat)
    (body : String) :
    ServesOptions (optionsGateway malformedOptions status body) trace tok
      (malformedRecords.map (fun r => (r.toJS : JSValue Binary64))) := by
  refine ⟨200, malformedOptions,
    .obj [("data", .arr (malformedRecords.map (fun r => (r.toJS : JSValue Binary64))) [])],
    [], ?_, by decide, ?_, ?_⟩
  · simp [optionsGateway, getRequest]
  · rfl
  · rfl

/-- C10 (counterexample): in the options list CompletionRatio `oops`,
ModelRatio `{}`, ModelRatio `0` the only CompletionRatio record is not valid
JSON and a ModelRatio record has a JSON-object value; every PUT would be
accepted, yet both files make no PUT at all, and the model_ratio returned is
the number 0 and no table. -/
theorem malformed_record_skipped_counterexample :
    (∀ x ∈ shadowedRecords, x.key = "CompletionRatio" →
        x = ⟨"CompletionRatio", "oops"⟩ ∧ escapesSurrogate x.value.data = false ∧
          ∃ e, (JSON.parse x.value : Except String (JSValue Binary64)) = .error e) ∧
      (∃ x ∈ shadowedRecords, x.key = "ModelRatio" ∧
        (JSON.parse x.value : Except String (JSValue Binary64)) = .ok (.obj [])) ∧
      ServesOptions (optionsGateway shadowedOptions 200 "") [] "sys"
        (shadowedRecords.map (fun r => (r.toJS : JSValue Binary64))) ∧
      AcceptsPuts (optionsGateway shadowedOptions 200 "") ∧
      Node.updateModelPriceRate (optionsGateway shadowedOptions 200 "") [] "sys" (lit "1.0")
          (lit "2.0") "gpt-x" "proxy-gpt-x"
        = (.ok ⟨.null, .num (lit "0")⟩, [getRequest "sys"]) ∧
      App.updatePrice (optionsGateway shadowedOptions 200 "") [] "sys" (lit "1.0")
          (lit "2.0") "gpt-x" "proxy-gpt-x"
        = (.ok (), [getRequest "sys"]) := by
  refine ⟨?_, ⟨⟨"ModelRatio", "\x7b\x7d"⟩, by simp [shadowedRecords], rfl, rfl⟩,
    servesOptions_shadowed [] "sys" 200 "", acceptsPuts_optionsGateway _ _ _ (by decide),
    rfl, rfl⟩
  intro x hx hk
  simp only [shadowedRecords, List.mem_cons, List.mem_singleton, List.not_mem_nil,
    or_false] at hx
  rcases hx with rfl | rfl | rfl
  · exact ⟨rfl, by decide, _, rfl⟩
  · exact absurd hk (by decide)
  · exact absurd hk (by decide)

/-- C10 (amended): when the value of every CompletionRatio record of the
options list is not valid JSON (the parser refuses it, and it holds no escape
of a surrogate), the last ModelRatio record decodes to a JSON object and the
PUT is accepted, the decode error does not make the update fail:
updateModelPriceRate returns completion_ratio null and the ModelRatio table
with both model entries set, and both files make exactly one PUT after the
GET, the one for ModelRatio; and the same with the two keys exchanged. -/
theorem malformed_record_skipped (ν : Type) [JSNumber ν] (gw : Gateway) (trace : List Request)
    (systemToken : String) (inputPrice outputPrice : ν) (sourceModel targetModel : String)
    (items : List (JSValue ν)) (pre post : List OptionRecord) (good : OptionRecord)
    (o : Props ν)
    (hserve : ServesOptions gw trace systemToken items)
    (hrecords : List.Forall₂ IsRecord items (pre ++ good :: post))
    (hdecode : JSON.parse good.value = .ok (.obj o))
    (hput : AcceptsPuts gw) :
    (good.key = "ModelRatio" → (∀ x ∈ post, x.key ≠ "ModelRatio") →
      (∀ x ∈ pre ++ good :: post, x.key = "CompletionRatio" →
        escapesSurrogate x.value.data = false ∧
          ∃ e, (JSON.parse x.value : Except String (JSValue ν)) = .error e) →
      Node.updateModelPriceRate gw trace systemToken inputPrice outputPrice sourceModel
          targetModel
        = (.ok ⟨.null, .obj (ordinarySet (ordinarySet o sourceModel
              (.num (JSNumber.div inputPrice (JSNumber.literal "2.5".data)))) targetModel
              (.num (JSNumber.div inputPrice (JSNumber.literal "2.5".data))))⟩,
            trace ++ [getRequest systemToken,
              Node.putRequest systemToken "ModelRatio"
                (.obj (ordinarySet (ordinarySet o sourceModel
                  (.num (JSNumber.div inputPrice (JSNumber.literal "2.5".data)))) targetModel
                  (.num (JSNumber.div inputPrice (JSNumber.literal "2.5".data)))))]) ∧
        App.updatePrice gw trace systemToken inputPrice outputPrice sourceModel targetModel
          = (.ok (), trace ++ [getRequest systemToken,
              App.putRequest systemToken "ModelRatio"
                (.obj (ordinarySet (ordinarySet o sourceModel
                  (.num (JSNumber.div inputPrice (JSNumber.literal "2.5".data)))) targetModel
                  (.num (JSNumber.div inputPrice (JSNumber.literal "2.5".data)))))])) ∧
    (good.key = "CompletionRatio" → (∀ x ∈ post, x.key ≠ "CompletionRatio") →
      (∀ x ∈ pre ++ good :: post, x.key = "ModelRatio" →
        escapesSurrogate x.value.data = false ∧
          ∃ e, (JSON.parse x.value : Except String (JSValue ν)) = .error e) →
      Node.updateModelPriceRate gw trace systemToken inputPrice outputPrice sourceModel
          targetModel
        = (.ok ⟨.obj (ordinarySet (ordinarySet o sourceModel
              (.num (JSNumber.div outputPrice inputPrice))) targetModel
              (.num (JSNumber.div outputPrice inputPrice))), .null⟩,
            trace ++ [getRequest systemToken,
              Node.putRequest systemToken "CompletionRatio"
                (.obj (ordinarySet (ordinarySet o sourceModel
                  (.num (JSNumber.div outputPrice inputPrice))) targetModel
                  (.num (JSNumber.div outputPrice inputPrice))))]) ∧
        App.updatePrice gw trace systemToken inputPrice outputPrice sourceModel targetModel
          = (.ok (), trace ++ [getRequest systemToken,
              App.putRequest systemToken "CompletionRatio"
                (.obj (ordinarySet (ordinarySet o sourceModel
                  (.num (JSNumber.div outputPrice inputPrice))) targetModel
                  (.num (JSNumber.div outputPrice inputPrice))))])) := by
  have hN := Node.scan_records inputPrice outputPrice sourceModel targetModel items _ hrecords
    ⟨.null, .null⟩
  have hA := App.browser_scan_records inputPrice outputPrice sourceModel targetModel items _ hrecords
    ⟨.null, .null⟩
  constructor
  · intro hkey hlast hbad
    have hm := foldl_turn_modelRatio_last inputPrice outputPrice sourceModel targetModel
      pre post good o hkey hdecode hlast ⟨.null, .null⟩
    have hc := foldl_turn_completionRatio_of_malformed inputPrice outputPrice sourceModel
      targetModel _ (fun x hx hk => (hbad x hx hk).2) ⟨.null, .null⟩
    generalize (pre ++ good :: post).foldl (turn inputPrice outputPrice sourceModel
      targetModel) ⟨.null, .null⟩ = w at hN hA hm hc
    obtain ⟨cr, mr⟩ := w
    simp only at hm hc
    subst hm hc
    constructor
    · rw [Node.updateModelPriceRate_accepted gw trace systemToken inputPrice outputPrice
        sourceModel targetModel items _ hserve hN hput]
      simp [toBoolean]
    · rw [App.updatePrice_accepted gw trace systemToken inputPrice outputPrice
        sourceModel targetModel items _ hserve hA hput]
      simp [toBoolean]
  · intro hkey hlast hbad
    have hc := foldl_turn_completionRatio_last inputPrice outputPrice sourceModel targetModel
      pre post good o hkey hdecode hlast ⟨.null, .null⟩
    have hm := foldl_turn_modelRatio_of_malformed inputPrice outputPrice sourceModel
      targetModel _ (fun x hx hk => (hbad x hx hk).2) ⟨.null, .null⟩
    generalize (pre ++ good :: post).foldl (turn inputPrice outputPrice sourceModel
      targetModel) ⟨.null, .null⟩ = w at hN hA hm hc
    obtain ⟨cr, mr⟩ := w
    simp only at hm hc
    subst hm hc
    constructor
    · rw [Node.updateModelPriceRate_accepted gw trace systemToken inputPrice outputPrice
        sourceModel targetModel items _ hserve hN hput]
      simp [toBoolean]
    · rw [App.updatePrice_accepted gw trace systemToken inputPrice outputPrice
        sourceModel targetModel items _ hserve hA hput]
      simp [toBoolean]

theorem malformed_record_skipped_witness :
    Node.updateModelPriceRate (optionsGateway malformedOptions 200 "") [] "sys" (lit "1.0")
        (lit "2.0") "gpt-x" "proxy-gpt-x"
      = (.ok ⟨.null, .obj [("a", .num (lit "1")), ("gpt-x", .num (lit "0.4")),
            ("proxy-gpt-x", .num (lit "0.4"))]⟩,
          [getRequest "sys",
            Node.putRequest "sys" "ModelRatio"
              (.obj [("a", .num (lit "1")), ("gpt-x", .num (lit "0.4")),
                ("proxy-gpt-x", .num (lit "0.4"))] : JSValue Binary64)]) := by
  have h := (malformed_record_skipped Binary64 (optionsGateway malformedOptions 200 "") []
    "sys" (lit "1.0") (lit "2.0") "gpt-x" "proxy-gpt-x"
    (malformedRecords.map (fun r => r.toJS)) [⟨"CompletionRatio", "oops"⟩] []
    ⟨"ModelRatio", "\x7b\"a\":1\x7d"⟩ [("a", .num (lit "1"))]
    (servesOptions_malformed [] "sys" 200 "") (forall₂_isRecord_toJS malformedRecords) rfl
    (acceptsPuts_optionsGateway _ _ _ (by decide))).1 rfl (by simp) (by
      intro x hx hk
      simp only [List.cons_append, List.nil_append, List.mem_cons, List.mem_singleton,
        List.not_mem_nil, or_false] at hx
      rcases hx with rfl | rfl
      · exact ⟨by decide, _, rfl⟩
      · exact absurd hk (by decide))
  rw [h.1]
  rfl

/-! ## Theorems: the message of a refused PUT -/

/-- In add_channel.js the message of a refused PUT names the key and holds
the decimal status and the body text. -/
theorem Node.pushTable_refused_message {ν : Type} [JSNumber ν] (gw : Gateway)
    (trace : List Request) (tok key : String) (table : JSValue ν) (status : Nat)
    (body : String) (htable : toBoolean table = true) (hstatus : responseOk status = false)
    (hgw : gw trace (Node.putRequest tok key table) = .response status body) :
    ∃ msg : String, (Node.pushTable gw trace tok key table).1 = .error msg ∧
      key.data <:+: msg.data ∧ (natToString status).data <:+: msg.data ∧
      body.data <:+: msg.data := by
  refine ⟨key ++ " update failed with status: " ++ natToString status ++ " - " ++ body,
    ?_, ?_, ?_, ?_⟩
  · rw [Node.pushTable_response gw trace tok key table status body htable hgw]
    simp [hstatus]
  · simp only [String.data_append]
    exact ⟨[], " update failed with status: ".data ++ (natToString status).data ++ " - ".data
      ++ body.data, by simp⟩
  · simp only [String.data_append]
    exact ⟨key.data ++ " update failed with status: ".data, " - ".data ++ body.data, by simp⟩
  · simp only [String.data_append]
    exact ⟨key.data ++ " update failed with status: ".data ++ (natToString status).data
      ++ " - ".data, [], by simp⟩

/-- C9 (failing input): in app.js, when the ModelRatio PUT is answered with
status 500 and the body `boom`, updateOption and updatePrice fail with the
message `Update ModelRatio Failed: boom`, which does not contain `500`, and a
status 404 gives the very same message; updateModelPriceRate of
add_channel.js carries the status on the same input. -/
theorem updateOption_message_without_status :
    (App.updateOption (optionsGateway sampleOptions 500 "boom") [] "sys" "ModelRatio"
        (.obj [] : JSValue Binary64)).1 = .error "Update ModelRatio Failed: boom" ∧
      (App.updatePrice (optionsGateway sampleOptions 500 "boom") [] "sys" (lit "1.0")
        (lit "2.0") "gpt-x" "proxy-gpt-x").1 = .error "Update ModelRatio Failed: boom" ∧
      ¬ ("500".data <:+: "Update ModelRatio Failed: boom".data) ∧
      (App.updatePrice (optionsGateway sampleOptions 404 "boom") [] "sys" (lit "1.0")
        (lit "2.0") "gpt-x" "proxy-gpt-x").1 = .error "Update ModelRatio Failed: boom" ∧
      (Node.updateModelPriceRate (optionsGateway sampleOptions 500 "boom") [] "sys" (lit "1.0")
        (lit "2.0") "gpt-x" "proxy-gpt-x").1
        = .error ("Failed to update model prices: " ++
            "ModelRatio update failed with status: 500 - boom") := by
  refine ⟨rfl, rfl, by decide, rfl, rfl⟩

/-! ## Lemmas: escapes of surrogates -/

theorem hexValue_lt (c : Char) (n : Nat) (h : hexValue? c = some n) : n < 16 := by
  unfold hexValue? at h
  split at h
  · rename_i hc
    have h2 : c.toNat ≤ 57 := hc.2
    simp only [Option.some.injEq] at h
    omega
  · split at h
    · rename_i hc
      have h2 : c.toNat ≤ 102 := hc.2
      simp only [Option.some.injEq] at h
      omega
    · split at h
      · rename_i hc
        have h2 : c.toNat ≤ 70 := hc.2
        simp only [Option.some.injEq] at h
        omega
      · exact Option.noConfusion h

/-- On a text that does not start the escape of a surrogate, a unicode escape
is refused only when its four hexadecimal digits are missing. -/
theorem unicodeEscape_of_no_surrogate (s : List Char)
    (h : escapesSurrogate ('\\' :: 'u' :: s) = false) :
    unicodeEscape? s = (hex4? s).map (fun r => (Char.ofNat r.1, r.2)) := by
  unfold unicodeEscape?
  cases hh : hex4? s with
  | none => rfl
  | some r =>
    obtain ⟨u, rest⟩ := r
    simp only [Option.map_some']
    have hu : u < 0xD800 ∨ 0xDFFF < u := by
      match s, hh with
      | a :: b :: c :: d :: rest1, hh =>
        simp only [hex4?] at hh
        cases ha : hexValue? a with
        | none => simp [ha] at hh
        | some x =>
          cases hb : hexValue? b with
          | none => simp [ha, hb] at hh
          | some y =>
            cases hc : hexValue? c with
            | none => simp [ha, hb, hc] at hh
            | some z =>
              cases hd : hexValue? d with
              | none => simp [ha, hb, hc, hd] at hh
              | some w =>
                simp only [ha, hb, hc, hd, Option.some.injEq, Prod.mk.injEq] at hh
                have hx := hexValue_lt a x ha
                have hy := hexValue_lt b y hb
                have hz := hexValue_lt c z hc
                have hw := hexValue_lt d w hd
                have hns : ¬ (x = 13 ∧ 8 ≤ y) := by
                  intro hxy
                  have : escapesSurrogate ('\\' :: 'u' :: a :: b :: c :: d :: rest1) = true := by
                    simp [escapesSurrogate, List.tails, ha, hb, hxy.1, hxy.2]
                  rw [this] at h
                  exact Bool.noConfusion h
                omega
    rw [if_pos hu]

/-! ## Lemmas: the text of a string read back -/

theorem hexValue_hexDigit (n : Nat) (h : n < 16) : hexValue? (hexDigit n) = some n := by
  interval_cases n <;> decide

theorem char_eq_ofNat_of_toNat_lt (c : Char) (h : c.toNat < 32) :
    ∃ n, n < 32 ∧ c = Char.ofNat n := ⟨c.toNat, h, by simp⟩

/-- Reading the escaped text of one character gives the character back. -/
theorem parseStringBody_quoteChar (fuel : Nat) (c : Char) (tail : List Char) :
    parseStringBody (fuel + 1) (quoteChar c ++ tail)
      = (parseStringBody fuel tail).map (fun r => (c :: r.1, r.2)) := by
  by_cases hlow : c.toNat < 32
  · obtain ⟨n, hn, rfl⟩ := char_eq_ofNat_of_toNat_lt c hlow
    interval_cases n <;>
      simp [quoteChar, parseStringBody, escapeValue?, unicodeEscape?, hex4?, hexValue?,
        hexDigit]
  · by_cases hq : c = '"'
    · subst hq
      simp [quoteChar, parseStringBody, escapeValue?]
    · by_cases hb : c = '\\'
      · subst hb
        simp [quoteChar, parseStringBody, escapeValue?]
      · have h8 : c ≠ Char.ofNat 8 := by rintro rfl; exact hlow (by decide)
        have h12 : c ≠ Char.ofNat 12 := by rintro rfl; exact hlow (by decide)
        have hn : c ≠ '\n' := by rintro rfl; exact hlow (by decide)
        have hr : c ≠ '\r' := by rintro rfl; exact hlow (by decide)
        have ht : c ≠ '\t' := by rintro rfl; exact hlow (by decide)
        simp [quoteChar, parseStringBody, hq, hb, h8, h12, hn, hr, ht, hlow]

/-- Reading the escaped text of a string up to the closing quote gives the
string back, with any fuel above its length. -/
theorem parseStringBody_quoteBody (s : List Char) (rest : List Char) (fuel : Nat)
    (hfuel : s.length < fuel) :
    parseStringBody fuel (quoteBody s ++ '"' :: rest) = some (s, rest) := by
  induction s generalizing fuel with
  | nil =>
    obtain ⟨f, rfl⟩ : ∃ f, fuel = f + 1 := ⟨fuel - 1, by simp at hfuel; omega⟩
    simp [quoteBody, parseStringBody]
  | cons c cs ih =>
    obtain ⟨f, rfl⟩ : ∃ f, fuel = f + 1 := ⟨fuel - 1, by simp at hfuel; omega⟩
    have hf : cs.length < f := by simp at hfuel; omega
    rw [quoteBody, List.append_assoc, parseStringBody_quoteChar, ih f hf]
    rfl

theorem length_le_quoteBody (s : List Char) : s.length ≤ (quoteBody s).length := by
  induction s with
  | nil => simp [quoteBody]
  | cons c cs ih =>
    have hc : 1 ≤ (quoteChar c).length := by
      unfold quoteChar
      repeat' split
      all_goals simp
    simp only [quoteBody, List.length_cons, List.length_append]
    omega

/-- A quoted string is read back as the string. -/
theorem parseString_quote (s : String) (rest : List Char) :
    parseString (quoteBody s.data ++ '"' :: rest) = some (s, rest) := by
  unfold parseString
  rw [parseStringBody_quoteBody]
  · rfl
  · have := length_le_quoteBody s.data
    simp only [List.length_append, List.length_cons]
    omega

/-! ## Theorems: the model mapping -/

theorem skipWs_cons {c : Char} (s : List Char) (h : isJsonWs c = false) :
    skipWs (c :: s) = c :: s := by
  simp [skipWs, List.dropWhile, h]

theorem skipWs_nil : skipWs [] = [] := rfl

/-- A quoted string, read as a value, is the string. -/
theorem parseValue_string {ν : Type} [JSNumber ν] (fuel : Nat) (s : String)
    (rest : List Char) :
    parseValue (fuel + 1) (quoteJSONString s ++ rest)
      = some ((.str s : JSValue ν), rest) := by
  have hws : isJsonWs '"' = false := by decide
  simp only [quoteJSONString, List.cons_append, List.append_assoc, List.singleton_append,
    parseValue, skipWs_cons _ hws, parseString_quote]
  simp

/-- The text of the object with the single member `k: v`, `v` a string, is
read back as that object. -/
theorem parse_single_member {ν : Type} [JSNumber ν] (k v : String) :
    ∃ text : String, JSON.stringify (.obj [(k, .str v)] : JSValue ν) = some text ∧
      (JSON.parse text : Except String (JSValue ν)) = .ok (.obj [(k, .str v)]) := by
  have hq : isJsonWs '"' = false := by decide
  have hc : isJsonWs ':' = false := by decide
  have hb : isJsonWs (Char.ofNat 123) = false := by decide
  have he : isJsonWs (Char.ofNat 125) = false := by decide
  have hdef : defineOwn ([] : Props ν) k (.str v) = [(k, .str v)] := by
    unfold defineOwn
    simp only [hasOwn, List.any_nil, Bool.false_eq_true, if_false, List.nil_append]
    split <;> rfl
  refine ⟨_, rfl, ?_⟩
  simp only [serialize, serializeProps, joinComma, JSON.parse]
  generalize hlen : (Char.ofNat 123 :: ((quoteJSONString k ++ ':' :: quoteJSONString v) ++
    [Char.ofNat 125])).length = n
  obtain ⟨m, rfl⟩ : ∃ m, n = m + 2 := ⟨n - 2, by
    simp [quoteJSONString] at hlen; omega⟩
  have key : parseValue (m + 2 + 1) (Char.ofNat 123 :: ((quoteJSONString k ++
      ':' :: quoteJSONString v) ++ [Char.ofNat 125]))
      = some ((.obj [(k, .str v)] : JSValue ν), []) := by
    rw [parseValue, skipWs_cons _ hb]
    simp only [if_true, quoteJSONString, List.cons_append, List.append_assoc,
      List.singleton_append, skipWs_cons _ hq]
    have hne : ('"' = Char.ofNat 125) = False := by decide
    simp only [hne, if_false]
    rw [parseMembers, skipWs_cons _ hq]
    simp only [if_true, parseString_quote, List.nil_append, skipWs_cons _ hc]
    have hv := parseValue_string (ν := ν) m v [Char.ofNat 125]
    simp only [quoteJSONString, List.cons_append, List.append_assoc,
      List.singleton_append, List.nil_append] at hv
    rw [hv]
    simp only [skipWs_cons _ he]
    have hne2 : (Char.ofNat 125 = ',') = False := by decide
    simp only [hne2, if_false, if_true, hdef]
  simp only [key, skipWs_nil, if_true]

/-- For a target model name other than `__proto__` the `model_mapping` of the
channel body, in both files, is a JSON text that decodes to the object whose
only key is the target model name, with the source model name as value. -/
theorem model_mapping_of_ne_proto (ν : Type) [JSNumber ν]
    (baseUrl token sourceModel targetModel : String) (h : targetModel ≠ "__proto__") :
    ∃ text : String,
      getNamed (Node.channelBody baseUrl token sourceModel targetModel : JSValue ν)
          "model_mapping" = .ok (.str text) ∧
        getNamed (App.channelBody baseUrl token sourceModel targetModel : JSValue ν)
          "model_mapping" = .ok (.str text) ∧
        (JSON.parse text : Except String (JSValue ν))
          = .ok (.obj [(targetModel, .str sourceModel)]) := by
  have hset : ordinarySet ([] : Props ν) targetModel (.str sourceModel)
      = [(targetModel, .str sourceModel)] := by
    rw [ordinarySet_of_ne_proto _ _ _ h]
    unfold defineOwn
    simp only [hasOwn, List.any_nil, Bool.false_eq_true, if_false, List.nil_append]
    split <;> rfl
  obtain ⟨text, hs, hp⟩ := parse_single_member (ν := ν) targetModel sourceModel
  refine ⟨text, ?_, ?_, hp⟩
  · simp [Node.channelBody, getNamed, getOwn, hset, hs, JSValue.ofOption]
  · simp [App.channelBody, getNamed, getOwn, hset, hs, JSValue.ofOption]

/-- C4 (failing input): with the target model name `__proto__` the assignment
`modelMapping[target] = source` creates no property, so the `model_mapping`
of the channel body is the text `{}`, in both files, and decodes to the object
without any key. -/
theorem model_mapping_proto_target :
    getNamed (Node.channelBody "https://foo.example.com/v1" "sk-source" "gpt-x" "__proto__" :
        JSValue Binary64) "model_mapping" = .ok (.str "\x7b\x7d") ∧
      getNamed (App.channelBody "https://foo.example.com/v1" "sk-source" "gpt-x" "__proto__" :
        JSValue Binary64) "model_mapping" = .ok (.str "\x7b\x7d") ∧
      (JSON.parse "\x7b\x7d" : Except String (JSValue Binary64)) = .ok (.obj []) ∧
      ownKeys ([] : Props Binary64) = [] :=
  ⟨rfl, rfl, rfl, rfl⟩

/-! ## Lemmas: the text of a number read back -/

theorem takeWhile_isDigit_append (a rest : List Char)
    (h : ∀ c, rest.head? = some c → c.isDigit = false) :
    (a ++ rest).takeWhile Char.isDigit = a.takeWhile Char.isDigit := by
  induction a with
  | nil =>
    cases rest with
    | nil => rfl
    | cons c r => simp [List.takeWhile, h c rfl]
  | cons x xs ih =>
    simp only [List.cons_append, List.takeWhile_cons, ih]

theorem dropWhile_isDigit_append (a rest : List Char)
    (h : ∀ c, rest.head? = some c → c.isDigit = false) :
    (a ++ rest).dropWhile Char.isDigit = a.dropWhile Char.isDigit ++ rest := by
  induction a with
  | nil =>
    cases rest with
    | nil => rfl
    | cons c r => simp [List.dropWhile, h c rfl]
  | cons x xs ih =>
    simp only [List.cons_append, List.dropWhile_cons, ih]
    split <;> rfl

theorem EndsNumber.digit {rest : List Char} (h : EndsNumber rest) :
    ∀ c, rest.head? = some c → c.isDigit = false := fun c hc => (h c hc).1

theorem lexSign_append (a rest : List Char) (h : EndsNumber rest) :
    lexSign (a ++ rest) = ((lexSign a).1, (lexSign a).2 ++ rest) := by
  cases a with
  | nil =>
    cases rest with
    | nil => rfl
    | cons c r =>
      have := (h c rfl).2.2.2.2.2
      simp [lexSign, this]
  | cons x xs =>
    simp only [List.cons_append, lexSign]
    split <;> rfl

theorem lexInt_append (a rest : List Char) (h : EndsNumber rest) :
    lexInt (a ++ rest) = (lexInt a).map (fun r => (r.1, r.2 ++ rest)) := by
  cases a with
  | nil =>
    cases rest with
    | nil => rfl
    | cons c r =>
      have hd := (h c rfl).1
      have h0 : c ≠ '0' := by rintro rfl; simp at hd
      simp [lexInt, hd, h0]
  | cons x xs =>
    simp only [List.cons_append, lexInt]
    split
    · rfl
    · split
      · simp [takeWhile_isDigit_append _ _ h.digit, dropWhile_isDigit_append _ _ h.digit]
      · rfl

theorem lexFrac_append (a rest : List Char) (h : EndsNumber rest) :
    lexFrac (a ++ rest) = (lexFrac a).map (fun r => (r.1, r.2 ++ rest)) := by
  cases a with
  | nil =>
    cases rest with
    | nil => rfl
    | cons c r =>
      have := (h c rfl).2.1
      simp [lexFrac, this]
  | cons x xs =>
    simp only [List.cons_append, lexFrac, takeWhile_isDigit_append _ _ h.digit,
      dropWhile_isDigit_append _ _ h.digit]
    split
    · split <;> rfl
    · rfl

theorem lexExpSign_append (a rest : List Char) (h : EndsNumber rest) :
    lexExpSign (a ++ rest) = ((lexExpSign a).1, (lexExpSign a).2 ++ rest) := by
  cases a with
  | nil =>
    cases rest with
    | nil => rfl
    | cons c r =>
      have h1 := (h c rfl).2.2.2.2.1
      have h2 := (h c rfl).2.2.2.2.2
      simp [lexExpSign, h1, h2]
  | cons x xs =>
    simp only [List.cons_append, lexExpSign]
    split <;> rfl

theorem lexExp_append (a rest : List Char) (h : EndsNumber rest) :
    lexExp (a ++ rest) = (lexExp a).map (fun r => (r.1, r.2 ++ rest)) := by
  cases a with
  | nil =>
    cases rest with
    | nil => rfl
    | cons c r =>
      have h1 := (h c rfl).2.2.1
      have h2 := (h c rfl).2.2.2.1
      simp [lexExp, h1, h2]
  | cons x xs =>
    simp only [List.cons_append, lexExp, lexExpSign_append _ _ h,
      takeWhile_isDigit_append _ _ h.digit, dropWhile_isDigit_append _ _ h.digit]
    split
    · split <;> rfl
    · rfl

/-- Lexing a number is not affected by a following text that cannot continue
a number. -/
theorem lexNumber_append (a rest : List Char) (h : EndsNumber rest) :
    lexNumber (a ++ rest) = (lexNumber a).map (fun r => (r.1, r.2 ++ rest)) := by
  unfold lexNumber
  rw [lexSign_append _ _ h]
  simp only [lexInt_append _ _ h]
  cases lexInt (lexSign a).2 with
  | none => rfl
  | some p =>
    obtain ⟨ds, s2⟩ := p
    simp only [Option.map_some', lexFrac_append _ _ h]
    cases lexFrac s2 with
    | none => rfl
    | some q =>
      obtain ⟨fs, s3⟩ := q
      simp only [Option.map_some', lexExp_append _ _ h]
      cases lexExp s3 with
      | none => rfl
      | some e => rfl

theorem endsNumber_delimiter (c : Char) (rest : List Char)
    (h : c = ',' ∨ c = Char.ofNat 125) : EndsNumber (c :: rest) := by
  intro d hd
  simp only [List.head?_cons, Option.some.injEq] at hd
  subst hd
  rcases h with rfl | rfl <;> decide

/-! ## Lemmas: the text of a flat object read back -/

theorem readsBack_str {ν : Type} [JSNumber ν] (s : String) :
    ReadsBack (.str s : JSValue ν) (.str s) :=
  ⟨quoteJSONString s, rfl, fun fuel c rest _ => parseValue_string fuel s (c :: rest)⟩

theorem lexNumber_head {t tok r : List Char} (h : lexNumber t = some (tok, r)) :
    ∃ c tl, t = c :: tl ∧ (c = '-' ∨ c.isDigit = true) := by
  cases t with
  | nil => simp [lexNumber, lexSign, lexInt] at h
  | cons c tl =>
    refine ⟨c, tl, rfl, ?_⟩
    by_cases hc : c = '-'
    · exact Or.inl hc
    · right
      by_cases hd : c.isDigit = true
      · exact hd
      · have h0 : c ≠ '0' := by rintro rfl; exact hd (by decide)
        simp [lexNumber, lexSign, lexInt, hc, hd, h0] at h

theorem parseValue_number {ν : Type} [JSNumber ν] (fuel : Nat) (t rest : List Char)
    (hlex : lexNumber t = some (t, [])) (hrest : EndsNumber rest) :
    parseValue (fuel + 1) (t ++ rest)
      = some ((.num (JSNumber.literal t) : JSValue ν), rest) := by
  obtain ⟨c, tl, rfl, hc⟩ := lexNumber_head hlex
  have hlex2 := lexNumber_append (c :: tl) rest hrest
  rw [hlex] at hlex2
  simp only [Option.map_some', List.nil_append, List.cons_append] at hlex2
  have hws : isJsonWs c = false := by
    rcases hc with rfl | hd
    · decide
    · cases hw : isJsonWs c with
      | false => rfl
      | true =>
        simp only [isJsonWs, Bool.or_eq_true, decide_eq_true_eq] at hw
        rcases hw with ((rfl | rfl) | rfl) | rfl <;> simp at hd
  have h1 : c ≠ Char.ofNat 123 := by
    rcases hc with rfl | hd
    · decide
    · rintro rfl; simp at hd
  have h2 : c ≠ '[' := by
    rcases hc with rfl | hd
    · decide
    · rintro rfl; simp at hd
  have h3 : c ≠ '"' := by
    rcases hc with rfl | hd
    · decide
    · rintro rfl; simp at hd
  have h4 : c ≠ 't' := by
    rcases hc with rfl | hd
    · decide
    · rintro rfl; simp at hd
  have h5 : c ≠ 'f' := by
    rcases hc with rfl | hd
    · decide
    · rintro rfl; simp at hd
  have h6 : c ≠ 'n' := by
    rcases hc with rfl | hd
    · decide
    · rintro rfl; simp at hd
  rw [List.cons_append, parseValue, skipWs_cons _ hws]
  simp only [h1, h2, h3, h4, h5, h6, if_false, hlex2, Option.map_some']

theorem parseValue_null {ν : Type} [JSNumber ν] (fuel : Nat) (rest : List Char) :
    parseValue (fuel + 1) ("null".data ++ rest) = some ((.null : JSValue ν), rest) := by
  have hws : isJsonWs 'n' = false := by decide
  have e : "null".data ++ rest = 'n' :: ("ull".data ++ rest) := rfl
  rw [e, parseValue, skipWs_cons _ hws]
  have h1 : ('n' = Char.ofNat 123) = False := by decide
  have h2 : ('n' = '[') = False := by decide
  have h3 : ('n' = '"') = False := by decide
  have h4 : ('n' = 't') = False := by decide
  have h5 : ('n' = 'f') = False := by decide
  simp only [h1, h2, h3, h4, h5, if_false, if_true]
  simp [List.isPrefixOf]

theorem readsBack_num {ν : Type} [JSNumber ν] (x : ν) (h : NumberEncodes x) :
    ReadsBack (.num x : JSValue ν) (rereadNumber x) := by
  by_cases hf : JSNumber.isFinite x = true
  · have hlex : lexNumber (JSNumber.toString x) = some (JSNumber.toString x, []) := by
      rcases h with h | h
      · rw [h] at hf; exact absurd hf (by simp)
      · exact h
    refine ⟨JSNumber.toString x, by simp [serialize, hf], fun fuel c rest hc => ?_⟩
    rw [parseValue_number fuel _ _ hlex (endsNumber_delimiter c rest hc)]
    simp [rereadNumber, hf]
  · have hf2 : JSNumber.isFinite x = false := by simpa using hf
    refine ⟨"null".data, by simp [serialize, hf2], fun fuel c rest _ => ?_⟩
    rw [parseValue_null]
    simp [rereadNumber, hf2]

/-- One member of an object, read by parseMembers. -/
theorem parseMembers_member {ν : Type} [JSNumber ν] (fuel : Nat) (k : String)
    (t : List Char) (c : Char) (rest : List Char) (v' : JSValue ν) (acc : Props ν)
    (hc : c = ',' ∨ c = Char.ofNat 125)
    (hread : parseValue (fuel + 1) (t ++ c :: rest) = some (v', c :: rest)) :
    parseMembers (fuel + 2) ((quoteJSONString k ++ ':' :: t) ++ c :: rest) acc
      = if c = ',' then parseMembers (fuel + 1) rest (defineOwn acc k v')
        else some (.obj (defineOwn acc k v'), rest) := by
  have hq : isJsonWs '"' = false := by decide
  have hcolon : isJsonWs ':' = false := by decide
  have hcws : isJsonWs c = false := by rcases hc with rfl | rfl <;> decide
  have e : (quoteJSONString k ++ ':' :: t) ++ c :: rest
      = '"' :: (quoteBody k.data ++ '"' :: (':' :: (t ++ c :: rest))) := by
    simp [quoteJSONString]
  rw [e, parseMembers, skipWs_cons _ hq]
  simp only [if_true, parseString_quote, skipWs_cons _ hcolon, hread, skipWs_cons _ hcws]
  rcases hc with rfl | rfl
  · simp
  · have : (Char.ofNat 125 = ',') = False := by decide
    simp only [this, if_false, if_true]

/-- The members `T` are written as texts that are read back as `T'`: the keys
agree and each value reads back. -/
theorem serializeProps_cons_of_readsBack {ν : Type} [JSNumber ν] (p p' : String × JSValue ν)
    (ps : Props ν) (h : ReadsBack p.2 p'.2) :
    ∃ t, serialize p.2 = some t ∧
      serializeProps (p :: ps) = (quoteJSONString p.1 ++ ':' :: t) :: serializeProps ps ∧
      ∀ fuel c rest, (c = ',' ∨ c = Char.ofNat 125) →
        parseValue (fuel + 1) (t ++ c :: rest) = some (p'.2, c :: rest) := by
  obtain ⟨t, ht, hr⟩ := h
  refine ⟨t, ht, ?_, hr⟩
  obtain ⟨k, v⟩ := p
  simp only at ht
  simp [serializeProps, ht]

theorem parseMembers_serializeProps {ν : Type} [JSNumber ν] (T T' : Props ν)
    (h : List.Forall₂ (fun p p' => p.1 = p'.1 ∧ ReadsBack p.2 p'.2) T T') (hne : T ≠ []) :
    ∀ (fuel : Nat) (acc : Props ν) (rest : List Char), T.length < fuel →
      parseMembers fuel (joinComma (serializeProps T) ++ Char.ofNat 125 :: rest) acc
        = some (.obj (T'.foldl (fun a p => defineOwn a p.1 p.2) acc), rest) := by
  induction h with
  | nil => exact absurd rfl hne
  | @cons p p' ps ps' hp hps ih =>
    intro fuel acc rest hfuel
    obtain ⟨t, -, hser, hread⟩ := serializeProps_cons_of_readsBack p p' ps hp.2
    obtain ⟨f, rfl⟩ : ∃ f, fuel = f + 2 := ⟨fuel - 2, by
      simp only [List.length_cons] at hfuel; omega⟩
    cases hps with
    | nil =>
      have hnil : serializeProps ([] : Props ν) = [] := by simp [serializeProps]
      rw [hser, hnil, joinComma]
      simp only [List.foldl_cons, List.foldl_nil]
      rw [parseMembers_member f p.1 t (Char.ofNat 125) rest p'.2 acc (Or.inr rfl)
        (hread f _ rest (Or.inr rfl))]
      have : (Char.ofNat 125 = ',') = False := by decide
      simp only [this, if_false, hp.1]
    | @cons q q' qs qs' hq hqs =>
      obtain ⟨t2, -, hser2, -⟩ := serializeProps_cons_of_readsBack q q' qs hq.2
      have hjoin : joinComma (serializeProps (p :: q :: qs))
          = (quoteJSONString p.1 ++ ':' :: t) ++ ',' :: joinComma (serializeProps (q :: qs)) := by
        rw [hser, hser2, joinComma]
      rw [hjoin, List.append_assoc, List.cons_append,
        parseMembers_member f p.1 t ',' _ p'.2 acc (Or.inl rfl) (hread f _ _ (Or.inl rfl))]
      simp only [if_true, List.foldl_cons]
      rw [ih (by simp) (f + 1) _ rest (by
        simp only [List.length_cons] at hfuel ⊢; omega), hp.1]
      simp only [List.foldl_cons]

theorem length_le_joinComma_succ (l : List (List Char)) :
    l.length ≤ (joinComma l).length + 1 := by
  induction l with
  | nil => simp
  | cons t ts ih =>
    cases ts with
    | nil => simp [joinComma]
    | cons u us =>
      simp only [joinComma, List.length_cons, List.length_append] at ih ⊢
      omega

theorem length_serializeProps_le {ν : Type} [JSNumber ν] (T : Props ν) :
    (serializeProps T).length ≤ T.length := by
  induction T with
  | nil => simp [serializeProps]
  | cons p ps ih =>
    obtain ⟨k, v⟩ := p
    simp only [serializeProps, List.length_cons]
    split
    · simp only [List.length_cons]; omega
    · omega

theorem length_serializeProps_of_readsBack {ν : Type} [JSNumber ν] (T T' : Props ν)
    (h : List.Forall₂ (fun p p' => p.1 = p'.1 ∧ ReadsBack p.2 p'.2) T T') :
    (serializeProps T).length = T.length := by
  induction h with
  | nil => rfl
  | @cons p p' ps ps' hp _ ih =>
    obtain ⟨t, -, hser, -⟩ := serializeProps_cons_of_readsBack p p' ps hp.2
    rw [hser, List.length_cons, List.length_cons, ih]

/-- The text of an object whose values all read back is read back, by
`JSON.parse`, as the object built from the members read. -/
theorem parse_stringify_flat {ν : Type} [JSNumber ν] (T T' : Props ν)
    (h : List.Forall₂ (fun p p' => p.1 = p'.1 ∧ ReadsBack p.2 p'.2) T T') :
    ∃ text : String, JSON.stringify (.obj T : JSValue ν) = some text ∧
      (JSON.parse text : Except String (JSValue ν))
        = .ok (.obj (T'.foldl (fun a p => defineOwn a p.1 p.2) [])) := by
  refine ⟨_, rfl, ?_⟩
  have hb : isJsonWs (Char.ofNat 123) = false := by decide
  simp only [serialize, JSON.parse]
  cases h with
  | nil =>
    have : parseValue (ν := ν) ((Char.ofNat 123 :: (joinComma (serializeProps
        ([] : Props ν)) ++ [Char.ofNat 125])).length + 1)
        (Char.ofNat 123 :: (joinComma (serializeProps ([] : Props ν)) ++ [Char.ofNat 125]))
        = some (.obj [], []) := by
      simp [serializeProps, joinComma, parseValue, skipWs, List.dropWhile, isJsonWs]
    simp only [this, skipWs_nil, if_true, List.foldl_nil]
  | @cons p p' ps ps' hp hps =>
    have hall : List.Forall₂ (fun p p' => p.1 = p'.1 ∧ ReadsBack p.2 p'.2)
        (p :: ps) (p' :: ps') := List.Forall₂.cons hp hps
    obtain ⟨t, -, hser, -⟩ := serializeProps_cons_of_readsBack p p' ps hp.2
    have hq : isJsonWs '"' = false := by decide
    have hlen := length_serializeProps_of_readsBack _ _ hall
    have hjl := length_le_joinComma_succ (serializeProps (p :: ps))
    generalize hn : (Char.ofNat 123 :: (joinComma (serializeProps (p :: ps)) ++
      [Char.ofNat 125])).length = n
    have hnl : (p :: ps).length < n := by
      rw [← hn]; simp only [List.length_cons, List.length_append, List.length_nil] at hlen hjl ⊢
      omega
    have hhead : ∃ tl, joinComma (serializeProps (p :: ps)) ++ [Char.ofNat 125]
        = '"' :: tl := by
      rw [hser]
      cases serializeProps ps with
      | nil => exact ⟨_, by simp [joinComma, quoteJSONString]; rfl⟩
      | cons u us => exact ⟨_, by simp [joinComma, quoteJSONString]; rfl⟩
    obtain ⟨tl, htl⟩ := hhead
    have key : parseValue (n + 1) (Char.ofNat 123 :: (joinComma (serializeProps (p :: ps)) ++
        [Char.ofNat 125]))
        = some (.obj ((p' :: ps').foldl (fun a p => defineOwn a p.1 p.2) []), []) := by
      rw [parseValue, skipWs_cons _ hb]
      simp only [if_true, htl, skipWs_cons _ hq]
      have hne : ('"' = Char.ofNat 125) = False := by decide
      simp only [hne, if_false]
      rw [← htl]
      exact parseMembers_serializeProps _ _ hall (by simp) n [] [] hnl
    simp only [key, skipWs_nil, if_true]

/-! ## Lemmas: distinct keys -/

theorem ownKeys_replace {ν : Type} (ps : Props ν) (k : String) (v : JSValue ν) :
    ownKeys (ps.map (fun p => if p.1 = k then (p.1, v) else p)) = ownKeys ps := by
  induction ps with
  | nil => rfl
  | cons p ps ih =>
    simp only [ownKeys, List.map_cons, List.cons.injEq] at ih ⊢
    refine ⟨?_, ih⟩
    split <;> rfl

theorem perm_ownKeys_insertIndexed {ν : Type} (i : Nat) (k : String) (v : JSValue ν)
    (ps : Props ν) : (ownKeys (insertIndexed i k v ps)).Perm (k :: ownKeys ps) := by
  induction ps with
  | nil => simp [insertIndexed, ownKeys]
  | cons p ps ih =>
    unfold insertIndexed
    split
    · split
      · simp only [ownKeys, List.map_cons] at ih ⊢
        exact (List.Perm.cons _ ih).trans (List.Perm.swap _ _ _)
      · simp [ownKeys]
    · simp [ownKeys]

theorem nodup_ownKeys_defineOwn {ν : Type} (ps : Props ν) (k : String) (v : JSValue ν)
    (h : (ownKeys ps).Nodup) : (ownKeys (defineOwn ps k v)).Nodup := by
  unfold defineOwn
  by_cases hk : hasOwn ps k = true
  · simp only [hk, if_true, ownKeys_replace]
    exact h
  · have hk2 : k ∉ ownKeys ps := fun hm => hk ((hasOwn_eq_true_iff ps k).2 hm)
    have hk3 : hasOwn ps k = false := by simpa using hk
    simp only [hk3, Bool.false_eq_true, if_false]
    split
    · exact (perm_ownKeys_insertIndexed _ k v ps).nodup_iff.2 (List.nodup_cons.2 ⟨hk2, h⟩)
    · simp only [ownKeys, List.map_append, List.map_cons, List.map_nil]
      rw [List.nodup_append]
      refine ⟨h, by simp, ?_⟩
      intro a ha hb
      simp only [List.mem_singleton] at hb
      subst hb
      exact hk2 ha

theorem nodup_ownKeys_ordinarySet {ν : Type} (ps : Props ν) (k : String) (v : JSValue ν)
    (h : (ownKeys ps).Nodup) : (ownKeys (ordinarySet ps k v)).Nodup := by
  unfold ordinarySet
  split
  · exact h
  · exact nodup_ownKeys_defineOwn ps k v h

theorem mem_insertIndexed {ν : Type} (i : Nat) (k : String) (v : JSValue ν) (ps : Props ν)
    (p : String × JSValue ν) (h : p ∈ insertIndexed i k v ps) : p ∈ ps ∨ p = (k, v) := by
  induction ps with
  | nil =>
    simp only [insertIndexed, List.mem_singleton] at h
    exact Or.inr h
  | cons q qs ih =>
    unfold insertIndexed at h
    split at h
    · split at h
      · simp only [List.mem_cons] at h ⊢
        rcases h with h | h
        · exact Or.inl (Or.inl h)
        · rcases ih h with h2 | h2
          · exact Or.inl (Or.inr h2)
          · exact Or.inr h2
      · simp only [List.mem_cons] at h ⊢
        rcases h with h | h | h
        · exact Or.inr h
        · exact Or.inl (Or.inl h)
        · exact Or.inl (Or.inr h)
    · simp only [List.mem_cons] at h ⊢
      rcases h with h | h | h
      · exact Or.inr h
      · exact Or.inl (Or.inl h)
      · exact Or.inl (Or.inr h)

theorem mem_defineOwn {ν : Type} (ps : Props ν) (k : String) (v : JSValue ν)
    (p : String × JSValue ν) (h : p ∈ defineOwn ps k v) : p ∈ ps ∨ p = (k, v) := by
  unfold defineOwn at h
  split at h
  · simp only [List.mem_map] at h
    obtain ⟨q, hq, rfl⟩ := h
    by_cases hk : q.1 = k
    · right; simp [hk]
    · left; simpa [hk] using hq
  · split at h
    · exact mem_insertIndexed _ _ _ _ _ h
    · simp only [List.mem_append, List.mem_singleton] at h
      exact h

theorem mem_ordinarySet {ν : Type} (ps : Props ν) (k : String) (v : JSValue ν)
    (p : String × JSValue ν) (h : p ∈ ordinarySet ps k v) : p ∈ ps ∨ p = (k, v) := by
  unfold ordinarySet at h
  split at h
  · exact Or.inl h
  · exact mem_defineOwn _ _ _ _ h

theorem getOwn_foldl_defineOwn {ν : Type} (L acc : Props ν) (k : String)
    (h : (ownKeys L).Nodup) :
    getOwn (L.foldl (fun a p => defineOwn a p.1 p.2) acc) k
      = match getOwn L k with
        | some v => some v
        | none => getOwn acc k := by
  induction L generalizing acc with
  | nil => rfl
  | cons p ps ih =>
    have hnd : (ownKeys ps).Nodup := by
      simp only [ownKeys, List.map_cons, List.nodup_cons] at h ⊢
      exact h.2
    have hp : p.1 ∉ ownKeys ps := by
      simp only [ownKeys, List.map_cons, List.nodup_cons] at h ⊢
      exact h.1
    rw [List.foldl_cons, ih _ hnd, getOwn]
    by_cases hk : p.1 = k
    · subst hk
      rw [(getOwn_eq_none_iff ps p.1).2 hp]
      simp [getOwn_defineOwn]
    · have hk2 : ¬ (k = p.1) := fun e => hk e.symm
      simp only [hk, if_false, getOwn_defineOwn, hk2]

theorem mem_of_getOwn {ν : Type} (ps : Props ν) (k : String) (v : JSValue ν)
    (h : getOwn ps k = some v) : (k, v) ∈ ps := by
  induction ps with
  | nil => simp [getOwn] at h
  | cons p ps ih =>
    simp only [getOwn] at h
    split at h
    · rename_i hk
      simp only [Option.some.injEq] at h
      subst hk h
      exact List.mem_cons_self _ _
    · exact List.mem_cons_of_mem _ (ih h)

theorem ownKeys_map_reread {ν : Type} [JSNumber ν] (T : Props ν) :
    ownKeys (T.map (fun p => (p.1, reread p.2))) = ownKeys T := by
  simp [ownKeys, List.map_map, Function.comp_def]

theorem getOwn_map_reread {ν : Type} [JSNumber ν] (T : Props ν) (k : String) :
    getOwn (T.map (fun p => (p.1, reread p.2))) k = (getOwn T k).map reread := by
  induction T with
  | nil => rfl
  | cons p ps ih =>
    simp only [List.map_cons, getOwn, ih]
    split <;> rfl

theorem forall₂_readsBack_reread {ν : Type} [JSNumber ν] (T : Props ν)
    (h : ∀ p ∈ T, ∃ x, p.2 = .num x ∧ NumberEncodes x) :
    List.Forall₂ (fun p p' => p.1 = p'.1 ∧ ReadsBack p.2 p'.2) T
      (T.map (fun p => (p.1, reread p.2))) := by
  induction T with
  | nil => exact List.Forall₂.nil
  | cons p ps ih =>
    refine List.Forall₂.cons ⟨rfl, ?_⟩ (ih (fun q hq => h q (List.mem_cons_of_mem _ hq)))
    obtain ⟨x, hx, hn⟩ := h p (List.mem_cons_self _ _)
    simp only [hx, reread]
    exact readsBack_num x hn

/-- The members that `parseMembers` returns have distinct keys. -/
theorem nodup_of_parseMembers {ν : Type} [JSNumber ν] (fuel : Nat) :
    ∀ (s : List Char) (acc : Props ν) (v : JSValue ν) (r : List Char),
      (ownKeys acc).Nodup → parseMembers fuel s acc = some (v, r) →
      ∃ o, v = .obj o ∧ (ownKeys o).Nodup := by
  induction fuel with
  | zero => intro s acc v r _ h; simp [parseMembers] at h
  | succ f ih =>
    intro s acc v r hacc h
    rw [parseMembers] at h
    split at h
    · exact absurd h (by simp)
    · split at h
      · split at h
        · exact absurd h (by simp)
        · split at h
          · exact absurd h (by simp)
          · split at h
            · split at h
              · exact absurd h (by simp)
              · split at h
                · exact absurd h (by simp)
                · split at h
                  · exact ih _ _ _ _ (nodup_ownKeys_defineOwn _ _ _ hacc) h
                  · split at h
                    · simp only [Option.some.injEq, Prod.mk.injEq] at h
                      exact ⟨_, h.1.symm, nodup_ownKeys_defineOwn _ _ _ hacc⟩
                    · exact absurd h (by simp)
            · exact absurd h (by simp)
      · exact absurd h (by simp)

/-! ## Theorems: the table sent back -/

theorem parseItems_arr {ν : Type} [JSNumber ν] (fuel : Nat) :
    ∀ (s : List Char) (acc : List (JSValue ν)) (v : JSValue ν) (r : List Char),
      parseItems fuel s acc = some (v, r) → ∃ items, v = .arr items [] := by
  induction fuel with
  | zero => intro s acc v r h; simp [parseItems] at h
  | succ f ih =>
    intro s acc v r h
    rw [parseItems] at h
    split at h
    · exact absurd h (by simp)
    · split at h
      · exact absurd h (by simp)
      · split at h
        · exact ih _ _ _ _ h
        · split at h
          · simp only [Option.some.injEq, Prod.mk.injEq] at h
            exact ⟨_, h.1.symm⟩
          · exact absurd h (by simp)

/-- An object that `JSON.parse` returns has distinct keys. -/
theorem nodup_ownKeys_of_parse {ν : Type} [JSNumber ν] (text : String) (o : Props ν)
    (h : JSON.parse text = .ok (.obj o)) : (ownKeys o).Nodup := by
  unfold JSON.parse at h
  split at h
  · rename_i v rest hv
    split at h
    · simp only [Except.ok.injEq] at h
      subst h
      rw [parseValue] at hv
      split at hv
      · exact absurd hv (by simp)
      · split at hv
        · split at hv
          · exact absurd hv (by simp)
          · split at hv
            · simp only [Option.some.injEq, Prod.mk.injEq, JSValue.obj.injEq] at hv
              rw [← hv.1]; exact List.nodup_nil
            · obtain ⟨o2, ho2, hnd⟩ := nodup_of_parseMembers _ _ ([] : Props ν) _ _
                (by simp [ownKeys]) hv
              simp only [JSValue.obj.injEq] at ho2
              rw [ho2]; exact hnd
        · split at hv
          · split at hv
            · exact absurd hv (by simp)
            · split at hv
              · simp at hv
              · obtain ⟨items, hi⟩ := parseItems_arr _ _ _ _ _ hv
                simp at hi
          · split at hv
            · simp only [Option.map_eq_some'] at hv
              obtain ⟨a, -, ha⟩ := hv
              simp at ha
            · split at hv
              · split at hv <;> simp at hv
              · split at hv
                · split at hv <;> simp at hv
                · split at hv
                  · split at hv <;> simp at hv
                  · simp only [Option.map_eq_some'] at hv
                    obtain ⟨a, -, ha⟩ := hv
                    simp at ha
    · exact absurd h (by simp)
  · exact absurd h (by simp)

theorem reread_of_survives {ν : Type} [JSNumber ν] (x : ν) (h : NumberSurvives x) :
    reread (.num x : JSValue ν) = .num x := by
  simp [reread, rereadNumber, h.1, h.2.2]

/-- The text of a ratio table after the two assignments decodes to an object
whose keys are the keys before together with the two model names, and whose
values under every other key are the values before. -/
theorem table_text_roundtrip {ν : Type} [JSNumber ν] (o : Props ν) (src tgt : String)
    (ratio : ν) (hnodup : (ownKeys o).Nodup)
    (hvalues : ∀ p ∈ o, ∃ x, p.2 = .num x ∧ NumberSurvives x)
    (hratio : NumberEncodes ratio) (hsrc : src ≠ "__proto__") (htgt : tgt ≠ "__proto__") :
    ∃ (value : String) (decoded : Props ν),
      JSON.stringify
          (.obj (ordinarySet (ordinarySet o src (.num ratio)) tgt (.num ratio)) : JSValue ν)
        = some value ∧
      JSON.parse value = .ok (.obj decoded) ∧
      (∀ k, k ∈ ownKeys decoded ↔ k ∈ ownKeys o ∨ k = src ∨ k = tgt) ∧
      (∀ k, k ≠ src → k ≠ tgt → getOwn decoded k = getOwn o k) := by
  generalize hT : ordinarySet (ordinarySet o src (.num ratio)) tgt (.num ratio) = T
  have hTmem : ∀ p ∈ T, ∃ x, p.2 = .num x ∧ NumberEncodes x := by
    intro p hp
    rw [← hT] at hp
    rcases mem_ordinarySet _ _ _ _ hp with h1 | h1
    · rcases mem_ordinarySet _ _ _ _ h1 with h2 | h2
      · obtain ⟨x, hx, hs⟩ := hvalues p h2
        exact ⟨x, hx, Or.inr hs.2.1⟩
      · exact ⟨ratio, by rw [h2], hratio⟩
    · exact ⟨ratio, by rw [h1], hratio⟩
  have hndT : (ownKeys T).Nodup := by
    rw [← hT]
    exact nodup_ownKeys_ordinarySet _ _ _ (nodup_ownKeys_ordinarySet _ _ _ hnodup)
  obtain ⟨value, hs, hp⟩ := parse_stringify_flat T _ (forall₂_readsBack_reread T hTmem)
  have hlook : ∀ k, getOwn ((T.map (fun p => (p.1, reread p.2))).foldl
      (fun a p => defineOwn a p.1 p.2) []) k = (getOwn T k).map reread := by
    intro k
    rw [getOwn_foldl_defineOwn _ _ _ (by rw [ownKeys_map_reread]; exact hndT),
      getOwn_map_reread]
    cases (getOwn T k).map reread <;> rfl
  have hkeysT : ∀ k, k ∈ ownKeys T ↔ k ∈ ownKeys o ∨ k = src ∨ k = tgt := by
    intro k
    rw [← hT, mem_ownKeys_ordinarySet _ _ _ _ htgt, mem_ownKeys_ordinarySet _ _ _ _ hsrc]
    tauto
  refine ⟨value, _, hs, hp, ?_, ?_⟩
  · intro k
    rw [← hkeysT, mem_ownKeys_iff_getOwn, mem_ownKeys_iff_getOwn]
    simp only [hlook]
    cases getOwn T k <;> simp
  · intro k hk1 hk2
    rw [hlook, ← hT, getOwn_ordinarySet_other _ _ _ _ hk2, getOwn_ordinarySet_other _ _ _ _ hk1]
    cases hg : getOwn o k with
    | none => rfl
    | some v =>
      obtain ⟨x, hx, hsv⟩ := hvalues (k, v) (mem_of_getOwn _ _ _ hg)
      simp only at hx
      subst hx
      simp [reread_of_survives x hsv]

/-- The text of the object with the fields `key` and `value`, both strings,
is read back as that object. -/
theorem parse_option_body {ν : Type} [JSNumber ν] (key value : String) :
    ∃ body : String,
      JSON.stringify (.obj [("key", .str key), ("value", .str value)] : JSValue ν) = some body ∧
      (JSON.parse body : Except String (JSValue ν))
        = .ok (.obj [("key", .str key), ("value", .str value)]) := by
  obtain ⟨body, hs, hp⟩ := parse_stringify_flat (ν := ν)
    [("key", .str key), ("value", .str value)] [("key", .str key), ("value", .str value)]
    (List.Forall₂.cons ⟨rfl, readsBack_str key⟩
      (List.Forall₂.cons ⟨rfl, readsBack_str value⟩ List.Forall₂.nil))
  refine ⟨body, hs, ?_⟩
  rw [hp]
  rfl

/-- When the last ModelRatio record decodes to the object `o` and every PUT is
accepted, both files send the table obtained from `o` by the two assignments. -/
theorem run_sends_modelRatio {ν : Type} [JSNumber ν] (gw : Gateway) (trace : List Request)
    (tok : String) (inp out : ν) (src tgt : String)
    (items : List (JSValue ν)) (pre post : List OptionRecord) (r : OptionRecord) (o : Props ν)
    (hserve : ServesOptions gw trace tok items)
    (hrecords : List.Forall₂ IsRecord items (pre ++ r :: post))
    (hkey : r.key = "ModelRatio") (hdecode : JSON.parse r.value = .ok (.obj o))
    (hlast : ∀ x ∈ post, x.key ≠ "ModelRatio") (hput : AcceptsPuts gw) :
    Node.putRequest tok "ModelRatio" (.obj (ordinarySet (ordinarySet o src
          (.num (JSNumber.div inp (JSNumber.literal "2.5".data)))) tgt
          (.num (JSNumber.div inp (JSNumber.literal "2.5".data)))))
        ∈ (Node.updateModelPriceRate gw trace tok inp out src tgt).2 ∧
      App.putRequest tok "ModelRatio" (.obj (ordinarySet (ordinarySet o src
          (.num (JSNumber.div inp (JSNumber.literal "2.5".data)))) tgt
          (.num (JSNumber.div inp (JSNumber.literal "2.5".data)))))
        ∈ (App.updatePrice gw trace tok inp out src tgt).2 := by
  have hN := Node.scan_records inp out src tgt items _ hrecords ⟨.null, .null⟩
  have hA := App.browser_scan_records inp out src tgt items _ hrecords ⟨.null, .null⟩
  have hm := foldl_turn_modelRatio_last inp out src tgt pre post r o hkey hdecode hlast
    ⟨.null, .null⟩
  generalize (pre ++ r :: post).foldl (turn inp out src tgt) ⟨.null, .null⟩ = w at hN hA hm
  obtain ⟨cr, mr⟩ := w
  simp only at hm
  subst hm
  constructor
  · rw [Node.updateModelPriceRate_accepted gw trace tok inp out src tgt items _ hserve hN hput]
    simp [toBoolean]
  · rw [App.updatePrice_accepted gw trace tok inp out src tgt items _ hserve hA hput]
    simp [toBoolean]

/-- When the last CompletionRatio record decodes to the object `o` and every
PUT is accepted, both files send the table obtained from `o` by the two
assignments. -/
theorem run_sends_completionRatio {ν : Type} [JSNumber ν] (gw : Gateway)
    (trace : List Request) (tok : String) (inp out : ν) (src tgt : String)
    (items : List (JSValue ν)) (pre post : List OptionRecord) (r : OptionRecord) (o : Props ν)
    (hserve : ServesOptions gw trace tok items)
    (hrecords : List.Forall₂ IsRecord items (pre ++ r :: post))
    (hkey : r.key = "CompletionRatio") (hdecode : JSON.parse r.value = .ok (.obj o))
    (hlast : ∀ x ∈ post, x.key ≠ "CompletionRatio") (hput : AcceptsPuts gw) :
    Node.putRequest tok "CompletionRatio" (.obj (ordinarySet (ordinarySet o src
          (.num (JSNumber.div out inp))) tgt (.num (JSNumber.div out inp))))
        ∈ (Node.updateModelPriceRate gw trace tok inp out src tgt).2 ∧
      App.putRequest tok "CompletionRatio" (.obj (ordinarySet (ordinarySet o src
          (.num (JSNumber.div out inp))) tgt (.num (JSNumber.div out inp))))
        ∈ (App.updatePrice gw trace tok inp out src tgt).2 := by
  have hN := Node.scan_records inp out src tgt items _ hrecords ⟨.null, .null⟩
  have hA := App.browser_scan_records inp out src tgt items _ hrecords ⟨.null, .null⟩
  have hm := foldl_turn_completionRatio_last inp out src tgt pre post r o hkey hdecode hlast
    ⟨.null, .null⟩
  generalize (pre ++ r :: post).foldl (turn inp out src tgt) ⟨.null, .null⟩ = w at hN hA hm
  obtain ⟨cr, mr⟩ := w
  simp only at hm
  subst hm
  constructor
  · rw [Node.updateModelPriceRate_accepted gw trace tok inp out src tgt items _ hserve hN hput]
    simp [toBoolean]
  · rw [App.updatePrice_accepted gw trace tok inp out src tgt items _ hserve hA hput]
    simp [toBoolean]

/-- The body of the PUT of a table whose text is `value` decodes to the
object with the fields `key` and `value`. -/
theorem putRequest_body_decodes {ν : Type} [JSNumber ν] (tok key value : String)
    (table : JSValue ν) (h : JSON.stringify table = some value) :
    ∃ body : String, (Node.putRequest tok key table).body = some body ∧
      (App.putRequest tok key table).body = some body ∧
      (JSON.parse body : Except String (JSValue ν))
        = .ok (.obj [("key", .str key), ("value", .str value)]) := by
  obtain ⟨body, hs, hp⟩ := parse_option_body (ν := ν) key value
  refine ⟨body, ?_, ?_, hp⟩
  · simp only [Node.putRequest, h, JSValue.ofOption, hs]
  · simp only [App.putRequest, h, JSValue.ofOption, hs]

/-- C3 (amended): when the last record of a ratio key decodes to a JSON object
`o` whose values are numbers that survive the JSON text (finite, and read
back as themselves), neither model name is `__proto__` and every PUT is
accepted, both files send for that key a PUT whose body decodes to the fields
`key` and `value`, where `value` is the text of the table after the two
assignments and decodes to an object whose keys are exactly the keys of `o`
together with the two model names, and whose value under every other key is
the value in `o`. -/
theorem ratio_table_roundtrip (ν : Type) [JSNumber ν] (gw : Gateway) (trace : List Request)
    (systemToken : String) (inputPrice outputPrice : ν) (sourceModel targetModel : String)
    (items : List (JSValue ν)) (pre post : List OptionRecord) (r : OptionRecord) (o : Props ν)
    (hserve : ServesOptions gw trace systemToken items)
    (hrecords : List.Forall₂ IsRecord items (pre ++ r :: post))
    (hkey : r.key = "ModelRatio" ∨ r.key = "CompletionRatio")
    (hdecode : JSON.parse r.value = .ok (.obj o))
    (hlast : ∀ x ∈ post, x.key ≠ r.key)
    (hvalues : ∀ p ∈ o, ∃ x, p.2 = .num x ∧ NumberSurvives x)
    (hratio : NumberEncodes (if r.key = "ModelRatio" then
        JSNumber.div inputPrice (JSNumber.literal "2.5".data)
      else JSNumber.div outputPrice inputPrice))
    (hsource : sourceModel ≠ "__proto__") (htarget : targetModel ≠ "__proto__")
    (hput : AcceptsPuts gw) :
    ∃ (table : JSValue ν) (body value : String) (decoded : Props ν),
      setBoth (.obj o) sourceModel targetModel (if r.key = "ModelRatio" then
          JSNumber.div inputPrice (JSNumber.literal "2.5".data)
        else JSNumber.div outputPrice inputPrice) = .ok table ∧
      Node.putRequest systemToken r.key table
        ∈ (Node.updateModelPriceRate gw trace systemToken inputPrice outputPrice sourceModel
            targetModel).2 ∧
      App.putRequest systemToken r.key table
        ∈ (App.updatePrice gw trace systemToken inputPrice outputPrice sourceModel
            targetModel).2 ∧
      (Node.putRequest systemToken r.key table).body = some body ∧
      (App.putRequest systemToken r.key table).body = some body ∧
      (JSON.parse body : Except String (JSValue ν))
        = .ok (.obj [("key", .str r.key), ("value", .str value)]) ∧
      JSON.parse value = .ok (.obj decoded) ∧
      (∀ k, k ∈ ownKeys decoded ↔ k ∈ ownKeys o ∨ k = sourceModel ∨ k = targetModel) ∧
      (∀ k, k ≠ sourceModel → k ≠ targetModel → getOwn decoded k = getOwn o k) := by
  have hnodup := nodup_ownKeys_of_parse r.value o hdecode
  obtain ⟨value, decoded, hs, hp, hkeys, hvals⟩ := table_text_roundtrip o sourceModel
    targetModel _ hnodup hvalues hratio hsource htarget
  obtain ⟨body, hb1, hb2, hb3⟩ := putRequest_body_decodes systemToken r.key value _ hs
  refine ⟨_, body, value, decoded, setBoth_obj _ _ _ _, ?_, ?_, hb1, hb2, hb3, hp, hkeys, hvals⟩
  · rcases hkey with hk | hk
    · simp only [hk, if_true]
      exact (run_sends_modelRatio gw trace systemToken inputPrice outputPrice sourceModel
        targetModel items pre post r o hserve hrecords hk hdecode
        (fun x hx => by rw [← hk]; exact hlast x hx) hput).1
    · have hne : r.key ≠ "ModelRatio" := by rw [hk]; decide
      simp only [hne, if_false]
      rw [hk]
      exact (run_sends_completionRatio gw trace systemToken inputPrice outputPrice sourceModel
        targetModel items pre post r o hserve hrecords hk hdecode
        (fun x hx => by rw [← hk]; exact hlast x hx) hput).1
  · rcases hkey with hk | hk
    · simp only [hk, if_true]
      exact (run_sends_modelRatio gw trace systemToken inputPrice outputPrice sourceModel
        targetModel items pre post r o hserve hrecords hk hdecode
        (fun x hx => by rw [← hk]; exact hlast x hx) hput).2
    · have hne : r.key ≠ "ModelRatio" := by rw [hk]; decide
      simp only [hne, if_false]
      rw [hk]
      exact (run_sends_completionRatio gw trace systemToken inputPrice outputPrice sourceModel
        targetModel items pre post r o hserve hrecords hk hdecode
        (fun x hx => by rw [← hk]; exact hlast x hx) hput).2

set_option maxRecDepth 20000 in
set_option exponentiation.threshold 2000 in
/-- C3 (counterexample): (a) the fetched ModelRatio table `{"a":1e309}`
decodes to the object with `a` infinite; the value sent back is the text
`{"a":null,"gpt-x":0.4,"proxy-gpt-x":0.4}`, in which `a` is null: a key
other than the two model names has changed its value; (b) with the source
model name `__proto__` and the fetched CompletionRatio table `{}` the value
sent back is `{"proxy-gpt-x":2}`, whose keys lack the source model name. -/
theorem ratio_table_roundtrip_counterexample :
    ((JSON.parse "\x7b\"a\":1e309\x7d" : Except String (JSValue Binary64))
        = .ok (.obj [("a", .num (.inf false))]) ∧
      (Node.updateModelPriceRate (optionsGateway overflowOptions 200 "") [] "sys" (lit "1.0")
          (lit "2.0") "gpt-x" "proxy-gpt-x").2
        = [getRequest "sys", Node.putRequest "sys" "ModelRatio"
            (.obj [("a", .num (.inf false)), ("gpt-x", .num (lit "0.4")),
              ("proxy-gpt-x", .num (lit "0.4"))] : JSValue Binary64)] ∧
      JSON.stringify (.obj [("a", .num (.inf false)), ("gpt-x", .num (lit "0.4")),
          ("proxy-gpt-x", .num (lit "0.4"))] : JSValue Binary64)
        = some "\x7b\"a\":null,\"gpt-x\":0.4,\"proxy-gpt-x\":0.4\x7d" ∧
      (JSON.parse "\x7b\"a\":null,\"gpt-x\":0.4,\"proxy-gpt-x\":0.4\x7d" :
          Except String (JSValue Binary64))
        = .ok (.obj [("a", .null), ("gpt-x", .num (lit "0.4")),
            ("proxy-gpt-x", .num (lit "0.4"))])) ∧
    ((Node.updateModelPriceRate (optionsGateway completionOnlyOptions 200 "") [] "sys"
          (lit "1.0") (lit "2.0") "__proto__" "proxy-gpt-x").2
        = [getRequest "sys", Node.putRequest "sys" "CompletionRatio"
            (.obj [("proxy-gpt-x", .num (lit "2.0"))] : JSValue Binary64)] ∧
      JSON.stringify (.obj [("proxy-gpt-x", .num (lit "2.0"))] : JSValue Binary64)
        = some "\x7b\"proxy-gpt-x\":2\x7d" ∧
      (JSON.parse "\x7b\"proxy-gpt-x\":2\x7d" : Except String (JSValue Binary64))
        = .ok (.obj [("proxy-gpt-x", .num (lit "2.0"))]) ∧
      "__proto__" ∉ ownKeys ([("proxy-gpt-x", .num (lit "2.0"))] : Props Binary64)) := by
  refine ⟨⟨rfl, rfl, rfl, rfl⟩, rfl, rfl, rfl, by decide⟩

theorem numberSurvives_one : NumberSurvives (lit "1") := ⟨rfl, by decide, by decide⟩

theorem ratio_table_roundtrip_witness :
    ∃ (body value : String) (decoded : Props Binary64),
      (Node.putRequest "sys" "ModelRatio"
          (.obj [("a", .num (lit "1")), ("gpt-x", .num (lit "0.4")),
            ("proxy-gpt-x", .num (lit "0.4"))] : JSValue Binary64)).body = some body ∧
      (JSON.parse body : Except String (JSValue Binary64))
        = .ok (.obj [("key", .str "ModelRatio"), ("value", .str value)]) ∧
      JSON.parse value = .ok (.obj decoded) ∧
      (∀ k, k ∈ ownKeys decoded ↔
        k ∈ ownKeys ([("a", .num (lit "1"))] : Props Binary64) ∨ k = "gpt-x" ∨
          k = "proxy-gpt-x") ∧
      (∀ k, k ≠ "gpt-x" → k ≠ "proxy-gpt-x" →
        getOwn decoded k = getOwn ([("a", .num (lit "1"))] : Props Binary64) k) := by
  obtain ⟨table, body, value, decoded, h1, -, -, h4, -, h6, h7, h8, h9⟩ :=
    ratio_table_roundtrip Binary64 (optionsGateway sampleOptions 200 "") [] "sys" (lit "1.0")
      (lit "2.0") "gpt-x" "proxy-gpt-x" (sampleRecords.map (fun r => r.toJS))
      [] [⟨"CompletionRatio", "\x7b\"a\":3\x7d"⟩] ⟨"ModelRatio", "\x7b\"a\":1\x7d"⟩
      [("a", .num (lit "1"))]
      (servesOptions_sample [] "sys" 200 "") (forall₂_isRecord_toJS sampleRecords)
      (Or.inl rfl) rfl (by simp)
      (by
        intro p hp
        simp only [List.mem_singleton] at hp
        subst hp
        exact ⟨lit "1", rfl, numberSurvives_one⟩)
      (Or.inr (by decide)) (by decide) (by decide)
      (acceptsPuts_optionsGateway _ _ _ (by decide))
  have ht : table = .obj [("a", .num (lit "1")), ("gpt-x", .num (lit "0.4")),
      ("proxy-gpt-x", .num (lit "0.4"))] := by
    have e : setBoth (.obj [("a", .num (lit "1"))] : JSValue Binary64) "gpt-x" "proxy-gpt-x"
        (if (⟨"ModelRatio", "\x7b\"a\":1\x7d"⟩ : OptionRecord).key = "ModelRatio" then
          JSNumber.div (lit "1.0") (JSNumber.literal "2.5".data)
        else JSNumber.div (lit "2.0") (lit "1.0"))
        = .ok (.obj [("a", .num (lit "1")), ("gpt-x", .num (lit "0.4")),
          ("proxy-gpt-x", .num (lit "0.4"))]) := rfl
    rw [e] at h1
    exact (Except.ok.inj h1).symm
  subst ht
  exact ⟨body, value, decoded, h4, h6, h7, h8, h9⟩

/-! ## Lemmas: the fuel of the parser is enough -/

theorem skipWs_length_le (s : List Char) : (skipWs s).length ≤ s.length := by
  unfold skipWs
  exact (List.dropWhile_sublist _).length_le

theorem hex4_length {s rest : List Char} {n : Nat} (h : hex4? s = some (n, rest)) :
    rest.length + 4 = s.length := by
  unfold hex4? at h
  split at h
  · split at h
    · simp only [Option.some.injEq, Prod.mk.injEq] at h
      rw [← h.2]; simp
    · exact absurd h (by simp)
  · exact absurd h (by simp)

theorem unicodeEscape_length {s rest : List Char} {c : Char}
    (h : unicodeEscape? s = some (c, rest)) : rest.length < s.length := by
  unfold unicodeEscape? at h
  split at h
  · exact absurd h (by simp)
  · rename_i u r1 hu
    have h1 := hex4_length hu
    split at h
    · simp only [Option.some.injEq, Prod.mk.injEq] at h
      rw [← h.2]; omega
    · split at h
      · exact absurd h (by simp)
      · split at h
        · rename_i r2
          split at h
          · rename_i lo r3 hlo
            have h2 := hex4_length hlo
            split at h
            · simp only [Option.some.injEq, Prod.mk.injEq] at h
              rw [← h.2]
              simp only [List.length_cons] at h1
              omega
            · exact absurd h (by simp)
          · exact absurd h (by simp)
        · exact absurd h (by simp)

theorem parseStringBody_length (fuel : Nat) :
    ∀ (s k r : List Char), parseStringBody fuel s = some (k, r) → r.length < s.length := by
  induction fuel with
  | zero => intro s k r h; simp [parseStringBody] at h
  | succ f ih =>
    intro s k r h
    have hmap : ∀ (x : Char) (t : List Char),
        (parseStringBody f t).map (fun r => (x :: r.1, r.2)) = some (k, r) →
        r.length < t.length := by
      intro x t hx
      simp only [Option.map_eq_some'] at hx
      obtain ⟨a, ha, hb⟩ := hx
      obtain ⟨a1, a2⟩ := a
      simp only [Prod.mk.injEq] at hb
      have := ih _ _ _ ha
      rw [← hb.2]
      exact this
    cases s with
    | nil => simp [parseStringBody] at h
    | cons c rest =>
      cases rest with
      | nil =>
        rw [parseStringBody.eq_3] at h
        split at h
        · simp only [Option.some.injEq, Prod.mk.injEq] at h
          rw [← h.2]; simp
        · split at h
          · exact absurd h (by simp)
          · split at h
            · exact absurd h (by simp)
            · have := hmap _ _ h
              simp at this
      | cons e rest2 =>
        rw [parseStringBody.eq_4] at h
        split at h
        · simp only [Option.some.injEq, Prod.mk.injEq] at h
          rw [← h.2]; simp
        · split at h
          · split at h
            · have := hmap _ _ h
              simp only [List.length_cons]
              omega
            · split at h
              · split at h
                · rename_i x rest3 hu
                  have h3 := unicodeEscape_length hu
                  have := hmap _ _ h
                  simp only [List.length_cons]
                  omega
                · exact absurd h (by simp)
              · exact absurd h (by simp)
          · split at h
            · exact absurd h (by simp)
            · have := hmap _ _ h
              simp only [List.length_cons] at this ⊢
              omega

theorem parseString_length {s r : List Char} {k : String}
    (h : parseString s = some (k, r)) : r.length < s.length := by
  unfold parseString at h
  simp only [Option.map_eq_some'] at h
  obtain ⟨a, ha, hb⟩ := h
  obtain ⟨a1, a2⟩ := a
  simp only [Prod.mk.injEq] at hb
  rw [← hb.2]
  exact parseStringBody_length _ _ _ _ ha

/-- One more unit of fuel does not change what parseStringBody reads, once
the fuel exceeds the length of the text. -/
theorem parseStringBody_fuel_succ (fuel : Nat) :
    ∀ s : List Char, s.length < fuel → parseStringBody (fuel + 1) s = parseStringBody fuel s := by
  induction fuel with
  | zero => intro s h; exact absurd h (by simp)
  | succ f ih =>
    intro s hs
    cases s with
    | nil => simp [parseStringBody]
    | cons c rest =>
      cases rest with
      | nil =>
        have hf : ([] : List Char).length < f := by
          simp only [List.length_cons, List.length_nil] at hs ⊢; omega
        rw [parseStringBody.eq_3, parseStringBody.eq_3, ih _ hf]
      | cons e rest2 =>
        have h1 : rest2.length < f := by
          simp only [List.length_cons] at hs; omega
        have h2 : (e :: rest2).length < f := by
          simp only [List.length_cons] at hs ⊢; omega
        rw [parseStringBody.eq_4, parseStringBody.eq_4, ih _ h1, ih _ h2]
        cases hu : unicodeEscape? rest2 with
        | none => rfl
        | some p =>
          obtain ⟨x, rest3⟩ := p
          have h3 := unicodeEscape_length hu
          simp only [ih rest3 (by omega)]

/-- Any fuel above the length of the text gives what `parseString` gives. -/
theorem parseStringBody_fuel (s : List Char) (fuel : Nat) (h : s.length < fuel) :
    parseStringBody fuel s = parseStringBody (s.length + 1) s := by
  induction fuel with
  | zero => exact absurd h (by simp)
  | succ f ih =>
    by_cases hf : s.length < f
    · rw [parseStringBody_fuel_succ f s hf, ih hf]
    · have : f = s.length := by omega
      rw [this]

theorem dropWhile_isDigit_length_le (s : List Char) :
    (s.dropWhile Char.isDigit).length ≤ s.length :=
  (List.dropWhile_sublist _).length_le

theorem lexSign_length_le (s : List Char) : (lexSign s).2.length ≤ s.length := by
  cases s with
  | nil => simp [lexSign]
  | cons c r =>
    simp only [lexSign]
    split <;> simp

theorem lexInt_length {s ds s2 : List Char} (h : lexInt s = some (ds, s2)) :
    s2.length < s.length := by
  cases s with
  | nil => simp [lexInt] at h
  | cons c r =>
    simp only [lexInt] at h
    split at h
    · simp only [Option.some.injEq, Prod.mk.injEq] at h
      rw [← h.2]; simp
    · split at h
      · simp only [Option.some.injEq, Prod.mk.injEq] at h
        rw [← h.2]
        have := dropWhile_isDigit_length_le r
        simp only [List.length_cons]; omega
      · exact absurd h (by simp)

theorem lexFrac_length_le {s fs s3 : List Char} (h : lexFrac s = some (fs, s3)) :
    s3.length ≤ s.length := by
  cases s with
  | nil =>
    simp only [lexFrac, Option.some.injEq, Prod.mk.injEq] at h
    rw [← h.2]
  | cons c r =>
    simp only [lexFrac] at h
    split at h
    · split at h
      · exact absurd h (by simp)
      · simp only [Option.some.injEq, Prod.mk.injEq] at h
        rw [← h.2]
        have := dropWhile_isDigit_length_le r
        simp only [List.length_cons]; omega
    · simp only [Option.some.injEq, Prod.mk.injEq] at h
      rw [← h.2]

theorem lexExpSign_length_le (s : List Char) : (lexExpSign s).2.length ≤ s.length := by
  cases s with
  | nil => simp [lexExpSign]
  | cons c r =>
    simp only [lexExpSign]
    split <;> simp

theorem lexExp_length_le {s es s4 : List Char} (h : lexExp s = some (es, s4)) :
    s4.length ≤ s.length := by
  cases s with
  | nil =>
    simp only [lexExp, Option.some.injEq, Prod.mk.injEq] at h
    rw [← h.2]
  | cons c r =>
    simp only [lexExp] at h
    split at h
    · split at h
      · exact absurd h (by simp)
      · simp only [Option.some.injEq, Prod.mk.injEq] at h
        rw [← h.2]
        have h1 := dropWhile_isDigit_length_le (lexExpSign r).2
        have h2 := lexExpSign_length_le r
        simp only [List.length_cons]; omega
    · simp only [Option.some.injEq, Prod.mk.injEq] at h
      rw [← h.2]

theorem lexNumber_length {t tok r : List Char} (h : lexNumber t = some (tok, r)) :
    r.length < t.length := by
  unfold lexNumber at h
  split at h
  · exact absurd h (by simp)
  · rename_i ds s2 h1
    split at h
    · exact absurd h (by simp)
    · rename_i fs s3 h2
      split at h
      · exact absurd h (by simp)
      · rename_i es s4 h3
        simp only [Option.some.injEq, Prod.mk.injEq] at h
        rw [← h.2]
        have a := lexSign_length_le t
        have b := lexInt_length h1
        have c := lexFrac_length_le h2
        have d := lexExp_length_le h3
        omega

/-- What the parser leaves is shorter than what it was given. -/
theorem parse_length {ν : Type} [JSNumber ν] (fuel : Nat) :
    (∀ (s : List Char) (v : JSValue ν) (r : List Char),
        parseValue fuel s = some (v, r) → r.length < s.length) ∧
      (∀ (s : List Char) (acc : Props ν) (v : JSValue ν) (r : List Char),
        parseMembers fuel s acc = some (v, r) → r.length < s.length) ∧
      (∀ (s : List Char) (acc : List (JSValue ν)) (v : JSValue ν) (r : List Char),
        parseItems fuel s acc = some (v, r) → r.length < s.length) := by
  induction fuel with
  | zero =>
    refine ⟨?_, ?_, ?_⟩
    · intro s v r h; simp [parseValue] at h
    · intro s acc v r h; simp [parseMembers] at h
    · intro s acc v r h; simp [parseItems] at h
  | succ f ih =>
    obtain ⟨ihV, ihM, ihI⟩ := ih
    refine ⟨?_, ?_, ?_⟩
    · intro s v r h
      rw [parseValue] at h
      have hws := skipWs_length_le s
      split at h
      · exact absurd h (by simp)
      · rename_i c rest h1
        rw [h1] at hws
        simp only [List.length_cons] at hws
        split at h
        · have hws2 := skipWs_length_le rest
          split at h
          · exact absurd h (by simp)
          · rename_i d rest2 h2
            rw [h2] at hws2
            simp only [List.length_cons] at hws2
            split at h
            · simp only [Option.some.injEq, Prod.mk.injEq] at h
              rw [← h.2]; omega
            · have := ihM _ _ _ _ h
              simp only [List.length_cons] at this; omega
        · split at h
          · have hws2 := skipWs_length_le rest
            split at h
            · exact absurd h (by simp)
            · rename_i d rest2 h2
              rw [h2] at hws2
              simp only [List.length_cons] at hws2
              split at h
              · simp only [Option.some.injEq, Prod.mk.injEq] at h
                rw [← h.2]; omega
              · have := ihI _ _ _ _ h
                simp only [List.length_cons] at this; omega
          · split at h
            · simp only [Option.map_eq_some'] at h
              obtain ⟨a, ha, hb⟩ := h
              obtain ⟨a1, a2⟩ := a
              simp only [Prod.mk.injEq] at hb
              have := parseString_length ha
              rw [← hb.2]; omega
            · split at h
              · split at h
                · simp only [Option.some.injEq, Prod.mk.injEq] at h
                  rw [← h.2]; simp only [List.length_drop]; omega
                · exact absurd h (by simp)
              · split at h
                · split at h
                  · simp only [Option.some.injEq, Prod.mk.injEq] at h
                    rw [← h.2]; simp only [List.length_drop]; omega
                  · exact absurd h (by simp)
                · split at h
                  · split at h
                    · simp only [Option.some.injEq, Prod.mk.injEq] at h
                      rw [← h.2]; simp only [List.length_drop]; omega
                    · exact absurd h (by simp)
                  · simp only [Option.map_eq_some'] at h
                    obtain ⟨a, ha, hb⟩ := h
                    obtain ⟨a1, a2⟩ := a
                    simp only [Prod.mk.injEq] at hb
                    have := lexNumber_length ha
                    rw [← hb.2]
                    simp only [List.length_cons] at this ⊢; omega
    · intro s acc v r h
      rw [parseMembers] at h
      have hws := skipWs_length_le s
      split at h
      · exact absurd h (by simp)
      · rename_i q rest h1
        rw [h1] at hws
        simp only [List.length_cons] at hws
        split at h
        · split at h
          · exact absurd h (by simp)
          · rename_i k rest1 hk
            have hk2 := parseString_length hk
            have hws2 := skipWs_length_le rest1
            split at h
            · exact absurd h (by simp)
            · rename_i colon rest2 h2
              rw [h2] at hws2
              simp only [List.length_cons] at hws2
              split at h
              · split at h
                · exact absurd h (by simp)
                · rename_i v1 rest3 hv
                  have hv2 := ihV _ _ _ hv
                  have hws3 := skipWs_length_le rest3
                  split at h
                  · exact absurd h (by simp)
                  · rename_i sep rest4 h3
                    rw [h3] at hws3
                    simp only [List.length_cons] at hws3
                    split at h
                    · have := ihM _ _ _ _ h
                      omega
                    · split at h
                      · simp only [Option.some.injEq, Prod.mk.injEq] at h
                        rw [← h.2]; omega
                      · exact absurd h (by simp)
              · exact absurd h (by simp)
        · exact absurd h (by simp)
    · intro s acc v r h
      rw [parseItems] at h
      split at h
      · exact absurd h (by simp)
      · rename_i v1 rest hv
        have hv2 := ihV _ _ _ hv
        have hws := skipWs_length_le rest
        split at h
        · exact absurd h (by simp)
        · rename_i sep rest2 h2
          rw [h2] at hws
          simp only [List.length_cons] at hws
          split at h
          · have := ihI _ _ _ _ h
            omega
          · split at h
            · simp only [Option.some.injEq, Prod.mk.injEq] at h
              rw [← h.2]; omega
            · exact absurd h (by simp)

/-- A value that the parser reads with some fuel is read with every fuel that
is at least the number of characters read. -/
theorem parse_fuel_of_some {ν : Type} [JSNumber ν] (fuel : Nat) :
    (∀ (s : List Char) (v : JSValue ν) (r : List Char),
        parseValue fuel s = some (v, r) →
        ∀ f, s.length ≤ f + r.length → parseValue f s = some (v, r)) ∧
      (∀ (s : List Char) (acc : Props ν) (v : JSValue ν) (r : List Char),
        parseMembers fuel s acc = some (v, r) →
        ∀ f, s.length ≤ f + r.length → parseMembers f s acc = some (v, r)) ∧
      (∀ (s : List Char) (acc : List (JSValue ν)) (v : JSValue ν) (r : List Char),
        parseItems fuel s acc = some (v, r) →
        ∀ f, s.length ≤ f + r.length → parseItems f s acc = some (v, r)) := by
  induction fuel with
  | zero =>
    refine ⟨?_, ?_, ?_⟩
    · intro s v r h; simp [parseValue] at h
    · intro s acc v r h; simp [parseMembers] at h
    · intro s acc v r h; simp [parseItems] at h
  | succ F ih =>
    obtain ⟨ihV, ihM, ihI⟩ := ih
    refine ⟨?_, ?_, ?_⟩
    · intro s v r h f hf
      have hlen := (parse_length (F + 1)).1 _ _ _ h
      obtain ⟨f, rfl⟩ : ∃ g, f = g + 1 := ⟨f - 1, by omega⟩
      rw [parseValue] at h ⊢
      have hws := skipWs_length_le s
      cases h1 : skipWs s with
      | nil => rw [h1] at h; exact absurd h (by simp)
      | cons c rest =>
        rw [h1] at h hws
        simp only [List.length_cons] at hws
        simp only at h ⊢
        have hws2 := skipWs_length_le rest
        cases h2 : skipWs rest with
        | nil => rw [h2] at h; simpa using h
        | cons d rest2 =>
          rw [h2] at h hws2
          simp only [List.length_cons] at hws2
          simp only at h ⊢
          by_cases hc : c = Char.ofNat 123
          · simp only [hc, if_true] at h ⊢
            by_cases hd : d = Char.ofNat 125
            · simp only [hd, if_true] at h ⊢
              exact h
            · simp only [hd, if_false] at h ⊢
              exact ihM _ _ _ _ h f (by simp only [List.length_cons]; omega)
          · simp only [hc, if_false] at h ⊢
            by_cases hb : c = '['
            · simp only [hb, if_true] at h ⊢
              by_cases hd : d = ']'
              · simp only [hd, if_true] at h ⊢
                exact h
              · simp only [hd, if_false] at h ⊢
                exact ihI _ _ _ _ h f (by simp only [List.length_cons]; omega)
            · simp only [hb, if_false] at h ⊢
              exact h
    · intro s acc v r h f hf
      have hlen := (parse_length (F + 1)).2.1 _ _ _ _ h
      obtain ⟨f, rfl⟩ : ∃ g, f = g + 1 := ⟨f - 1, by omega⟩
      rw [parseMembers] at h ⊢
      have hws := skipWs_length_le s
      cases h1 : skipWs s with
      | nil => rw [h1] at h; exact absurd h (by simp)
      | cons q rest =>
        rw [h1] at h hws
        simp only [List.length_cons] at hws
        simp only at h ⊢
        by_cases hq : q = '"'
        · simp only [hq, if_true] at h ⊢
          cases hk : parseString rest with
          | none => rw [hk] at h; exact absurd h (by simp)
          | some p =>
            obtain ⟨k, rest1⟩ := p
            rw [hk] at h
            have hk2 := parseString_length hk
            have hws2 := skipWs_length_le rest1
            simp only at h ⊢
            cases h2 : skipWs rest1 with
            | nil => rw [h2] at h; exact absurd h (by simp)
            | cons colon rest2 =>
              rw [h2] at h hws2
              simp only [List.length_cons] at hws2
              simp only at h ⊢
              by_cases hcol : colon = ':'
              · simp only [hcol, if_true] at h ⊢
                cases hv : (parseValue F rest2 : Option (JSValue ν × List Char)) with
                | none => rw [hv] at h; exact absurd h (by simp)
                | some p2 =>
                  obtain ⟨v1, rest3⟩ := p2
                  rw [hv] at h
                  have hv2 := (parse_length F).1 _ _ _ hv
                  have hws3 := skipWs_length_le rest3
                  simp only at h
                  cases h3 : skipWs rest3 with
                  | nil => rw [h3] at h; exact absurd h (by simp)
                  | cons sep rest4 =>
                    rw [h3] at h hws3
                    simp only [List.length_cons] at hws3
                    simp only at h
                    by_cases hsep : sep = ','
                    · simp only [hsep, if_true] at h
                      have hlen4 := (parse_length F).2.1 _ _ _ _ h
                      rw [ihV _ _ _ hv f (by omega)]
                      simp only [h3, hsep, if_true]
                      exact ihM _ _ _ _ h f (by omega)
                    · simp only [hsep, if_false] at h
                      by_cases hcl : sep = Char.ofNat 125
                      · simp only [hcl, if_true, Option.some.injEq, Prod.mk.injEq] at h
                        have hr : rest4.length = r.length := by rw [h.2]
                        have hne : (Char.ofNat 125 = ',') = False := by decide
                        rw [ihV _ _ _ hv f (by omega)]
                        simp only [h3, hcl, hne, if_false, if_true, Option.some.injEq,
                          Prod.mk.injEq]
                        exact h
                      · simp only [hcl, if_false] at h
                        exact absurd h (by simp)
              · simp only [hcol, if_false] at h
                exact absurd h (by simp)
        · simp only [hq, if_false] at h
          exact absurd h (by simp)
    · intro s acc v r h f hf
      have hlen := (parse_length (F + 1)).2.2 _ _ _ _ h
      obtain ⟨f, rfl⟩ : ∃ g, f = g + 1 := ⟨f - 1, by omega⟩
      rw [parseItems] at h ⊢
      cases hv : (parseValue F s : Option (JSValue ν × List Char)) with
      | none => rw [hv] at h; exact absurd h (by simp)
      | some p2 =>
        obtain ⟨v1, rest⟩ := p2
        rw [hv] at h
        have hv2 := (parse_length F).1 _ _ _ hv
        have hws := skipWs_length_le rest
        simp only at h
        cases h3 : skipWs rest with
        | nil => rw [h3] at h; exact absurd h (by simp)
        | cons sep rest2 =>
          rw [h3] at h hws
          simp only [List.length_cons] at hws
          simp only at h
          by_cases hsep : sep = ','
          · simp only [hsep, if_true] at h
            have hlen4 := (parse_length F).2.2 _ _ _ _ h
            rw [ihV _ _ _ hv f (by omega)]
            simp only [h3, hsep, if_true]
            exact ihI _ _ _ _ h f (by omega)
          · simp only [hsep, if_false] at h
            by_cases hcl : sep = ']'
            · simp only [hcl, if_true, Option.some.injEq, Prod.mk.injEq] at h
              have hr : rest2.length = r.length := by rw [h.2]
              have hne : (']' = ',') = False := by decide
              rw [ihV _ _ _ hv f (by omega)]
              simp only [h3, hcl, hne, if_false, if_true, Option.some.injEq, Prod.mk.injEq]
              exact h
            · simp only [hcl, if_false] at h
              exact absurd h (by simp)

/-- The fuel that `JSON.parse` supplies is enough: every larger fuel gives
the same outcome, so no text is refused for want of fuel. -/
theorem parseValue_fuel {ν : Type} [JSNumber ν] (s : List Char) (fuel : Nat)
    (h : s.length + 1 ≤ fuel) :
    (parseValue fuel s : Option (JSValue ν × List Char)) = parseValue (s.length + 1) s := by
  cases h1 : (parseValue (s.length + 1) s : Option (JSValue ν × List Char)) with
  | some p =>
    obtain ⟨v, r⟩ := p
    exact (parse_fuel_of_some _).1 _ _ _ h1 fuel (by omega)
  | none =>
    cases h2 : (parseValue fuel s : Option (JSValue ν × List Char)) with
    | none => rfl
    | some p =>
      obtain ⟨v, r⟩ := p
      have := (parse_fuel_of_some _).1 _ _ _ h2 (s.length + 1) (by omega)
      rw [this] at h1
      exact absurd h1 (by simp)

/-! ## Lemmas: repeated records -/

theorem turn_table_of_some {ν : Type} [JSNumber ν] (inp out : ν) (src tgt : String)
    (w : Working ν) (r : OptionRecord) (key : String) (table : JSValue ν)
    (hratio : key = "ModelRatio" ∨ key = "CompletionRatio") (hkey : r.key = key)
    (h : tryRecord (ratioFor key inp out) src tgt r = some table) :
    (turn inp out src tgt w r).table key = table := by
  unfold tryRecord at h
  rcases hratio with rfl | rfl
  · have hne : r.key ≠ "CompletionRatio" := by rw [hkey]; decide
    have hne2 : ¬ ("ModelRatio" = "CompletionRatio") := by decide
    simp only [ratioFor, if_neg hne2] at h
    simp only [turn, if_neg hne, if_pos hkey, Working.table, if_neg hne2]
    cases hp : (JSON.parse r.value : Except String (JSValue ν)) with
    | error e => rw [hp] at h; exact Option.noConfusion h
    | ok parsed =>
      rw [hp] at h
      simp only at h ⊢
      cases hs : setBoth parsed src tgt (JSNumber.div inp (JSNumber.literal "2.5".data)) with
      | error e => rw [hs] at h; exact Option.noConfusion h
      | ok p =>
        rw [hs] at h
        simp only [Option.some.injEq] at h
        simpa using h
  · simp only [ratioFor, ↓reduceIte] at h
    simp only [turn, if_pos hkey, Working.table, ↓reduceIte]
    cases hp : (JSON.parse r.value : Except String (JSValue ν)) with
    | error e => rw [hp] at h; exact Option.noConfusion h
    | ok parsed =>
      rw [hp] at h
      simp only at h ⊢
      cases hs : setBoth parsed src tgt (JSNumber.div out inp) with
      | error e => rw [hs] at h; exact Option.noConfusion h
      | ok p =>
        rw [hs] at h
        simp only [Option.some.injEq] at h
        simpa using h

theorem turn_table_of_none {ν : Type} [JSNumber ν] (inp out : ν) (src tgt : String)
    (w : Working ν) (r : OptionRecord) (key : String)
    (hratio : key = "ModelRatio" ∨ key = "CompletionRatio")
    (h : r.key = key → tryRecord (ratioFor key inp out) src tgt r = (none : Option (JSValue ν))) :
    (turn inp out src tgt w r).table key = w.table key := by
  by_cases hkey : r.key = key
  · have h1 := h hkey
    unfold tryRecord at h1
    rcases hratio with rfl | rfl
    · have hne : r.key ≠ "CompletionRatio" := by rw [hkey]; decide
      have hne2 : ¬ ("ModelRatio" = "CompletionRatio") := by decide
      simp only [ratioFor, if_neg hne2] at h1
      simp only [turn, if_neg hne, if_pos hkey, Working.table, if_neg hne2]
      cases hp : (JSON.parse r.value : Except String (JSValue ν)) with
      | error e => rfl
      | ok parsed =>
        rw [hp] at h1
        simp only at h1 ⊢
        cases hs : setBoth parsed src tgt (JSNumber.div inp (JSNumber.literal "2.5".data)) with
        | error e => rfl
        | ok p => rw [hs] at h1; exact Option.noConfusion h1
    · simp only [ratioFor, ↓reduceIte] at h1
      simp only [turn, if_pos hkey, Working.table, ↓reduceIte]
      cases hp : (JSON.parse r.value : Except String (JSValue ν)) with
      | error e => rfl
      | ok parsed =>
        rw [hp] at h1
        simp only at h1 ⊢
        cases hs : setBoth parsed src tgt (JSNumber.div out inp) with
        | error e => rfl
        | ok p => rw [hs] at h1; exact Option.noConfusion h1
  · rcases hratio with rfl | rfl
    · have hne2 : ¬ ("ModelRatio" = "CompletionRatio") := by decide
      simp only [Working.table, if_neg hne2]
      exact turn_modelRatio_of_ne _ _ _ _ _ _ hkey
    · simp only [Working.table, ↓reduceIte]
      exact turn_completionRatio_of_ne _ _ _ _ _ _ hkey

theorem foldl_turn_table_of_none {ν : Type} [JSNumber ν] (inp out : ν) (src tgt : String)
    (data : List OptionRecord) (key : String)
    (hratio : key = "ModelRatio" ∨ key = "CompletionRatio")
    (h : ∀ x ∈ data, x.key = key →
      tryRecord (ratioFor key inp out) src tgt x = (none : Option (JSValue ν)))
    (w : Working ν) :
    (data.foldl (turn inp out src tgt) w).table key = w.table key := by
  induction data generalizing w with
  | nil => rfl
  | cons r rs ih =>
    rw [List.foldl_cons, ih (fun x hx => h x (List.mem_cons_of_mem _ hx)),
      turn_table_of_none _ _ _ _ _ _ _ hratio (h r (List.mem_cons_self _ _))]

/-- The table of a ratio key after the scan: the one of the last record with
that key whose try block completes. -/
theorem foldl_turn_table_last {ν : Type} [JSNumber ν] (inp out : ν) (src tgt : String)
    (pre post : List OptionRecord) (r : OptionRecord) (key : String) (table : JSValue ν)
    (hratio : key = "ModelRatio" ∨ key = "CompletionRatio") (hkey : r.key = key)
    (htable : tryRecord (ratioFor key inp out) src tgt r = some table)
    (hlater : ∀ x ∈ post, x.key = key →
      tryRecord (ratioFor key inp out) src tgt x = (none : Option (JSValue ν)))
    (w : Working ν) :
    ((pre ++ r :: post).foldl (turn inp out src tgt) w).table key = table := by
  rw [List.foldl_append, List.foldl_cons, foldl_turn_table_of_none _ _ _ _ _ _ hratio hlater,
    turn_table_of_some _ _ _ _ _ _ _ _ hratio hkey htable]

/-- Every result that updateModelPriceRate returns holds the two working
variables of the scan. -/
theorem Node.updateModelPriceRate_result {ν : Type} [JSNumber ν] (gw : Gateway)
    (trace : List Request) (tok : String) (inp out : ν) (src tgt : String)
    (items : List (JSValue ν)) (w : Working ν) (hserve : ServesOptions gw trace tok items)
    (hscan : Node.scan inp out src tgt items ⟨.null, .null⟩ = .ok w) (result : RatioResult ν)
    (h : (Node.updateModelPriceRate gw trace tok inp out src tgt).1 = .ok result) :
    result = ⟨w.completionRatio, w.modelRatio⟩ := by
  unfold Node.updateModelPriceRate at h
  rw [Node.updateModelPriceRate_body_of_scan gw trace tok inp out src tgt items w hserve hscan]
    at h
  split at h
  · exact Except.noConfusion h
  · rename_i heq
    simp only [Except.ok.injEq] at h
    subst h
    split at heq
    · exact Except.noConfusion (congrArg Prod.fst heq)
    · split at heq
      · exact Except.noConfusion (congrArg Prod.fst heq)
      · simp only [Prod.mk.injEq, Except.ok.injEq] at heq
        exact heq.1.symm

theorem servesOptions_stale (trace : List Request) (tok : String) (status : Nat)
    (body : String) :
    ServesOptions (optionsGateway staleOptions status body) trace tok
      (staleRecords.map (fun r => (r.toJS : JSValue Binary64))) := by
  refine ⟨200, staleOptions,
    .obj [("data", .arr (staleRecords.map (fun r => (r.toJS : JSValue Binary64))) [])],
    [], ?_, by decide, ?_, ?_⟩
  · simp [optionsGateway, getRequest]
  · rfl
  · rfl

set_option maxRecDepth 8000 in
theorem servesOptions_mixed (trace : List Request) (tok : String) (status : Nat)
    (body : String) :
    ServesOptions (optionsGateway mixedOptions status body) trace tok
      (mixedRecords.map (fun r => (r.toJS : JSValue Binary64))) := by
  refine ⟨200, mixedOptions,
    .obj [("data", .arr (mixedRecords.map (fun r => (r.toJS : JSValue Binary64))) [])],
    [], ?_, by decide, ?_, ?_⟩
  · simp [optionsGateway, getRequest]
  · rfl
  · rfl

/-! ## Theorems: repeated records -/

/-- C11 (counterexample): in the options list ModelRatio `{"a":1}`, ModelRatio
`oops` the key ModelRatio appears in two records and the last of them is
`oops`, from which no table is obtained (it is not valid JSON, its try block
throws, and served alone it leaves both working variables null); yet with
every PUT accepted
updateModelPriceRate returns, and both files push, the table obtained from the
first record. -/
theorem last_occurrence_wins_counterexample :
    staleRecords = [⟨"ModelRatio", "\x7b\"a\":1\x7d"⟩] ++ ⟨"ModelRatio", "oops"⟩ :: [] ∧
      escapesSurrogate "oops".data = false ∧
      (tryRecord (ratioFor "ModelRatio" (lit "1.0") (lit "2.0")) "gpt-x" "proxy-gpt-x"
          ⟨"ModelRatio", "oops"⟩ : Option (JSValue Binary64)) = none ∧
      Node.scan (lit "1.0") (lit "2.0") "gpt-x" "proxy-gpt-x"
          [(OptionRecord.toJS ⟨"ModelRatio", "oops"⟩ : JSValue Binary64)] ⟨.null, .null⟩
        = .ok ⟨.null, .null⟩ ∧
      (tryRecord (ratioFor "ModelRatio" (lit "1.0") (lit "2.0")) "gpt-x" "proxy-gpt-x"
          ⟨"ModelRatio", "\x7b\"a\":1\x7d"⟩ : Option (JSValue Binary64))
        = some (.obj [("a", .num (lit "1")), ("gpt-x", .num (lit "0.4")),
            ("proxy-gpt-x", .num (lit "0.4"))]) ∧
      ServesOptions (optionsGateway staleOptions 200 "") [] "sys"
        (staleRecords.map (fun r => (r.toJS : JSValue Binary64))) ∧
      AcceptsPuts (optionsGateway staleOptions 200 "") ∧
      Node.updateModelPriceRate (optionsGateway staleOptions 200 "") [] "sys" (lit "1.0")
          (lit "2.0") "gpt-x" "proxy-gpt-x"
        = (.ok ⟨.null, .obj [("a", .num (lit "1")), ("gpt-x", .num (lit "0.4")),
              ("proxy-gpt-x", .num (lit "0.4"))]⟩,
            [getRequest "sys",
              Node.putRequest "sys" "ModelRatio"
                (.obj [("a", .num (lit "1")), ("gpt-x", .num (lit "0.4")),
                  ("proxy-gpt-x", .num (lit "0.4"))] : JSValue Binary64)]) ∧
      App.updatePrice (optionsGateway staleOptions 200 "") [] "sys" (lit "1.0")
          (lit "2.0") "gpt-x" "proxy-gpt-x"
        = (.ok (),
            [getRequest "sys",
              App.putRequest "sys" "ModelRatio"
                (.obj [("a", .num (lit "1")), ("gpt-x", .num (lit "0.4")),
                  ("proxy-gpt-x", .num (lit "0.4"))] : JSValue Binary64)]) :=
  ⟨rfl, by decide, rfl, rfl, rfl, servesOptions_stale [] "sys" 200 "",
    acceptsPuts_optionsGateway _ _ _ (by decide), rfl, rfl⟩

/-- C11 (amended): for a ratio key (`ModelRatio` or `CompletionRatio`), when
`table` is obtained from a record with that key (its value decodes and takes
the two model entries) and every later record with that key is skipped (its
try block throws, on a value that holds no escape of a surrogate), the working
variable of the key holds `table` at the end of the scan of both files,
whatever the records before it; every result that updateModelPriceRate
returns holds it; and when every PUT is accepted updateModelPriceRate does
return it, and both files push it in the PUT of that key if it is truthy. -/
theorem last_decoded_record_wins (ν : Type) [JSNumber ν] (gw : Gateway) (trace : List Request)
    (systemToken : String) (inputPrice outputPrice : ν) (sourceModel targetModel : String)
    (items : List (JSValue ν)) (pre post : List OptionRecord) (r : OptionRecord)
    (key : String) (table : JSValue ν)
    (hserve : ServesOptions gw trace systemToken items)
    (hrecords : List.Forall₂ IsRecord items (pre ++ r :: post))
    (hratio : key = "ModelRatio" ∨ key = "CompletionRatio") (hkey : r.key = key)
    (htable : tryRecord (ratioFor key inputPrice outputPrice) sourceModel targetModel r
      = some table)
    (hlater : ∀ x ∈ post, x.key = key →
      escapesSurrogate x.value.data = false ∧
        tryRecord (ratioFor key inputPrice outputPrice) sourceModel targetModel x
          = (none : Option (JSValue ν))) :
    ∃ w : Working ν,
      w.table key = table ∧
        Node.scan inputPrice outputPrice sourceModel targetModel items ⟨.null, .null⟩ = .ok w ∧
        App.scan inputPrice outputPrice sourceModel targetModel items ⟨.null, .null⟩ = .ok w ∧
        (∀ result, (Node.updateModelPriceRate gw trace systemToken inputPrice outputPrice
            sourceModel targetModel).1 = .ok result →
          result = ⟨w.completionRatio, w.modelRatio⟩) ∧
        (AcceptsPuts gw →
          (Node.updateModelPriceRate gw trace systemToken inputPrice outputPrice sourceModel
              targetModel).1 = .ok ⟨w.completionRatio, w.modelRatio⟩ ∧
            (toBoolean table = true →
              Node.putRequest systemToken key table
                  ∈ (Node.updateModelPriceRate gw trace systemToken inputPrice outputPrice
                      sourceModel targetModel).2 ∧
                App.putRequest systemToken key table
                  ∈ (App.updatePrice gw trace systemToken inputPrice outputPrice sourceModel
                      targetModel).2)) := by
  have hN := Node.scan_records inputPrice outputPrice sourceModel targetModel items _ hrecords
    ⟨.null, .null⟩
  have hA := App.browser_scan_records inputPrice outputPrice sourceModel targetModel items _
    hrecords ⟨.null, .null⟩
  have ht := foldl_turn_table_last inputPrice outputPrice sourceModel targetModel pre post r key
    table hratio hkey htable (fun x hx hk => (hlater x hx hk).2) ⟨.null, .null⟩
  generalize (pre ++ r :: post).foldl (turn inputPrice outputPrice sourceModel targetModel)
    ⟨.null, .null⟩ = w at hN hA ht
  refine ⟨w, ht, hN, hA, ?_, ?_⟩
  · exact Node.updateModelPriceRate_result gw trace systemToken inputPrice outputPrice
      sourceModel targetModel items w hserve hN
  · intro hput
    rw [Node.updateModelPriceRate_accepted gw trace systemToken inputPrice outputPrice
        sourceModel targetModel items w hserve hN hput,
      App.updatePrice_accepted gw trace systemToken inputPrice outputPrice
        sourceModel targetModel items w hserve hA hput]
    refine ⟨rfl, ?_⟩
    intro htruthy
    rcases hratio with rfl | rfl
    · have hne2 : ¬ ("ModelRatio" = "CompletionRatio") := by decide
      simp only [Working.table, if_neg hne2] at ht
      subst ht
      simp [htruthy]
    · simp only [Working.table, ↓reduceIte] at ht
      subst ht
      simp [htruthy]

theorem last_decoded_record_wins_witness :
    ∃ w : Working Binary64,
      w.table "ModelRatio" = .obj [("b", .num (lit "2")), ("gpt-x", .num (lit "0.4")),
          ("proxy-gpt-x", .num (lit "0.4"))] ∧
        (Node.updateModelPriceRate (optionsGateway mixedOptions 200 "") [] "sys" (lit "1.0")
          (lit "2.0") "gpt-x" "proxy-gpt-x").1 = .ok ⟨w.completionRatio, w.modelRatio⟩ ∧
        Node.putRequest "sys" "ModelRatio"
            (.obj [("b", .num (lit "2")), ("gpt-x", .num (lit "0.4")),
              ("proxy-gpt-x", .num (lit "0.4"))] : JSValue Binary64)
          ∈ (Node.updateModelPriceRate (optionsGateway mixedOptions 200 "") [] "sys"
              (lit "1.0") (lit "2.0") "gpt-x" "proxy-gpt-x").2 := by
  obtain ⟨w, h1, -, -, -, h5⟩ :=
    last_decoded_record_wins Binary64 (optionsGateway mixedOptions 200 "") [] "sys"
      (lit "1.0") (lit "2.0") "gpt-x" "proxy-gpt-x" (mixedRecords.map (fun r => r.toJS))
      [⟨"ModelRatio", "\x7b\"a\":1\x7d"⟩] [⟨"ModelRatio", "oops"⟩]
      ⟨"ModelRatio", "\x7b\"b\":2\x7d"⟩ "ModelRatio"
      (.obj [("b", .num (lit "2")), ("gpt-x", .num (lit "0.4")),
        ("proxy-gpt-x", .num (lit "0.4"))])
      (servesOptions_mixed [] "sys" 200 "") (forall₂_isRecord_toJS mixedRecords)
      (Or.inl rfl) rfl rfl (by
        intro x hx _
        simp only [List.mem_singleton] at hx
        subst hx
        exact ⟨by decide, rfl⟩)
  obtain ⟨h6, h7⟩ := h5 (acceptsPuts_optionsGateway _ _ _ (by decide))
  exact ⟨w, h1, h6, (h7 rfl).1⟩

/-! ## Lemmas: the order and the number of the requests -/

theorem Node.pushTable_truthy_trace {ν : Type} [JSNumber ν] (gw : Gateway)
    (trace : List Request) (tok key : String) (table : JSValue ν)
    (h : toBoolean table = true) :
    (Node.pushTable gw trace tok key table).2 = trace ++ [Node.putRequest tok key table] := by
  simp only [Node.pushTable, h, if_true]
  split
  · rfl
  · split <;> rfl

theorem Node.pushTable_trace {ν : Type} [JSNumber ν] (gw : Gateway) (trace : List Request)
    (tok key : String) (table : JSValue ν) :
    (Node.pushTable gw trace tok key table).2 = trace ∨
      (Node.pushTable gw trace tok key table).2 = trace ++ [Node.putRequest tok key table] := by
  by_cases h : toBoolean table = true
  · exact Or.inr (Node.pushTable_truthy_trace gw trace tok key table h)
  · have h2 : toBoolean table = false := by simpa using h
    rw [Node.pushTable_falsy gw trace tok key table h2]
    exact Or.inl rfl

theorem App.updateOption_trace {ν : Type} [JSNumber ν] (gw : Gateway) (trace : List Request)
    (tok key : String) (table : JSValue ν) :
    (App.updateOption gw trace tok key table).2 = trace ++ [App.putRequest tok key table] := by
  simp only [App.updateOption]
  split
  · rfl
  · split <;> rfl

/-- The two pushes of add_channel.js make at most two requests, all PUT. -/
theorem Node.pushes_requests {ν : Type} [JSNumber ν] (gw : Gateway) (t1 : List Request)
    (tok : String) (w : Working ν) :
    ∃ puts : List Request,
      (match Node.pushTable gw t1 tok "ModelRatio" w.modelRatio with
        | (.error e, t2) => ((.error e : Except String (RatioResult ν)), t2)
        | (.ok _, t2) =>
          match Node.pushTable gw t2 tok "CompletionRatio" w.completionRatio with
          | (.error e, t3) => (.error e, t3)
          | (.ok _, t3) =>
            (.ok { completion_ratio := w.completionRatio, model_ratio := w.modelRatio },
              t3)).2 = t1 ++ puts ∧
        puts.length ≤ 2 ∧ ∀ r ∈ puts, r.method = "PUT" := by
  have h1 := Node.pushTable_trace gw t1 tok "ModelRatio" w.modelRatio
  rcases hp1 : Node.pushTable gw t1 tok "ModelRatio" w.modelRatio with ⟨r1, t2⟩
  rw [hp1] at h1
  simp only at h1
  have hfirst : ∃ p1 : List Request, t2 = t1 ++ p1 ∧ p1.length ≤ 1 ∧
      ∀ r ∈ p1, r.method = "PUT" := by
    rcases h1 with h | h
    · exact ⟨[], by simp [h], by simp, by simp⟩
    · exact ⟨[Node.putRequest tok "ModelRatio" w.modelRatio], h, by simp, by
        intro r hr
        simp only [List.mem_singleton] at hr
        subst hr
        rfl⟩
  obtain ⟨p1, ht2, hl1, hm1⟩ := hfirst
  cases r1 with
  | error e => exact ⟨p1, ht2, by omega, hm1⟩
  | ok u =>
    simp only
    have h2 := Node.pushTable_trace gw t2 tok "CompletionRatio" w.completionRatio
    rcases hp2 : Node.pushTable gw t2 tok "CompletionRatio" w.completionRatio with ⟨r2, t3⟩
    rw [hp2] at h2
    simp only at h2
    have hsecond : ∃ p2 : List Request, t3 = t2 ++ p2 ∧ p2.length ≤ 1 ∧
        ∀ r ∈ p2, r.method = "PUT" := by
      rcases h2 with h | h
      · exact ⟨[], by simp [h], by simp, by simp⟩
      · exact ⟨[Node.putRequest tok "CompletionRatio" w.completionRatio], h, by simp, by
          intro r hr
          simp only [List.mem_singleton] at hr
          subst hr
          rfl⟩
    obtain ⟨p2, ht3, hl2, hm2⟩ := hsecond
    have hall : t3 = t1 ++ (p1 ++ p2) := by rw [ht3, ht2, List.append_assoc]
    have hmem : ∀ r ∈ p1 ++ p2, r.method = "PUT" := by
      intro r hr
      rcases List.mem_append.1 hr with h | h
      · exact hm1 r h
      · exact hm2 r h
    cases r2 with
    | error e => exact ⟨p1 ++ p2, hall, by simp; omega, hmem⟩
    | ok u2 => exact ⟨p1 ++ p2, hall, by simp; omega, hmem⟩

/-- Every run of updateModelPriceRate makes the GET and then at most two
requests, all PUT. -/
theorem Node.updateModelPriceRate_requests {ν : Type} [JSNumber ν] (gw : Gateway)
    (trace : List Request) (tok : String) (inp out : ν) (src tgt : String) :
    ∃ puts : List Request,
      (Node.updateModelPriceRate gw trace tok inp out src tgt).2
          = trace ++ getRequest tok :: puts ∧
        puts.length ≤ 2 ∧ ∀ r ∈ puts, r.method = "PUT" := by
  have hbody : ∃ puts : List Request,
      (Node.updateModelPriceRate.body gw trace tok inp out src tgt).2
          = trace ++ getRequest tok :: puts ∧
        puts.length ≤ 2 ∧ ∀ r ∈ puts, r.method = "PUT" := by
    unfold Node.updateModelPriceRate.body
    dsimp only
    split
    · exact ⟨[], by simp, by simp, by simp⟩
    · split
      · exact ⟨[], by simp, by simp, by simp⟩
      · split
        · exact ⟨[], by simp, by simp, by simp⟩
        · split
          · exact ⟨[], by simp, by simp, by simp⟩
          · split
            · exact ⟨[], by simp, by simp, by simp⟩
            · split
              · exact ⟨[], by simp, by simp, by simp⟩
              · split
                · exact ⟨[], by simp, by simp, by simp⟩
                · rename_i w hw
                  obtain ⟨puts, h1, h2, h3⟩ :=
                    Node.pushes_requests gw (trace ++ [getRequest tok]) tok w
                  exact ⟨puts, h1.trans (by simp), h2, h3⟩
  obtain ⟨puts, h1, h2, h3⟩ := hbody
  refine ⟨puts, ?_, h2, h3⟩
  rw [← h1]
  unfold Node.updateModelPriceRate
  split
  · rename_i heq; rw [heq]
  · rename_i heq; rw [heq]

/-- Every run of updatePrice makes the GET and then at most two requests, all
PUT. -/
theorem App.updatePrice_requests {ν : Type} [JSNumber ν] (gw : Gateway)
    (trace : List Request) (tok : String) (inp out : ν) (src tgt : String) :
    ∃ puts : List Request,
      (App.updatePrice gw trace tok inp out src tgt).2 = trace ++ getRequest tok :: puts ∧
        puts.length ≤ 2 ∧ ∀ r ∈ puts, r.method = "PUT" := by
  unfold App.updatePrice
  dsimp only
  split
  · exact ⟨[], by simp, by simp, by simp⟩
  · split
    · exact ⟨[], by simp, by simp, by simp⟩
    · split
      · exact ⟨[], by simp, by simp, by simp⟩
      · split
        · exact ⟨[], by simp, by simp, by simp⟩
        · split
          · exact ⟨[], by simp, by simp, by simp⟩
          · split
            · exact ⟨[], by simp, by simp, by simp⟩
            · split
              · exact ⟨[], by simp, by simp, by simp⟩
              · rename_i w hw
                have hfirst : ∃ p1 : List Request,
                    (if toBoolean w.modelRatio then
                        App.updateOption gw (trace ++ [getRequest tok]) tok "ModelRatio"
                          w.modelRatio
                      else (.ok (), trace ++ [getRequest tok])).2
                      = trace ++ [getRequest tok] ++ p1 ∧ p1.length ≤ 1 ∧
                    ∀ r ∈ p1, r.method = "PUT" := by
                  split
                  · exact ⟨[App.putRequest tok "ModelRatio" w.modelRatio],
                      App.updateOption_trace _ _ _ _ _, by simp, by
                        intro r hr
                        simp only [List.mem_singleton] at hr
                        subst hr
                        rfl⟩
                  · exact ⟨[], by simp, by simp, by simp⟩
                obtain ⟨p1, ht2, hl1, hm1⟩ := hfirst
                split
                · rename_i e t2 heq
                  rw [heq] at ht2
                  exact ⟨p1, by simpa using ht2, by omega, hm1⟩
                · rename_i u t2 heq
                  rw [heq] at ht2
                  simp only at ht2
                  split
                  · refine ⟨p1 ++ [App.putRequest tok "CompletionRatio" w.completionRatio], ?_,
                      by simp; omega, ?_⟩
                    · rw [App.updateOption_trace, ht2]
                      simp
                    · intro r hr
                      rcases List.mem_append.1 hr with h | h
                      · exact hm1 r h
                      · simp only [List.mem_singleton] at h
                        subst h
                        rfl
                  · exact ⟨p1, by simpa using ht2, by omega, hm1⟩

/-! ## Theorems: the order of the requests -/

/-- C12: when the options list is served and the scan leaves both working
variables truthy (each holds a table), updateModelPriceRate and updatePrice
make, after the GET, the ModelRatio PUT first and the CompletionRatio PUT, a
different request, only after it; when the ModelRatio PUT is answered with a
status outside 200-299 the update fails and the ModelRatio PUT is its last
request, and when it is answered with a success status the CompletionRatio
PUT follows. Every run of either update, whatever the gateway, makes the GET
once, as its first request, and then at most two requests, all PUT. -/
theorem modelRatio_put_first (ν : Type) [JSNumber ν] (gw : Gateway) (trace : List Request)
    (systemToken : String) (inputPrice outputPrice : ν) (sourceModel targetModel : String)
    (items : List (JSValue ν)) (hserve : ServesOptions gw trace systemToken items) :
    (∀ w : Working ν,
      Node.scan inputPrice outputPrice sourceModel targetModel items ⟨.null, .null⟩ = .ok w →
      toBoolean w.modelRatio = true → toBoolean w.completionRatio = true →
      Node.putRequest systemToken "ModelRatio" w.modelRatio
          ≠ Node.putRequest systemToken "CompletionRatio" w.completionRatio ∧
        ((Node.updateModelPriceRate gw trace systemToken inputPrice outputPrice sourceModel
              targetModel).2
            = trace ++ [getRequest systemToken,
                Node.putRequest systemToken "ModelRatio" w.modelRatio] ∨
          (Node.updateModelPriceRate gw trace systemToken inputPrice outputPrice sourceModel
              targetModel).2
            = trace ++ [getRequest systemToken,
                Node.putRequest systemToken "ModelRatio" w.modelRatio,
                Node.putRequest systemToken "CompletionRatio" w.completionRatio]) ∧
        (∀ status body,
          gw (trace ++ [getRequest systemToken])
              (Node.putRequest systemToken "ModelRatio" w.modelRatio)
            = .response status body →
          responseOk status = false →
          (∃ msg, (Node.updateModelPriceRate gw trace systemToken inputPrice outputPrice
              sourceModel targetModel).1 = .error msg) ∧
            (Node.updateModelPriceRate gw trace systemToken inputPrice outputPrice sourceModel
                targetModel).2
              = trace ++ [getRequest systemToken,
                  Node.putRequest systemToken "ModelRatio" w.modelRatio]) ∧
        (∀ status body,
          gw (trace ++ [getRequest systemToken])
              (Node.putRequest systemToken "ModelRatio" w.modelRatio)
            = .response status body →
          responseOk status = true →
          (Node.updateModelPriceRate gw trace systemToken inputPrice outputPrice sourceModel
              targetModel).2
            = trace ++ [getRequest systemToken,
                Node.putRequest systemToken "ModelRatio" w.modelRatio,
                Node.putRequest systemToken "CompletionRatio" w.completionRatio])) ∧
    (∀ w : Working ν,
      App.scan inputPrice outputPrice sourceModel targetModel items ⟨.null, .null⟩ = .ok w →
      toBoolean w.modelRatio = true → toBoolean w.completionRatio = true →
      App.putRequest systemToken "ModelRatio" w.modelRatio
          ≠ App.putRequest systemToken "CompletionRatio" w.completionRatio ∧
        ((App.updatePrice gw trace systemToken inputPrice outputPrice sourceModel targetModel).2
            = trace ++ [getRequest systemToken,
                App.putRequest systemToken "ModelRatio" w.modelRatio] ∨
          (App.updatePrice gw trace systemToken inputPrice outputPrice sourceModel targetModel).2
            = trace ++ [getRequest systemToken,
                App.putRequest systemToken "ModelRatio" w.modelRatio,
                App.putRequest systemToken "CompletionRatio" w.completionRatio]) ∧
        (∀ status body,
          gw (trace ++ [getRequest systemToken])
              (App.putRequest systemToken "ModelRatio" w.modelRatio)
            = .response status body →
          responseOk status = false →
          (∃ msg, (App.updatePrice gw trace systemToken inputPrice outputPrice sourceModel
              targetModel).1 = .error msg) ∧
            (App.updatePrice gw trace systemToken inputPrice outputPrice sourceModel
                targetModel).2
              = trace ++ [getRequest systemToken,
                  App.putRequest systemToken "ModelRatio" w.modelRatio]) ∧
        (∀ status body,
          gw (trace ++ [getRequest systemToken])
              (App.putRequest systemToken "ModelRatio" w.modelRatio)
            = .response status body →
          responseOk status = true →
          (App.updatePrice gw trace systemToken inputPrice outputPrice sourceModel targetModel).2
            = trace ++ [getRequest systemToken,
                App.putRequest systemToken "ModelRatio" w.modelRatio,
                App.putRequest systemToken "CompletionRatio" w.completionRatio])) ∧
    (∀ (anyGateway : Gateway) (before : List Request), ∃ puts : List Request,
      (Node.updateModelPriceRate anyGateway before systemToken inputPrice outputPrice
          sourceModel targetModel).2 = before ++ getRequest systemToken :: puts ∧
        puts.length ≤ 2 ∧ ∀ r ∈ puts, r.method = "PUT") ∧
    (∀ (anyGateway : Gateway) (before : List Request), ∃ puts : List Request,
      (App.updatePrice anyGateway before systemToken inputPrice outputPrice sourceModel
          targetModel).2 = before ++ getRequest systemToken :: puts ∧
        puts.length ≤ 2 ∧ ∀ r ∈ puts, r.method = "PUT") := by
  refine ⟨?_, ?_, fun g b => Node.updateModelPriceRate_requests g b systemToken inputPrice
    outputPrice sourceModel targetModel, fun g b => App.updatePrice_requests g b systemToken
    inputPrice outputPrice sourceModel targetModel⟩
  · intro w hscan hm hc
    have hrun : Node.updateModelPriceRate gw trace systemToken inputPrice outputPrice
        sourceModel targetModel
        = match Node.updateModelPriceRate.body gw trace systemToken inputPrice outputPrice
            sourceModel targetModel with
          | (.error e, t) => (.error ("Failed to update model prices: " ++ e), t)
          | (.ok r, t) => (.ok r, t) := rfl
    rw [Node.updateModelPriceRate_body_of_scan gw trace systemToken inputPrice outputPrice
      sourceModel targetModel items w hserve hscan] at hrun
    have hsecond := Node.pushTable_truthy_trace gw
      (trace ++ [getRequest systemToken] ++ [Node.putRequest systemToken "ModelRatio"
        w.modelRatio]) systemToken "CompletionRatio" w.completionRatio hc
    have haccepted : ∀ status body,
        gw (trace ++ [getRequest systemToken])
            (Node.putRequest systemToken "ModelRatio" w.modelRatio)
          = .response status body →
        responseOk status = true →
        (Node.updateModelPriceRate gw trace systemToken inputPrice outputPrice sourceModel
            targetModel).2
          = trace ++ [getRequest systemToken,
              Node.putRequest systemToken "ModelRatio" w.modelRatio,
              Node.putRequest systemToken "CompletionRatio" w.completionRatio] := by
      intro status body hgw hok
      rw [hrun, Node.pushTable_response _ _ _ _ _ status body hm hgw]
      simp only [hok, if_true]
      rcases hp : Node.pushTable gw (trace ++ [getRequest systemToken]
        ++ [Node.putRequest systemToken "ModelRatio" w.modelRatio]) systemToken
        "CompletionRatio" w.completionRatio with ⟨r2, t3⟩
      rw [hp] at hsecond
      simp only at hsecond
      subst hsecond
      cases r2 <;> simp
    have hrefused : ∀ status body,
        gw (trace ++ [getRequest systemToken])
            (Node.putRequest systemToken "ModelRatio" w.modelRatio)
          = .response status body →
        responseOk status = false →
        (∃ msg, (Node.updateModelPriceRate gw trace systemToken inputPrice outputPrice
            sourceModel targetModel).1 = .error msg) ∧
          (Node.updateModelPriceRate gw trace systemToken inputPrice outputPrice sourceModel
              targetModel).2
            = trace ++ [getRequest systemToken,
                Node.putRequest systemToken "ModelRatio" w.modelRatio] := by
      intro status body hgw hok
      rw [hrun, Node.pushTable_response _ _ _ _ _ status body hm hgw]
      simp [hok]
    refine ⟨Node.putRequest_key_ne _ _ _ _, ?_, hrefused, haccepted⟩
    cases hgw : gw (trace ++ [getRequest systemToken])
        (Node.putRequest systemToken "ModelRatio" w.modelRatio) with
    | failure m =>
      left
      rw [hrun]
      simp [Node.pushTable, hm, hgw]
    | response status body =>
      by_cases hok : responseOk status = true
      · exact Or.inr (haccepted status body hgw hok)
      · have hok2 : responseOk status = false := by simpa using hok
        exact Or.inl (hrefused status body hgw hok2).2
  · intro w hscan hm hc
    have hrun := App.updatePrice_of_scan gw trace systemToken inputPrice outputPrice
      sourceModel targetModel items w hserve hscan
    simp only [hm, hc, if_true] at hrun
    have hput : (App.putRequest systemToken "ModelRatio" w.modelRatio : Request)
        = Node.putRequest systemToken "ModelRatio" w.modelRatio := rfl
    have hput2 : (App.putRequest systemToken "CompletionRatio" w.completionRatio : Request)
        = Node.putRequest systemToken "CompletionRatio" w.completionRatio := rfl
    have haccepted : ∀ status body,
        gw (trace ++ [getRequest systemToken])
            (App.putRequest systemToken "ModelRatio" w.modelRatio)
          = .response status body →
        responseOk status = true →
        (App.updatePrice gw trace systemToken inputPrice outputPrice sourceModel targetModel).2
          = trace ++ [getRequest systemToken,
              App.putRequest systemToken "ModelRatio" w.modelRatio,
              App.putRequest systemToken "CompletionRatio" w.completionRatio] := by
      intro status body hgw hok
      rw [hrun]
      simp only [App.updateOption, hgw, hok, if_true]
      split
      · simp
      · split <;> simp
    have hrefused : ∀ status body,
        gw (trace ++ [getRequest systemToken])
            (App.putRequest systemToken "ModelRatio" w.modelRatio)
          = .response status body →
        responseOk status = false →
        (∃ msg, (App.updatePrice gw trace systemToken inputPrice outputPrice sourceModel
            targetModel).1 = .error msg) ∧
          (App.updatePrice gw trace systemToken inputPrice outputPrice sourceModel
              targetModel).2
            = trace ++ [getRequest systemToken,
                App.putRequest systemToken "ModelRatio" w.modelRatio] := by
      intro status body hgw hok
      rw [hrun]
      simp [App.updateOption, hgw, hok]
    refine ⟨?_, ?_, hrefused, haccepted⟩
    · rw [hput, hput2]
      exact Node.putRequest_key_ne _ _ _ _
    · cases hgw : gw (trace ++ [getRequest systemToken])
          (App.putRequest systemToken "ModelRatio" w.modelRatio) with
      | failure m =>
        left
        rw [hrun]
        simp [App.updateOption, hgw]
      | response status body =>
        by_cases hok : responseOk status = true
        · exact Or.inr (haccepted status body hgw hok)
        · have hok2 : responseOk status = false := by simpa using hok
          exact Or.inl (hrefused status body hgw hok2).2

theorem modelRatio_put_first_witness :
    (∃ msg, (Node.updateModelPriceRate (optionsGateway sampleOptions 500 "boom") [] "sys"
        (lit "1.0") (lit "2.0") "gpt-x" "proxy-gpt-x").1 = .error msg) ∧
      (Node.updateModelPriceRate (optionsGateway sampleOptions 500 "boom") [] "sys"
          (lit "1.0") (lit "2.0") "gpt-x" "proxy-gpt-x").2
        = [getRequest "sys",
            Node.putRequest "sys" "ModelRatio"
              (.obj [("a", .num (lit "1")), ("gpt-x", .num (lit "0.4")),
                ("proxy-gpt-x", .num (lit "0.4"))] : JSValue Binary64)] := by
  have hscan : Node.scan (lit "1.0") (lit "2.0") "gpt-x" "proxy-gpt-x"
      (sampleRecords.map (fun r => (r.toJS : JSValue Binary64))) ⟨.null, .null⟩
      = .ok ⟨.obj [("a", .num (lit "3")), ("gpt-x", .num (lit "2.0")),
            ("proxy-gpt-x", .num (lit "2.0"))],
          .obj [("a", .num (lit "1")), ("gpt-x", .num (lit "0.4")),
            ("proxy-gpt-x", .num (lit "0.4"))]⟩ := rfl
  have h := (modelRatio_put_first Binary64 (optionsGateway sampleOptions 500 "boom") [] "sys"
    (lit "1.0") (lit "2.0") "gpt-x" "proxy-gpt-x"
    (sampleRecords.map (fun r => (r.toJS : JSValue Binary64)))
    (servesOptions_sample [] "sys" 500 "boom")).1 _ hscan
  exact (h rfl rfl).2.2.1 500 "boom" rfl (by decide)

/-! ## Theorems: the host fallback -/

/-- C13: when stripping one leading `http://` or `https://` from baseUrl and
cutting at the first `/` leaves the empty string, the host that createChannel
derives is baseUrl itself, and the channel name of both files starts with it;
for every baseUrl the derived host is empty only when baseUrl is empty; and
the three base URLs `https://`, `/v1` and `https:///v1` are such inputs. -/
theorem deriveHost_fallback (ν : Type) [JSNumber ν]
    (baseUrl token sourceModel targetModel : String)
    (hempty : splitSlashHead (stripScheme baseUrl.data) = []) :
    deriveHost baseUrl = baseUrl ∧
      getNamed (Node.channelBody baseUrl token sourceModel targetModel : JSValue ν) "name"
        = .ok (.str (baseUrl ++ " " ++ sourceModel ++ " -> " ++ targetModel)) ∧
      getNamed (App.channelBody baseUrl token sourceModel targetModel : JSValue ν) "name"
        = .ok (.str (baseUrl ++ " " ++ sourceModel ++ " -> " ++ targetModel)) ∧
      (∀ url : String, deriveHost url = "" → url = "") ∧
      (splitSlashHead (stripScheme "https://".data) = [] ∧ deriveHost "https://" = "https://") ∧
      (splitSlashHead (stripScheme "/v1".data) = [] ∧ deriveHost "/v1" = "/v1") ∧
      (splitSlashHead (stripScheme "https:///v1".data) = [] ∧
        deriveHost "https:///v1" = "https:///v1") := by
  have hhost : deriveHost baseUrl = baseUrl := by
    unfold deriveHost
    simp only [hempty]
    rw [if_pos trivial]
  have hN : getNamed (Node.channelBody baseUrl token sourceModel targetModel : JSValue ν) "name"
      = .ok (.str (deriveHost baseUrl ++ " " ++ sourceModel ++ " -> " ++ targetModel)) := rfl
  have hA : getNamed (App.channelBody baseUrl token sourceModel targetModel : JSValue ν) "name"
      = .ok (.str (deriveHost baseUrl ++ " " ++ sourceModel ++ " -> " ++ targetModel)) := rfl
  rw [hhost] at hN hA
  refine ⟨hhost, hN, hA, ?_, ⟨by decide, by decide⟩, ⟨by decide, by decide⟩,
    ⟨by decide, by decide⟩⟩
  intro url hurl
  unfold deriveHost at hurl
  dsimp only at hurl
  split at hurl
  · exact hurl
  · rename_i hne
    exact absurd hurl hne

theorem deriveHost_fallback_witness :
    deriveHost "https:///v1" = "https:///v1" ∧
      getNamed (Node.channelBody "https:///v1" "sk-source" "gpt-x" "proxy-gpt-x" :
          JSValue Binary64) "name" = .ok (.str "https:///v1 gpt-x -> proxy-gpt-x") := by
  obtain ⟨h1, h2, -⟩ := deriveHost_fallback Binary64 "https:///v1" "sk-source" "gpt-x"
    "proxy-gpt-x" (by decide)
  exact ⟨h1, h2⟩

/-! ## Lemmas: the two files side by side -/

theorem Node.catchBlock_of_logs {ν : Type} [JSNumber ν] (w : Working ν) (item : JSValue ν)
    (h : LogsRawValue item) : Node.catchBlock w item = .ok w := by
  obtain ⟨v, t, hv, ht⟩ := h
  simp only [Node.catchBlock, hv, ht]

theorem logsRawValue_of_record {ν : Type} [JSNumber ν] (item : JSValue ν) (r : OptionRecord)
    (h : IsRecord item r) : LogsRawValue item := by
  obtain ⟨props, rfl, -, hv⟩ := h
  exact ⟨.str r.value, r.value.data, by simp [getNamed, hv], toStringJS_str _⟩

/-- One turn of the loop is the same in both files when the catch block of
add_channel.js completes. -/
theorem Node.scanItem_eq_browser {ν : Type} [JSNumber ν] (inp out : ν) (src tgt : String)
    (w : Working ν) (item : JSValue ν) (h : LogsRawValue item) :
    Node.scanItem inp out src tgt w item = App.scanItem inp out src tgt w item := by
  have hc := Node.catchBlock_of_logs w item h
  unfold Node.scanItem App.scanItem
  cases getNamed item "key" with
  | error e => rfl
  | ok key =>
    simp only
    split
    · cases parseItemValue item with
      | error e => simp only [hc]
      | ok parsed =>
        simp only
        cases setBoth parsed src tgt (JSNumber.div out inp) with
        | error e => simp only [hc]
        | ok p => rfl
    · split
      · cases parseItemValue item with
        | error e => simp only [hc]
        | ok parsed =>
          simp only
          cases setBoth parsed src tgt (JSNumber.div inp (JSNumber.literal "2.5".data)) with
          | error e => simp only [hc]
          | ok p => rfl
      · rfl

theorem Node.scan_eq_browser {ν : Type} [JSNumber ν] (inp out : ν) (src tgt : String)
    (items : List (JSValue ν)) (h : ∀ item ∈ items, LogsRawValue item) (w : Working ν) :
    Node.scan inp out src tgt items w = App.scan inp out src tgt items w := by
  induction items generalizing w with
  | nil => rfl
  | cons item rest ih =>
    simp only [Node.scan, App.scan,
      Node.scanItem_eq_browser inp out src tgt w item (h item (List.mem_cons_self _ _))]
    cases App.scanItem inp out src tgt w item with
    | error e => rfl
    | ok w1 => exact ih (fun x hx => h x (List.mem_cons_of_mem _ hx)) w1

/-- The push of a truthy table makes the same request in both files and
completes in one exactly when it completes in the other. -/
theorem Node.pushTable_eq_browser {ν : Type} [JSNumber ν] (gw : Gateway) (trace : List Request)
    (tok key : String) (table : JSValue ν) (h : toBoolean table = true) :
    (Node.pushTable gw trace tok key table).2 = (App.updateOption gw trace tok key table).2 ∧
      ((Node.pushTable gw trace tok key table).1 = .ok () ↔
        (App.updateOption gw trace tok key table).1 = .ok ()) := by
  have hreq : (Node.putRequest tok key table : Request) = App.putRequest tok key table := rfl
  simp only [Node.pushTable, App.updateOption, h, if_true, hreq]
  cases gw trace (App.putRequest tok key table) with
  | failure m => simp
  | response status text =>
    by_cases hok : responseOk status = true
    · simp [hok]
    · simp [hok]

/-- The requests of createChannel are the same in both files, and it
completes in one exactly when it completes in the other. -/
theorem Node.createChannel_eq_browser (ν : Type) [JSNumber ν] (gw : Gateway)
    (trace : List Request) (tok baseUrl token src tgt : String) :
    (Node.createChannel ν gw trace tok baseUrl token src tgt).2
        = (App.createChannel ν gw trace tok baseUrl token src tgt).2 ∧
      ((Node.createChannel ν gw trace tok baseUrl token src tgt).1 = .ok () ↔
        (App.createChannel ν gw trace tok baseUrl token src tgt).1 = .ok ()) := by
  have hreq : Node.channelRequest ν tok baseUrl token src tgt
      = App.channelRequest ν tok baseUrl token src tgt := rfl
  simp only [Node.createChannel, App.createChannel, hreq]
  cases gw trace (App.channelRequest ν tok baseUrl token src tgt) with
  | failure m => simp
  | response status text =>
    by_cases hok : responseOk status = true
    · simp [hok]
    · simp [hok]

theorem Node.updateModelPriceRate_of_body {ν : Type} [JSNumber ν] (gw : Gateway)
    (trace : List Request) (tok : String) (inp out : ν) (src tgt : String) :
    (Node.updateModelPriceRate gw trace tok inp out src tgt).2
        = (Node.updateModelPriceRate.body gw trace tok inp out src tgt).2 ∧
      ((∃ r, (Node.updateModelPriceRate gw trace tok inp out src tgt).1 = .ok r) ↔
        ∃ r, (Node.updateModelPriceRate.body gw trace tok inp out src tgt).1 = .ok r) := by
  unfold Node.updateModelPriceRate
  rcases Node.updateModelPriceRate.body gw trace tok inp out src tgt with ⟨r, t⟩
  cases r <;> simp

/-- The two pushes make the same requests in both files. -/
theorem Node.pushes_eq_browser {ν : Type} [JSNumber ν] (gw : Gateway) (t1 : List Request)
    (tok : String) (w : Working ν) :
    (match Node.pushTable gw t1 tok "ModelRatio" w.modelRatio with
      | (.error e, t2) => ((.error e : Except String (RatioResult ν)), t2)
      | (.ok _, t2) =>
        match Node.pushTable gw t2 tok "CompletionRatio" w.completionRatio with
        | (.error e, t3) => (.error e, t3)
        | (.ok _, t3) =>
          (.ok { completion_ratio := w.completionRatio, model_ratio := w.modelRatio }, t3)).2
      = (match (if toBoolean w.modelRatio then
              App.updateOption gw t1 tok "ModelRatio" w.modelRatio
            else (.ok (), t1)) with
          | (.error e, t2) => ((.error e : Except String Unit), t2)
          | (.ok _, t2) =>
            if toBoolean w.completionRatio then
              App.updateOption gw t2 tok "CompletionRatio" w.completionRatio
            else (.ok (), t2)).2 ∧
      ((∃ r, (match Node.pushTable gw t1 tok "ModelRatio" w.modelRatio with
          | (.error e, t2) => ((.error e : Except String (RatioResult ν)), t2)
          | (.ok _, t2) =>
            match Node.pushTable gw t2 tok "CompletionRatio" w.completionRatio with
            | (.error e, t3) => (.error e, t3)
            | (.ok _, t3) =>
              (.ok { completion_ratio := w.completionRatio, model_ratio := w.modelRatio },
                t3)).1 = .ok r) ↔
        (match (if toBoolean w.modelRatio then
              App.updateOption gw t1 tok "ModelRatio" w.modelRatio
            else (.ok (), t1)) with
          | (.error e, t2) => ((.error e : Except String Unit), t2)
          | (.ok _, t2) =>
            if toBoolean w.completionRatio then
              App.updateOption gw t2 tok "CompletionRatio" w.completionRatio
            else (.ok (), t2)).1 = .ok ()) := by
  have hfirst : ∃ (rn : Except String Unit) (ra : Except String Unit) (t2 : List Request),
      Node.pushTable gw t1 tok "ModelRatio" w.modelRatio = (rn, t2) ∧
        (if toBoolean w.modelRatio then App.updateOption gw t1 tok "ModelRatio" w.modelRatio
          else (.ok (), t1)) = (ra, t2) ∧ (rn = .ok () ↔ ra = .ok ()) := by
    by_cases hm : toBoolean w.modelRatio = true
    · obtain ⟨h1, h2⟩ := Node.pushTable_eq_browser gw t1 tok "ModelRatio" w.modelRatio hm
      refine ⟨(Node.pushTable gw t1 tok "ModelRatio" w.modelRatio).1,
        (App.updateOption gw t1 tok "ModelRatio" w.modelRatio).1,
        (App.updateOption gw t1 tok "ModelRatio" w.modelRatio).2, Prod.ext rfl h1, ?_, h2⟩
      rw [if_pos hm]
    · have hm2 : toBoolean w.modelRatio = false := by simpa using hm
      refine ⟨.ok (), .ok (), t1, Node.pushTable_falsy _ _ _ _ _ hm2, ?_, Iff.rfl⟩
      simp [hm2]
  obtain ⟨rn, ra, t2, hn, ha, hiff⟩ := hfirst
  have hsecond : ∃ (rn2 : Except String Unit) (ra2 : Except String Unit) (t3 : List Request),
      Node.pushTable gw t2 tok "CompletionRatio" w.completionRatio = (rn2, t3) ∧
        (if toBoolean w.completionRatio then
            App.updateOption gw t2 tok "CompletionRatio" w.completionRatio
          else (.ok (), t2)) = (ra2, t3) ∧ (rn2 = .ok () ↔ ra2 = .ok ()) := by
    by_cases hc : toBoolean w.completionRatio = true
    · obtain ⟨h1, h2⟩ :=
        Node.pushTable_eq_browser gw t2 tok "CompletionRatio" w.completionRatio hc
      refine ⟨(Node.pushTable gw t2 tok "CompletionRatio" w.completionRatio).1,
        (App.updateOption gw t2 tok "CompletionRatio" w.completionRatio).1,
        (App.updateOption gw t2 tok "CompletionRatio" w.completionRatio).2, Prod.ext rfl h1, ?_,
        h2⟩
      rw [if_pos hc]
    · have hc2 : toBoolean w.completionRatio = false := by simpa using hc
      refine ⟨.ok (), .ok (), t2, Node.pushTable_falsy _ _ _ _ _ hc2, ?_, Iff.rfl⟩
      simp [hc2]
  obtain ⟨rn2, ra2, t3, hn2, ha2, hiff2⟩ := hsecond
  rw [hn, ha]
  cases rn with
  | error e =>
    cases ra with
    | error e2 => simp
    | ok u => exact absurd (hiff.2 rfl) (by simp)
  | ok u =>
    cases ra with
    | error e2 => exact absurd (hiff.1 rfl) (by simp)
    | ok u2 =>
      simp only
      rw [hn2, ha2]
      cases rn2 with
      | error e =>
        cases ra2 with
        | error e2 => simp
        | ok u3 => exact absurd (hiff2.2 rfl) (by simp)
      | ok u3 =>
        cases ra2 with
        | error e2 => exact absurd (hiff2.1 rfl) (by simp)
        | ok u4 => simp

/-- The price update makes the same requests in both files, and completes in
one exactly when it completes in the other, when the catch block of
add_channel.js completes on every element served. -/
theorem Node.updateModelPriceRate_eq_browser {ν : Type} [JSNumber ν] (gw : Gateway)
    (trace : List Request) (tok : String) (inp out : ν) (src tgt : String)
    (hlog : ServesLoggable ν gw tok) :
    (Node.updateModelPriceRate gw trace tok inp out src tgt).2
        = (App.updatePrice gw trace tok inp out src tgt).2 ∧
      ((∃ r, (Node.updateModelPriceRate gw trace tok inp out src tgt).1 = .ok r) ↔
        (App.updatePrice gw trace tok inp out src tgt).1 = .ok ()) := by
  obtain ⟨hb2, hb1⟩ := Node.updateModelPriceRate_of_body gw trace tok inp out src tgt
  rw [hb2, hb1]
  unfold Node.updateModelPriceRate.body App.updatePrice
  dsimp only
  cases hg : gw trace (getRequest tok) with
  | failure m => simp
  | response status body =>
    simp only
    by_cases hok : responseOk status = true
    · simp only [hok, Bool.not_true, Bool.false_eq_true, if_false]
      cases hp : (JSON.parse body : Except String (JSValue ν)) with
      | error e => simp
      | ok api =>
        simp only
        cases hd : getNamed api "data" with
        | error e => simp
        | ok d =>
          simp only
          cases logLength (dataOrEmpty d) with
          | error e => simp
          | ok u =>
            simp only
            cases hi : iterate (dataOrEmpty d) with
            | error e => simp
            | ok items =>
              simp only
              rw [Node.scan_eq_browser inp out src tgt items
                (hlog trace status body api d items hg hp hd hi) ⟨.null, .null⟩]
              cases App.scan inp out src tgt items ⟨.null, .null⟩ with
              | error e => simp
              | ok w => exact Node.pushes_eq_browser gw (trace ++ [getRequest tok]) tok w
    · have hok2 : responseOk status = false := by simpa using hok
      simp [hok2]

/-- The whole run makes the same requests in both files when the catch block
of add_channel.js completes on every element served. -/
theorem Node.main_eq_browser {ν : Type} [JSNumber ν] (gw : Gateway) (env : Option String)
    (baseUrl token src tgt : String) (inp out : ν)
    (hlog : ServesLoggable ν gw (Node.systemTokenOf env)) :
    (Node.main gw env baseUrl token src tgt inp out).2
      = (App.runScript gw
          (some ⟨Node.systemTokenOf env, baseUrl, token, src, tgt, inp, out⟩)).2 := by
  obtain ⟨h2, h1⟩ := Node.createChannel_eq_browser ν gw [] (Node.systemTokenOf env) baseUrl
    token src tgt
  unfold Node.main App.runScript
  dsimp only
  rcases hn : Node.createChannel ν gw [] (Node.systemTokenOf env) baseUrl token src tgt
    with ⟨rn, tn⟩
  rcases ha : App.createChannel ν gw [] (Node.systemTokenOf env) baseUrl token src tgt
    with ⟨ra, ta⟩
  rw [hn, ha] at h2 h1
  simp only at h2 h1
  subst h2
  cases rn with
  | error e =>
    cases ra with
    | error e2 => rfl
    | ok u => exact absurd (h1.2 rfl) (by simp)
  | ok u =>
    cases ra with
    | error e2 => exact absurd (h1.1 rfl) (by simp)
    | ok u2 =>
      simp only
      rw [(Node.updateModelPriceRate_eq_browser gw tn (Node.systemTokenOf env) inp out src tgt
        hlog).1]
      rcases App.updatePrice gw tn (Node.systemTokenOf env) inp out src tgt with ⟨r, t⟩
      cases r <;> rfl

/-! ## Theorems: the two files on the wire -/

/-- C14 (failing input): the gateway accepts the channel and serves the
options list ModelRatio `{}`, CompletionRatio with the `value` an object that
has an own `toString` property. In both files `JSON.parse(item.value)` throws
on the second record; the catch block of add_channel.js then throws again on
`item.value`, so updateModelPriceRate fails after the GET, while app.js skips
the record and goes on to the ModelRatio PUT: the run of add_channel.js makes
two requests and the run of app.js three, on the same inputs and answers. -/
theorem node_browser_requests_differ :
    Node.main (optionsGateway guardedOptions 200 "") (some "sys") "https://foo.example.com/v1"
        "sk-source" "gpt-x" "proxy-gpt-x" (lit "1.0") (lit "2.0")
      = (.error ("Failed to update model prices: " ++
            "Cannot convert object to primitive value"),
          [Node.channelRequest Binary64 "sys" "https://foo.example.com/v1" "sk-source" "gpt-x"
            "proxy-gpt-x", getRequest "sys"]) ∧
      App.runScript (optionsGateway guardedOptions 200 "")
          (some ⟨"sys", "https://foo.example.com/v1", "sk-source", "gpt-x", "proxy-gpt-x",
            lit "1.0", lit "2.0"⟩)
        = (none,
          [App.channelRequest Binary64 "sys" "https://foo.example.com/v1" "sk-source" "gpt-x"
            "proxy-gpt-x", getRequest "sys",
            App.putRequest "sys" "ModelRatio"
              (.obj [("gpt-x", .num (lit "0.4")), ("proxy-gpt-x", .num (lit "0.4"))] :
                JSValue Binary64)]) ∧
      (Node.main (optionsGateway guardedOptions 200 "") (some "sys")
          "https://foo.example.com/v1" "sk-source" "gpt-x" "proxy-gpt-x" (lit "1.0")
          (lit "2.0")).2
        ≠ (App.runScript (optionsGateway guardedOptions 200 "")
          (some ⟨"sys", "https://foo.example.com/v1", "sk-source", "gpt-x", "proxy-gpt-x",
            lit "1.0", lit "2.0"⟩)).2 ∧
      (JSON.parse guardedOptions : Except String (JSValue Binary64))
        = .ok (.obj [("data", .arr
            [.obj [("key", .str "ModelRatio"), ("value", .str "\x7b\x7d")],
              .obj [("key", .str "CompletionRatio"),
                ("value", .obj [("toString", .num (lit "1"))])]] [])]) ∧
      ¬ LogsRawValue (.obj [("key", .str "CompletionRatio"),
          ("value", .obj [("toString", .num (lit "1"))])] : JSValue Binary64) := by
  refine ⟨rfl, rfl, ?_, rfl, ?_⟩
  · intro h
    have hl := congrArg List.length h
    have h1 : (Node.main (optionsGateway guardedOptions 200 "") (some "sys")
        "https://foo.example.com/v1" "sk-source" "gpt-x" "proxy-gpt-x" (lit "1.0")
        (lit "2.0")).2.length = 2 := rfl
    have h2 : (App.runScript (optionsGateway guardedOptions 200 "")
        (some ⟨"sys", "https://foo.example.com/v1", "sk-source", "gpt-x", "proxy-gpt-x",
          lit "1.0", lit "2.0"⟩)).2.length = 3 := rfl
    rw [h1, h2] at hl
    exact absurd hl (by decide)
  · rintro ⟨v, t, hv, ht⟩
    have hv2 : v = .obj [("toString", .num (lit "1"))] := by
      have : getNamed (.obj [("key", .str "CompletionRatio"),
          ("value", .obj [("toString", .num (lit "1"))])] : JSValue Binary64) "value"
          = .ok (.obj [("toString", .num (lit "1"))]) := rfl
      rw [this] at hv
      exact (Except.ok.inj hv).symm
    subst hv2
    have : toStringJS (.obj [("toString", .num (lit "1"))] : JSValue Binary64)
        = .error "Cannot convert object to primitive value" := rfl
    rw [this] at ht
    exact Except.noConfusion ht

end AddChannel
